import Mathlib

/-!
# ViperChess: position representation, move generation, evaluation and search

A shallow embedding of `src/board.hpp`, `src/board.cpp`, `src/eval.cpp`,
`src/search.hpp`, `src/search.cpp` and the move text of `src/uci.cpp`.

* Machine integers are natural numbers or integers.  A `Bitboard` is a `Nat`
  (every value the code builds from on-board squares is below `2 ^ 64`), a
  `Square` is a `Nat` (the enum has underlying type `uint8_t`, so arithmetic
  on squares is taken modulo `256`), C `int`s are `Int`.
* The arrays `m_squares` (64 entries) and `m_pieces` are total functions, and
  the model is that of the program for indices inside the arrays. The source
  indexes `m_squares` unchecked; an index of 64 or more is undefined
  behaviour there (the compiled program reads or writes what follows the
  array in the object, the piece bitboards). `piece_at_checked` and
  `make_move_checked` tell when an access is inside the array; what
  `piece_at` and `make_move` give at an index of 64 or more is the value of
  the function only.
* A failed `assert` aborts the program. `find_king_checked` and
  `evaluate_checked` carry the assertion of `find_king`; `kings_present` is
  the condition under which it holds.
* `while (bb) { sq = pop_lsb(bb); ... }` loops are the list `pop_all bb`
  of the squares popped, in order.
-/

namespace ViperChess

/-! ## Data model (board.hpp) -/

/-- Source `using Bitboard = uint64_t`. -/
abbrev Bitboard := Nat

/-- Source `enum Color : uint8_t { WHITE, BLACK, NUM_COLORS, NONE }`. -/
inductive Color where
  | WHITE
  | BLACK
  | NUM_COLORS
  | NONE
deriving DecidableEq, Repr

/-- Source `enum PieceType : uint8_t`. -/
inductive PieceType where
  | PAWN
  | KNIGHT
  | BISHOP
  | ROOK
  | QUEEN
  | KING
  | NUM_PIECE_TYPES
  | NONE_PIECE
deriving DecidableEq, Repr

open Color PieceType

/-- Source `enum Square : uint8_t { A1, ..., H8, NUM_SQUARES }`: `A1 = 0`, `H8 = 63`. -/
abbrev Square := Nat

def A1 : Square := 0
def B1 : Square := 1
def C1 : Square := 2
def D1 : Square := 3
def E1 : Square := 4
def F1 : Square := 5
def G1 : Square := 6
def H1 : Square := 7
def A8 : Square := 56
def B8 : Square := 57
def C8 : Square := 58
def D8 : Square := 59
def E8 : Square := 60
def F8 : Square := 61
def G8 : Square := 62
def H8 : Square := 63
def NUM_SQUARES : Square := 64

/-- Source `operator+(Square s, int i) { return Square(int(s) + i); }`: the result is
converted back to the `uint8_t` enum. `operator-` is `sq_add s (-i)`. -/
def sq_add (s : Square) (i : Int) : Square := (((s : Int) + i) % 256).toNat

/-- Source `enum castlingRights : uint8_t`. -/
def WHITE_OO : Nat := 1
def WHITE_OOO : Nat := 2
def BLACK_OO : Nat := 4
def BLACK_OOO : Nat := 8

/-- Source `struct Move`. The fields `from` and `to` are spelled `from_` and
`to_`; the field `weight` (set to `1` by every generator and ignored by
`operator==`) is not carried, so equality of `Move` values is
`Move::operator==`. -/
structure Move where
  from_ : Square
  to_ : Square
  promotion : PieceType := NONE_PIECE
deriving DecidableEq, Repr

/-- Source `struct Piece`. -/
structure Piece where
  type : PieceType
  color : Color
deriving DecidableEq, Repr

/-- Source `Piece::NONE`. -/
def Piece.NONE : Piece := ⟨NONE_PIECE, Color.NONE⟩

/-- The tables of `namespace Zobrist`. `Zobrist::init` fills them with the
successive outputs of `std::mt19937_64 rng(123456)`; the values are taken as
given. -/
structure Zobrist where
  piece_keys : PieceType → Color → Square → Nat
  side_key : Nat
  castling_keys : Nat → Nat
  ep_keys : Square → Nat

/-- The data members of `class Board`. -/
structure Board where
  m_zobrist_key : Nat
  m_squares : Square → Piece
  m_pieces : Color → PieceType → Bitboard
  m_side_to_move : Color
  m_en_passant : Square
  m_halfmove_clock : Int
  m_fullmove_number : Int
  m_castling_rights : Nat

/-! ## Accessors -/

/-- Source `Board::piece_at`: the entry `m_squares[sq]`, for `sq` below 64.
The source does not check the index (`piece_at_checked`). -/
def piece_at (b : Board) (sq : Square) : Piece := b.m_squares sq

def is_empty (b : Board) (sq : Square) : Bool := (piece_at b sq).type == NONE_PIECE

def is_on_board (sq : Square) : Bool := decide (sq ≥ A1) && decide (sq < NUM_SQUARES)

/-- Source `Board::piece_at` with the bounds of `std::array<Piece, 64>`: the
source indexes `m_squares` unchecked, and an index of 64 or more is outside
the array. `none` stands for such a read. -/
def piece_at_checked (b : Board) (sq : Square) : Option Piece :=
  if is_on_board sq then some (piece_at b sq) else none

def file_of (sq : Square) : Int := ((sq % 8 : Nat) : Int)

def rank_of (sq : Square) : Int := ((sq / 8 : Nat) : Int)

def get_zobrist_key (b : Board) : Nat := b.m_zobrist_key

def opposite_color (color : Color) : Color := if color = WHITE then BLACK else WHITE

/-- Source `Board::occupancy`: the union of the twelve piece bitboards. -/
def occupancy (b : Board) : Bitboard :=
  [WHITE, BLACK].foldl (fun occ c =>
    [PAWN, KNIGHT, BISHOP, ROOK, QUEEN, KING].foldl (fun occ pt => occ ||| b.m_pieces c pt) occ) 0

/-! ## Bit utilities -/

/-- Source `__builtin_ctzll`: index of the least significant set bit (the builtin is
undefined on `0`; the model returns `64` there). -/
def ctz (bb : Bitboard) : Nat := ((List.range 64).find? (fun i => bb.testBit i)).getD 64

/-- Source `count_bits` = `__builtin_popcountll`. -/
def count_bits (bb : Bitboard) : Nat := ((List.range 64).filter (fun i => bb.testBit i)).length

/-- Source `Board::pop_lsb`: returns the square of the lowest set bit and the
bitboard with that bit cleared (`bb &= bb - 1`). -/
def pop_lsb (bb : Bitboard) : Square × Bitboard := (ctz bb, bb &&& (bb - 1))

/-- The squares produced by `while (bb) { sq = pop_lsb(bb); ... }`. A 64-bit
board has at most 64 set bits, which is the `fuel` every caller passes. -/
def pop_loop : Nat → Bitboard → List Square
  | 0, _ => []
  | fuel + 1, bb => if bb = 0 then [] else (pop_lsb bb).1 :: pop_loop fuel (pop_lsb bb).2

def pop_all (bb : Bitboard) : List Square := pop_loop 64 bb

/-! ## Attack tables (init_attack_tables) -/

/-- Source `pawn_attack_table[c][sq]` as `init_attack_tables` fills it (entries
exist for `sq < 64` and the two real colours). -/
def pawn_attack_table (c : Color) (sq : Square) : Bitboard :=
  let file := file_of sq
  let rank := rank_of sq
  match c with
  | WHITE =>
    let t : Bitboard := 0
    if rank < 7 then
      let t := if file > 0 then t ||| (1 <<< (sq + 7)) else t
      let t := if file < 7 then t ||| (1 <<< (sq + 9)) else t
      t
    else t
  | BLACK =>
    let t : Bitboard := 0
    if rank > 0 then
      let t := if file > 0 then t ||| (1 <<< (sq - 9)) else t
      let t := if file < 7 then t ||| (1 <<< (sq - 7)) else t
      t
    else t
  | _ => 0

/-- Source `knight_attack_table[sq]` as `init_attack_tables` fills it. -/
def knight_attack_table (sq : Square) : Bitboard :=
  ([-2, -1, 1, 2] : List Int).foldl (fun knight_bb dx =>
    ([-2, -1, 1, 2] : List Int).foldl (fun knight_bb dy =>
      if dx.natAbs + dy.natAbs = 3 then
        let file := file_of sq + dx
        let rank := rank_of sq + dy
        if file ≥ 0 ∧ file < 8 ∧ rank ≥ 0 ∧ rank < 8 then
          knight_bb ||| (1 <<< (rank * 8 + file).toNat)
        else knight_bb
      else knight_bb) knight_bb) 0

/-- Source `king_attack_table[sq]` as `init_attack_tables` fills it. -/
def king_attack_table (sq : Square) : Bitboard :=
  ([-1, 0, 1] : List Int).foldl (fun king_bb dx =>
    ([-1, 0, 1] : List Int).foldl (fun king_bb dy =>
      if dx = 0 ∧ dy = 0 then king_bb
      else
        let file := file_of sq + dx
        let rank := rank_of sq + dy
        if file ≥ 0 ∧ file < 8 ∧ rank ≥ 0 ∧ rank < 8 then
          king_bb ||| (1 <<< (rank * 8 + file).toNat)
        else king_bb) king_bb) 0

/-! ## Sliding attacks -/

/-- The bit indices `8 * i + j` visited by a loop
`for (i = i0, j = j0; cond(i, j); i += di, j += dj)`. Every loop below starts
next to a square of a `uint8_t` index and moves monotonically towards a bound
at most 32 steps away, so `fuel = 32` never cuts a loop short. -/
def ray_squares (cond : Int → Int → Bool) (di dj : Int) : Nat → Int → Int → List Nat
  | 0, _, _ => []
  | fuel + 1, i, j =>
    if cond i j then (8 * i + j).toNat :: ray_squares cond di dj fuel (i + di) (j + dj)
    else []

/-- The body shared by the eight loops of `compute_rook_attacks` and
`compute_bishop_attacks`: `attacks |= bit; if (occupancy & bit) break;`. -/
def ray_scan (occupancy : Bitboard) : List Nat → Bitboard → Bitboard
  | [], attacks => attacks
  | k :: rest, attacks =>
    if occupancy &&& (1 <<< k) ≠ 0 then attacks ||| (1 <<< k)
    else ray_scan occupancy rest (attacks ||| (1 <<< k))

/-- The four loops of `compute_rook_attacks`, in source order
(north, south, east, west). -/
def rook_rays (sq : Square) : List (List Nat) :=
  let r : Int := ((sq / 8 : Nat) : Int)
  let f : Int := ((sq % 8 : Nat) : Int)
  [ ray_squares (fun i _ => decide (i < 8)) 1 0 32 (r + 1) f,
    ray_squares (fun i _ => decide (i ≥ 0)) (-1) 0 32 (r - 1) f,
    ray_squares (fun _ j => decide (j < 8)) 0 1 32 r (f + 1),
    ray_squares (fun _ j => decide (j ≥ 0)) 0 (-1) 32 r (f - 1) ]

/-- The four loops of `compute_bishop_attacks`, in source order
(north-east, south-east, south-west, north-west). -/
def bishop_rays (sq : Square) : List (List Nat) :=
  let r : Int := ((sq / 8 : Nat) : Int)
  let f : Int := ((sq % 8 : Nat) : Int)
  [ ray_squares (fun i j => decide (i < 8) && decide (j < 8)) 1 1 32 (r + 1) (f + 1),
    ray_squares (fun i j => decide (i ≥ 0) && decide (j < 8)) (-1) 1 32 (r - 1) (f + 1),
    ray_squares (fun i j => decide (i ≥ 0) && decide (j ≥ 0)) (-1) (-1) 32 (r - 1) (f - 1),
    ray_squares (fun i j => decide (i < 8) && decide (j ≥ 0)) 1 (-1) 32 (r + 1) (f - 1) ]

/-- Source `Board::compute_rook_attacks`. -/
def compute_rook_attacks (sq : Square) (occupancy : Bitboard) : Bitboard :=
  (rook_rays sq).foldl (fun attacks ray => ray_scan occupancy ray attacks) 0

/-- Source `Board::compute_bishop_attacks`. -/
def compute_bishop_attacks (sq : Square) (occupancy : Bitboard) : Bitboard :=
  (bishop_rays sq).foldl (fun attacks ray => ray_scan occupancy ray attacks) 0

/-- The four loops of `rook_mask`, in source order. -/
def rook_mask_rays (sq : Square) : List (List Nat) :=
  let r : Int := ((sq / 8 : Nat) : Int)
  let f : Int := ((sq % 8 : Nat) : Int)
  [ ray_squares (fun i _ => decide (i ≤ 6)) 1 0 32 (r + 1) f,
    ray_squares (fun i _ => decide (i ≥ 1)) (-1) 0 32 (r - 1) f,
    ray_squares (fun _ j => decide (j ≤ 6)) 0 1 32 r (f + 1),
    ray_squares (fun _ j => decide (j ≥ 1)) 0 (-1) 32 r (f - 1) ]

/-- The four loops of `bishop_mask`, in source order. -/
def bishop_mask_rays (sq : Square) : List (List Nat) :=
  let r : Int := ((sq / 8 : Nat) : Int)
  let f : Int := ((sq % 8 : Nat) : Int)
  [ ray_squares (fun i j => decide (i ≤ 6) && decide (j ≤ 6)) 1 1 32 (r + 1) (f + 1),
    ray_squares (fun i j => decide (i ≤ 6) && decide (j ≥ 1)) 1 (-1) 32 (r + 1) (f - 1),
    ray_squares (fun i j => decide (i ≥ 1) && decide (j ≤ 6)) (-1) 1 32 (r - 1) (f + 1),
    ray_squares (fun i j => decide (i ≥ 1) && decide (j ≥ 1)) (-1) (-1) 32 (r - 1) (f - 1) ]

/-- Source `rook_mask`: every visited square is or-ed into the mask. -/
def rook_mask (sq : Square) : Bitboard :=
  (rook_mask_rays sq).foldl (fun mask ray => ray.foldl (fun mask k => mask ||| (1 <<< k)) mask) 0

/-- Source `bishop_mask`. -/
def bishop_mask (sq : Square) : Bitboard :=
  (bishop_mask_rays sq).foldl (fun mask ray => ray.foldl (fun mask k => mask ||| (1 <<< k)) mask) 0

/-- Modelled from the spec: `magic_bits.hpp` (the magic multipliers and index
bit counts) is not part of the sources. The spec's magic constants index the
subsets of the mask without collision, so the slot of `rook_attacks[sq]` read
for a masked occupancy holds what `init_sliding_attacks` stored for that very
subset: `compute_rook_attacks(sq, subset)`. -/
def rook_table_entry (sq : Square) (subset : Bitboard) : Bitboard :=
  compute_rook_attacks sq subset

/-- Modelled from the spec: the `bishop_attacks[sq]` slot of a masked
occupancy, as for `rook_table_entry`. -/
def bishop_table_entry (sq : Square) (subset : Bitboard) : Bitboard :=
  compute_bishop_attacks sq subset

/-- Source `Board::get_rook_attacks`: mask the occupancy, then look the slot up. -/
def get_rook_attacks (sq : Square) (occupancy : Bitboard) : Bitboard :=
  let occupancy := occupancy &&& rook_mask sq
  rook_table_entry sq occupancy

/-- Source `Board::get_bishop_attacks`. -/
def get_bishop_attacks (sq : Square) (occupancy : Bitboard) : Bitboard :=
  let occupancy := occupancy &&& bishop_mask sq
  bishop_table_entry sq occupancy

/-- Source `Board::get_queen_attacks`. -/
def get_queen_attacks (sq : Square) (occupancy : Bitboard) : Bitboard :=
  get_rook_attacks sq occupancy ||| get_bishop_attacks sq occupancy

/-! ## Attack detection -/

/-- Source `Board::attackers_to`. -/
def attackers_to (b : Board) (sq : Square) (by_color : Color) : Bitboard :=
  let attackers : Bitboard := 0
  let occupied := occupancy b
  let attackers := attackers |||
    (pawn_attack_table (opposite_color by_color) sq &&& b.m_pieces by_color PAWN)
  let attackers := attackers ||| (knight_attack_table sq &&& b.m_pieces by_color KNIGHT)
  let attackers := attackers |||
    (get_bishop_attacks sq occupied &&& (b.m_pieces by_color BISHOP ||| b.m_pieces by_color QUEEN))
  let attackers := attackers |||
    (get_rook_attacks sq occupied &&& (b.m_pieces by_color ROOK ||| b.m_pieces by_color QUEEN))
  let attackers := attackers ||| (king_attack_table sq &&& b.m_pieces by_color KING)
  attackers

/-- Source `Board::is_square_attacked`. -/
def is_square_attacked (b : Board) (sq : Square) (by_color : Color) : Bool :=
  let pawn_attacks := pawn_attack_table by_color sq
  if pawn_attacks &&& b.m_pieces by_color PAWN ≠ 0 then true
  else
    let knight_attacks := knight_attack_table sq
    if knight_attacks &&& b.m_pieces by_color KNIGHT ≠ 0 then true
    else
      let bishop_attacks := get_bishop_attacks sq (occupancy b)
      if bishop_attacks &&& (b.m_pieces by_color BISHOP ||| b.m_pieces by_color QUEEN) ≠ 0 then true
      else
        let rook_attacks := get_rook_attacks sq (occupancy b)
        if rook_attacks &&& (b.m_pieces by_color ROOK ||| b.m_pieces by_color QUEEN) ≠ 0 then true
        else
          let king_attacks := king_attack_table sq
          if king_attacks &&& b.m_pieces by_color KING ≠ 0 then true
          else false

/-- Source `Board::find_king`: the square it returns. The source first asserts
that the king bitboard is not empty and aborts when it is
(`find_king_checked`); the value 64 that this definition has on an empty
bitboard is returned by no run of the program. -/
def find_king (b : Board) (color : Color) : Square :=
  let king_bb := b.m_pieces color KING
  (pop_lsb king_bb).1

/-- Source `Board::find_king` with its `assert(king_bb != 0)`: `none` when the
assertion fails and the program aborts. -/
def find_king_checked (b : Board) (color : Color) : Option Square :=
  let king_bb := b.m_pieces color KING
  if king_bb ≠ 0 then some (pop_lsb king_bb).1 else none

/-- Both kings are in the bitboards: the assertion of `find_king` holds for
either colour. -/
def kings_present (b : Board) : Prop :=
  b.m_pieces WHITE KING ≠ 0 ∧ b.m_pieces BLACK KING ≠ 0

instance (b : Board) : Decidable (kings_present b) := by
  unfold kings_present
  infer_instance

/-- Source `Board::is_in_check`. -/
def is_in_check (b : Board) (color : Color) : Bool :=
  let king_sq := find_king b color
  let opponent := opposite_color color
  is_square_attacked b king_sq opponent

/-- Source `Board::squares_between`. -/
def squares_between (a c : Square) : Bitboard :=
  let a_file := file_of a
  let a_rank := rank_of a
  let b_file := file_of c
  let b_rank := rank_of c
  if a_rank = b_rank then
    let start := min a_file b_file + 1
    let stop := max a_file b_file
    (ray_squares (fun _ f => decide (f < stop)) 0 1 32 a_rank start).foldl
      (fun result k => result ||| (1 <<< k)) 0
  else if a_file = b_file then
    let start := min a_rank b_rank + 1
    let stop := max a_rank b_rank
    (ray_squares (fun r _ => decide (r < stop)) 1 0 32 start a_file).foldl
      (fun result k => result ||| (1 <<< k)) 0
  else if (a_file - b_file).natAbs = (a_rank - b_rank).natAbs then
    let file_step : Int := if b_file > a_file then 1 else -1
    let rank_step : Int := if b_rank > a_rank then 1 else -1
    (ray_squares (fun r f => decide (f ≠ b_file) && decide (r ≠ b_rank)) rank_step file_step 32
        (a_rank + rank_step) (a_file + file_step)).foldl
      (fun result k => result ||| (1 <<< k)) 0
  else 0

/-! ## Pseudo-legal move generation -/

/-- The test `target.type == NONE_PIECE || target.color != mover.color` shared
by the piece generators. -/
def can_land (b : Board) (mover : Piece) (to_ : Square) : Bool :=
  let target := piece_at b to_
  target.type == NONE_PIECE || target.color != mover.color

/-- Source `Board::generate_king_moves`. -/
def generate_king_moves (b : Board) (sq : Square) : List Move :=
  let king := piece_at b sq
  let attacks := king_attack_table sq
  let moves : List Move :=
    ((pop_all attacks).filter (fun to_ =>
        can_land b king to_ && !is_square_attacked b to_ (opposite_color king.color))).map
      (fun to_ => ({ from_ := sq, to_ := to_ } : Move))
  if !is_in_check b king.color then
    let moves :=
      if (king.color = WHITE ∧ b.m_castling_rights &&& (1 <<< WHITE_OO) ≠ 0) ∨
         (king.color = BLACK ∧ b.m_castling_rights &&& (1 <<< BLACK_OO) ≠ 0) then
        let f := if king.color = WHITE then F1 else F8
        let g := if king.color = WHITE then G1 else G8
        if is_empty b f && is_empty b g &&
           !is_square_attacked b f (opposite_color king.color) &&
           !is_square_attacked b g (opposite_color king.color) then
          moves ++ [{ from_ := sq, to_ := g }]
        else moves
      else moves
    let moves :=
      if (king.color = WHITE ∧ b.m_castling_rights &&& (1 <<< WHITE_OOO) ≠ 0) ∨
         (king.color = BLACK ∧ b.m_castling_rights &&& (1 <<< BLACK_OOO) ≠ 0) then
        let d := if king.color = WHITE then D1 else D8
        let c := if king.color = WHITE then C1 else C8
        let b1 := if king.color = WHITE then B1 else B8
        if is_empty b d && is_empty b c && is_empty b b1 &&
           !is_square_attacked b d (opposite_color king.color) &&
           !is_square_attacked b c (opposite_color king.color) then
          moves ++ [{ from_ := sq, to_ := c }]
        else moves
      else moves
    moves
  else moves

/-- Source `Board::generate_queen_moves`. -/
def generate_queen_moves (b : Board) (sq : Square) : List Move :=
  let attacks := get_rook_attacks sq (occupancy b) ||| get_bishop_attacks sq (occupancy b)
  ((pop_all attacks).filter (fun to_ => can_land b (piece_at b sq) to_)).map
    (fun to_ => ({ from_ := sq, to_ := to_ } : Move))

/-- Source `Board::generate_knight_moves`. -/
def generate_knight_moves (b : Board) (sq : Square) : List Move :=
  let knight_deltas : List Int := [-17, -15, -10, -6, 6, 10, 15, 17]
  let knight := piece_at b sq
  (knight_deltas.filter (fun delta =>
      let to_ := sq_add sq delta
      is_on_board to_ &&
        (let file_diff := (file_of to_ - file_of sq).natAbs
         let rank_diff := (rank_of to_ - rank_of sq).natAbs
         decide (file_diff + rank_diff = 3 ∧ file_diff > 0 ∧ rank_diff > 0) &&
           can_land b knight to_))).map
    (fun delta => ({ from_ := sq, to_ := sq_add sq delta } : Move))

/-- Source `Board::generate_bishop_moves`. -/
def generate_bishop_moves (b : Board) (sq : Square) : List Move :=
  let bishop := piece_at b sq
  let attacks := get_bishop_attacks sq (occupancy b)
  ((pop_all attacks).filter (fun to_ => can_land b bishop to_)).map
    (fun to_ => ({ from_ := sq, to_ := to_ } : Move))

/-- Source `Board::generate_rook_moves`. -/
def generate_rook_moves (b : Board) (sq : Square) : List Move :=
  let rook := piece_at b sq
  let attacks := get_rook_attacks sq (occupancy b)
  ((pop_all attacks).filter (fun to_ => can_land b rook to_)).map
    (fun to_ => ({ from_ := sq, to_ := to_ } : Move))

/-- The body of the `for (int capture_dir : {-1, 1})` loop of
`generate_pawn_moves`: the moves one direction appends. -/
def pawn_capture_moves (b : Board) (sq forward : Square) (pawn : Piece) (capture_dir : Int) :
    List Move :=
  let new_file := file_of sq + capture_dir
  if new_file ≥ 0 ∧ new_file < 8 then
    let capture_sq := sq_add forward capture_dir
    let m1 : List Move :=
      if !is_empty b capture_sq && (piece_at b capture_sq).color != pawn.color then
        [{ from_ := sq, to_ := capture_sq }]
      else []
    let m2 : List Move :=
      if capture_sq = b.m_en_passant then [{ from_ := sq, to_ := capture_sq }] else []
    m1 ++ m2
  else []

/-- Source `Board::generate_pawn_moves`. -/
def generate_pawn_moves (b : Board) (sq : Square) : List Move :=
  let pawn := piece_at b sq
  let direction : Int := if pawn.color = WHITE then 1 else -1
  let forward := sq_add sq (8 * direction)
  let pushes : List Move :=
    if is_empty b forward then
      let single : List Move :=
        if rank_of forward = 7 ∨ rank_of forward = 0 then
          [ { from_ := sq, to_ := forward, promotion := QUEEN },
            { from_ := sq, to_ := forward, promotion := ROOK },
            { from_ := sq, to_ := forward, promotion := BISHOP },
            { from_ := sq, to_ := forward, promotion := KNIGHT } ]
        else [{ from_ := sq, to_ := forward }]
      let double : List Move :=
        if (pawn.color = WHITE ∧ rank_of sq = 1) ∨ (pawn.color = BLACK ∧ rank_of sq = 6) then
          let double_forward := sq_add forward (8 * direction)
          if is_empty b double_forward then [{ from_ := sq, to_ := double_forward }] else []
        else []
      single ++ double
    else []
  pushes ++ pawn_capture_moves b sq forward pawn (-1) ++ pawn_capture_moves b sq forward pawn 1

/-- The `switch (piece.type)` of `generate_pseudo_legal_moves`. -/
def piece_moves (b : Board) (sq : Square) : List Move :=
  match (piece_at b sq).type with
  | PAWN => generate_pawn_moves b sq
  | KNIGHT => generate_knight_moves b sq
  | BISHOP => generate_bishop_moves b sq
  | ROOK => generate_rook_moves b sq
  | QUEEN => generate_queen_moves b sq
  | KING => generate_king_moves b sq
  | _ => []

/-- Source `Board::generate_pseudo_legal_moves`. -/
def generate_pseudo_legal_moves (b : Board) : List Move :=
  (List.range 64).foldl (fun moves sq =>
    if (piece_at b sq).color ≠ b.m_side_to_move then moves
    else moves ++ piece_moves b sq) []

/-! ## make_move and legal move generation -/

/-- Source `Board::make_move`, for a move whose `from` and `to` are below 64.
The source does not check the two indices (`make_move_checked`): with an index
of 64 or more its write lands past `m_squares`, which this definition does not
follow. -/
def make_move (Z : Zobrist) (b : Board) (move : Move) : Board :=
  let key := b.m_zobrist_key ^^^ Z.side_key
  let key := if b.m_en_passant ≠ NUM_SQUARES then key ^^^ Z.ep_keys b.m_en_passant else key
  let key := key ^^^ Z.castling_keys b.m_castling_rights
  let piece := piece_at b move.from_
  let squares := Function.update b.m_squares move.from_ Piece.NONE
  let squares := Function.update squares move.to_ piece
  let side := opposite_color b.m_side_to_move
  let key := if b.m_en_passant ≠ NUM_SQUARES then key ^^^ Z.ep_keys b.m_en_passant else key
  let key := key ^^^ Z.castling_keys b.m_castling_rights
  { b with m_zobrist_key := key, m_squares := squares, m_side_to_move := side }

/-- Source `Board::make_move` with the bounds of `std::array<Piece, 64>`: the
source reads `m_squares[move.from]` and writes `m_squares[move.from]` and
`m_squares[move.to]` unchecked. `none` stands for an index outside the array,
where the write lands on what follows the array in the object. -/
def make_move_checked (Z : Zobrist) (b : Board) (move : Move) : Option Board :=
  if is_on_board move.from_ && is_on_board move.to_ then some (make_move Z b move) else none

/-- One iteration of the `for (const Move& move : pseudo_legal)` loop of
`generate_legal_moves`. The loop state is the variable `checkers` (which
`pop_lsb(checkers)` modifies) and the vector `legal_moves`. -/
def legal_step (Z : Zobrist) (b : Board) (us : Color) (king_sq : Square) (in_check : Bool)
    (st : Bitboard × List Move) (move : Move) : Bitboard × List Move :=
  let checkers := st.1
  let legal_moves := st.2
  if (piece_at b move.from_).type = KING then
    if !is_square_attacked b move.to_ (opposite_color us) then (checkers, legal_moves ++ [move])
    else (checkers, legal_moves)
  else
    let test (checkers : Bitboard) : Bitboard × List Move :=
      let temp := make_move Z b move
      if !is_in_check temp us then (checkers, legal_moves ++ [move])
      else (checkers, legal_moves)
    if in_check then
      if checkers &&& (1 <<< move.to_) ≠ 0 then test checkers
      else if count_bits checkers = 1 then
        let checker_sq := (pop_lsb checkers).1
        let checkers := (pop_lsb checkers).2
        let checker_type := (piece_at b checker_sq).type
        if checker_type = ROOK ∨ checker_type = BISHOP ∨ checker_type = QUEEN then
          let between := squares_between king_sq checker_sq
          if between &&& (1 <<< move.to_) ≠ 0 then test checkers
          else (checkers, legal_moves)
        else (checkers, legal_moves)
      else (checkers, legal_moves)
    else test checkers

/-- Source `Board::generate_legal_moves` (the definition in board.cpp). -/
def generate_legal_moves (Z : Zobrist) (b : Board) : List Move :=
  let us := b.m_side_to_move
  let king_sq := find_king b us
  let in_check := is_in_check b us
  let checkers : Bitboard := if in_check then attackers_to b king_sq (opposite_color us) else 0
  let pseudo_legal := generate_pseudo_legal_moves b
  (pseudo_legal.foldl (legal_step Z b us king_sq in_check) (checkers, [])).2

/-! ## FEN loading and construction -/

/-- Source `char_to_piece`. -/
def char_to_piece (c : Char) : PieceType :=
  match c.toUpper with
  | 'P' => PAWN
  | 'N' => KNIGHT
  | 'B' => BISHOP
  | 'R' => ROOK
  | 'Q' => QUEEN
  | 'K' => KING
  | _ => NONE_PIECE

/-- Source `isspace` in the C locale. -/
def is_space (c : Char) : Bool :=
  c.toNat == 32 || c.toNat == 9 || c.toNat == 10 || c.toNat == 13 || c.toNat == 11 ||
    c.toNat == 12

/-- Source `iss >> token`: skip white space and read up to the next white space.
Returns whether a token was read, the new value of `token` (unchanged when
the extraction fails) and the rest of the stream (a failed stream stays
failed: nothing is left in it). -/
def extract (stream token : List Char) : Bool × List Char × List Char :=
  let s := stream.dropWhile is_space
  if s.isEmpty then (false, token, [])
  else (true, s.takeWhile (fun c => !is_space c), s.dropWhile (fun c => !is_space c))

/-- Source `std::stoi`: optional sign, then decimal digits; `none` when it throws
(`std::invalid_argument` without a digit, `std::out_of_range` outside `int`). -/
def stoi (token : List Char) : Option Int :=
  let token := token.dropWhile is_space
  let neg : Bool := match token with
    | '-' :: _ => true
    | _ => false
  let rest : List Char := match token with
    | '-' :: t => t
    | '+' :: t => t
    | t => t
  let digits := rest.takeWhile Char.isDigit
  if digits.isEmpty then none
  else
    let v : Int := digits.foldl (fun a c => a * 10 + ((c.toNat : Int) - 48)) 0
    let v := if neg then -v else v
    if v < -2147483648 ∨ v > 2147483647 then none else some v

/-- The placement loop of `set_fen`: the state is the cursor `sq`, `m_squares`
and `m_pieces`. -/
def place_char (st : Square × (Square → Piece) × (Color → PieceType → Bitboard)) (c : Char) :
    Square × (Square → Piece) × (Color → PieceType → Bitboard) :=
  let sq := st.1
  let squares := st.2.1
  let pieces := st.2.2
  if c = '/' then (sq_add sq (-16), squares, pieces)
  else if c.isDigit then (sq_add sq ((c.toNat : Int) - 48), squares, pieces)
  else
    let color := if c.isUpper then WHITE else BLACK
    let type := char_to_piece c.toUpper
    let squares := Function.update squares sq ⟨type, color⟩
    let pieces : Color → PieceType → Bitboard := fun c2 t2 =>
      if c2 = color ∧ t2 = type then pieces c2 t2 ||| (1 <<< sq) else pieces c2 t2
    (sq_add sq 1, squares, pieces)

/-- The castling loop of `set_fen`; `m_castling_rights` is a `uint8_t`, so the
or-ed value is truncated to 8 bits. -/
def castling_char (rights : Nat) (c : Char) : Nat :=
  match c with
  | 'K' => (rights ||| (1 <<< WHITE_OO)) % 256
  | 'Q' => (rights ||| (1 <<< WHITE_OOO)) % 256
  | 'k' => (rights ||| (1 <<< BLACK_OO)) % 256
  | 'q' => (rights ||| (1 <<< BLACK_OOO)) % 256
  | _ => rights

/-- Source `Board::set_fen`. The result is `.ok` with the board the call leaves, or
`.error` with the board as it stands when `std::stoi` throws. -/
def set_fen (b : Board) (fen : String) : Except Board Board :=
  let iss := fen.toList
  let token : List Char := []
  let sq : Square := A8
  -- Clear the board first
  let squares : Square → Piece := fun _ => Piece.NONE
  let pieces : Color → PieceType → Bitboard := fun _ _ => 0
  let castling_rights : Nat := 0
  let en_passant : Square := NUM_SQUARES
  -- 1. Piece placement
  let e1 := extract iss token
  let placed := e1.2.1.foldl place_char (sq, squares, pieces)
  -- 2. Active color
  let e2 := extract e1.2.2 e1.2.1
  let side := if e2.2.1 = ['w'] then WHITE else BLACK
  -- 3. Castling availability
  let e3 := extract e2.2.2 e2.2.1
  let castling_rights :=
    if e3.2.1 ≠ ['-'] then e3.2.1.foldl castling_char castling_rights else castling_rights
  -- 4. En passant target square
  let e4 := extract e3.2.2 e3.2.1
  let en_passant :=
    if e4.2.1 ≠ ['-'] then
      let file : Int := ((e4.2.1.getD 0 (Char.ofNat 0)).toNat : Int) - 97
      let rank : Int := ((e4.2.1.getD 1 (Char.ofNat 0)).toNat : Int) - 49
      ((rank * 8 + file) % 256).toNat
    else en_passant
  let b1 : Board :=
    { m_zobrist_key := b.m_zobrist_key, m_squares := placed.2.1, m_pieces := placed.2.2,
      m_side_to_move := side, m_en_passant := en_passant, m_halfmove_clock := 0,
      m_fullmove_number := 1, m_castling_rights := castling_rights }
  -- 5. Halfmove clock
  let e5 := extract e4.2.2 e4.2.1
  match stoi e5.2.1 with
  | none => .error b1
  | some halfmove =>
    let b2 := { b1 with m_halfmove_clock := halfmove }
    -- 6. Fullmove number
    let e6 := extract e5.2.2 e5.2.1
    if e6.1 then
      match stoi e6.2.1 with
      | none => .error b2
      | some fullmove => .ok { b2 with m_fullmove_number := fullmove }
    else .ok b2

/-- The board a `set_fen` call leaves behind, whether it returned or threw. -/
def fen_result (r : Except Board Board) : Board :=
  match r with
  | .ok b => b
  | .error b => b

/-- Source `Board::Board()`: the key starts at `0` (its default member initialiser),
the board is cleared and the start position is loaded with `set_fen`. -/
def Board_ctor : Board :=
  fen_result (set_fen
    { m_zobrist_key := 0, m_squares := fun _ => Piece.NONE, m_pieces := fun _ _ => 0,
      m_side_to_move := WHITE, m_en_passant := 0, m_halfmove_clock := 0,
      m_fullmove_number := 0, m_castling_rights := 0 }
    "rnbqkbnr/pppppppp/8/8/8/8/PPPPPPPP/RNBQKBNR w KQkq - 0 1")

/-- A default-constructed board on which `set_fen(fen)` has been called. -/
def from_fen (fen : String) : Board := fen_result (set_fen Board_ctor fen)

/-- Source `Board::reset_to_startpos`: recomputes the key from the squares, the side
to move and the castling rights, and clears the en-passant square. -/
def reset_to_startpos (Z : Zobrist) (b : Board) : Board :=
  let key : Nat := 0
  let key := (List.range 64).foldl (fun key sq =>
    if (b.m_squares sq).type ≠ NONE_PIECE then
      key ^^^ Z.piece_keys (b.m_squares sq).type (b.m_squares sq).color sq
    else key) key
  let key := if b.m_side_to_move = BLACK then key ^^^ Z.side_key else key
  let key := key ^^^ Z.castling_keys b.m_castling_rights
  { b with m_zobrist_key := key, m_en_passant := NUM_SQUARES }

/-! ## Specification-side definitions -/

/-- The two colours and the six piece types that index `m_pieces`. -/
def real_colors : List Color := [WHITE, BLACK]

def real_types : List PieceType := [PAWN, KNIGHT, BISHOP, ROOK, QUEEN, KING]

/-- The squares/bitboards consistency invariant of the spec: on every square
of the board, the bit of a (colour, type) bitboard is set exactly when
`m_squares` holds that very piece, and a non-empty square holds a real piece
(so a non-empty square has exactly one bit set, an empty square none). -/
def consistent (b : Board) : Prop :=
  ∀ sq < 64,
    (∀ c ∈ real_colors, ∀ pt ∈ real_types,
      ((b.m_pieces c pt).testBit sq = true ↔ b.m_squares sq = ⟨pt, c⟩)) ∧
    ((b.m_squares sq).type ≠ NONE_PIECE →
      (b.m_squares sq).color ∈ real_colors ∧ (b.m_squares sq).type ∈ real_types)

instance (b : Board) : Decidable (consistent b) := by
  unfold consistent
  infer_instance

/-- The occupied squares of `m_squares` with the piece on each, in square
order. -/
def pieces_on (b : Board) : List (Square × Piece) :=
  (List.range 64).filterMap (fun sq =>
    if (b.m_squares sq).type ≠ NONE_PIECE then some (sq, b.m_squares sq) else none)

/-- The Zobrist key recomputed from scratch, in the spec's words: the XOR of
`piece_keys[type][color][sq]` over all occupied squares, `side_key` if Black
is to move, `castling_keys[castling rights]`, and `ep_keys[ep square]` if an
en-passant square is set. -/
def zobrist_from_scratch (Z : Zobrist) (b : Board) : Nat :=
  let key := (pieces_on b).foldl (fun key p => key ^^^ Z.piece_keys p.2.type p.2.color p.1) 0
  let key := if b.m_side_to_move = BLACK then key ^^^ Z.side_key else key
  let key := key ^^^ Z.castling_keys b.m_castling_rights
  if b.m_en_passant ≠ NUM_SQUARES then key ^^^ Z.ep_keys b.m_en_passant else key

/-! ### Attacks in the spec's words -/

/-- The file and the rank of a square: `file(sq) = sq mod 8`,
`rank(sq) = sq div 8`. -/
def sq_file (s : Square) : Int := ((s % 8 : Nat) : Int)

def sq_rank (s : Square) : Int := ((s / 8 : Nat) : Int)

/-- A pawn of colour `c` on `s` attacks `t`: one file to the side, one rank
ahead in the direction `c` moves. -/
def pawn_attacks_sq (c : Color) (s t : Square) : Prop :=
  (sq_file t - sq_file s).natAbs = 1 ∧
    (if c = WHITE then sq_rank t = sq_rank s + 1 else sq_rank t = sq_rank s - 1)

/-- A knight leap from `s` to `t`. -/
def knight_attacks_sq (s t : Square) : Prop :=
  ((sq_file t - sq_file s).natAbs = 1 ∧ (sq_rank t - sq_rank s).natAbs = 2) ∨
  ((sq_file t - sq_file s).natAbs = 2 ∧ (sq_rank t - sq_rank s).natAbs = 1)

/-- A king step from `s` to `t`. -/
def king_attacks_sq (s t : Square) : Prop :=
  s ≠ t ∧ (sq_file t - sq_file s).natAbs ≤ 1 ∧ (sq_rank t - sq_rank s).natAbs ≤ 1

/-- Two different squares on one file or one rank. -/
def rook_line (s t : Square) : Prop :=
  s ≠ t ∧ (sq_file s = sq_file t ∨ sq_rank s = sq_rank t)

/-- Two different squares on one diagonal. -/
def bishop_line (s t : Square) : Prop :=
  s ≠ t ∧ (sq_file t - sq_file s).natAbs = (sq_rank t - sq_rank s).natAbs

/-- The squares strictly between two aligned squares, walking from `s`
towards `t` one square at a time. -/
def between_squares (s t : Square) : List Square :=
  let df := sq_file t - sq_file s
  let dr := sq_rank t - sq_rank s
  (List.range (max df.natAbs dr.natAbs - 1)).map
    (fun k => ((s : Int) + ((k : Int) + 1) * (8 * Int.sign dr + Int.sign df)).toNat)

/-- The piece standing on `s` attacks `t` under the board's occupancy: pawn
diagonals in the pawn's direction, knight and king leaps, bishop, rook and
queen rays with every square between `s` and `t` unoccupied. -/
def attacks_square (b : Board) (s t : Square) : Prop :=
  match (b.m_squares s).type with
  | PAWN => pawn_attacks_sq (b.m_squares s).color s t
  | KNIGHT => knight_attacks_sq s t
  | BISHOP => bishop_line s t ∧ ∀ x ∈ between_squares s t, (occupancy b).testBit x = false
  | ROOK => rook_line s t ∧ ∀ x ∈ between_squares s t, (occupancy b).testBit x = false
  | QUEEN => (rook_line s t ∨ bishop_line s t) ∧
      ∀ x ∈ between_squares s t, (occupancy b).testBit x = false
  | KING => king_attacks_sq s t
  | _ => False

instance (c : Color) (s t : Square) : Decidable (pawn_attacks_sq c s t) := by
  unfold pawn_attacks_sq
  infer_instance

instance (s t : Square) : Decidable (knight_attacks_sq s t) := by
  unfold knight_attacks_sq
  infer_instance

instance (s t : Square) : Decidable (king_attacks_sq s t) := by
  unfold king_attacks_sq
  infer_instance

instance (s t : Square) : Decidable (rook_line s t) := by
  unfold rook_line
  infer_instance

instance (s t : Square) : Decidable (bishop_line s t) := by
  unfold bishop_line
  infer_instance

/-- Geometry of a family of ray loops, checked square by square: every square
`s` a loop from `sq` visits is on the board and on a line through `sq`, the
squares the loop visits before `s` are the squares between `s` and `sq`, and
all of them are squares of the mask. -/
def rays_sound (rays : Square → List (List Nat)) (mask : Square → Bitboard)
    (line : Square → Square → Prop) : Prop :=
  ∀ sq < 64, ∀ ray ∈ rays sq, ∀ s ∈ ray, s < 64 ∧ line s sq ∧
      (∀ x ∈ ray.takeWhile (fun x => x != s),
        (mask sq).testBit x = true ∧ x ∈ between_squares s sq) ∧
      (∀ x ∈ between_squares s sq, x ∈ ray.takeWhile (fun x => x != s))

/-- Every square on a line through `sq` is visited by one of the loops. -/
def rays_complete (rays : Square → List (List Nat)) (line : Square → Square → Prop) : Prop :=
  ∀ sq < 64, ∀ s < 64, line s sq → ∃ ray ∈ rays sq, s ∈ ray

instance (rays : Square → List (List Nat)) (mask : Square → Bitboard)
    (line : Square → Square → Prop) [∀ s t, Decidable (line s t)] :
    Decidable (rays_sound rays mask line) := by
  unfold rays_sound
  infer_instance

instance (rays : Square → List (List Nat))
    (line : Square → Square → Prop) [∀ s t, Decidable (line s t)] :
    Decidable (rays_complete rays line) :=
  Nat.decidableBallLT 64 (fun sq _ => ∀ s < 64, line s sq → ∃ ray ∈ rays sq, s ∈ ray)

/-- Two boards that agree on everything but the stored key. -/
def same_position (b c : Board) : Prop :=
  b.m_squares = c.m_squares ∧ b.m_pieces = c.m_pieces ∧ b.m_side_to_move = c.m_side_to_move ∧
    b.m_en_passant = c.m_en_passant ∧ b.m_halfmove_clock = c.m_halfmove_clock ∧
    b.m_fullmove_number = c.m_fullmove_number ∧ b.m_castling_rights = c.m_castling_rights

/-- Key tables for evaluating move generation on concrete positions. -/
def test_keys : Zobrist :=
  { piece_keys := fun pt c sq => 1 + sq + 64 * (if c = WHITE then 0 else 1) +
      128 * (match pt with
        | PAWN => 0
        | KNIGHT => 1
        | BISHOP => 2
        | ROOK => 3
        | QUEEN => 4
        | _ => 5),
    side_key := 1000,
    castling_keys := fun r => 2000 + r,
    ep_keys := fun sq => 3000 + sq }

/-! ## Evaluation (eval.hpp, eval.cpp) -/

/-- Source `Board::FILE_MASKS` (board.hpp), files A to H. -/
def FILE_MASKS (file : Nat) : Bitboard :=
  [0x0101010101010101, 0x0202020202020202, 0x0404040404040404, 0x0808080808080808,
   0x1010101010101010, 0x2020202020202020, 0x4040404040404040, 0x8080808080808080].getD file 0

/-- Source `Board::KING_SHIELD` (board.hpp): the initialiser lists one entry
per colour, for square A1; the 63 entries it leaves out are zero. -/
def KING_SHIELD (c : Color) (sq : Square) : Bitboard :=
  match c, sq with
  | WHITE, 0 => (1 <<< 8) ||| (1 <<< 9) ||| (1 <<< 10)
  | BLACK, 0 => (1 <<< 48) ||| (1 <<< 49) ||| (1 <<< 50)
  | _, _ => 0

/-- Source `Board::get_white_pieces`. -/
def get_white_pieces (b : Board) : Bitboard :=
  b.m_pieces WHITE PAWN ||| b.m_pieces WHITE KNIGHT ||| b.m_pieces WHITE BISHOP |||
    b.m_pieces WHITE ROOK ||| b.m_pieces WHITE QUEEN ||| b.m_pieces WHITE KING

/-- Source `Board::get_black_pieces`. -/
def get_black_pieces (b : Board) : Bitboard :=
  b.m_pieces BLACK PAWN ||| b.m_pieces BLACK KNIGHT ||| b.m_pieces BLACK BISHOP |||
    b.m_pieces BLACK ROOK ||| b.m_pieces BLACK QUEEN ||| b.m_pieces BLACK KING

/-- The 64-bit complement `~bb`. -/
def bb_not (bb : Bitboard) : Bitboard := (2 ^ 64 - 1) ^^^ (bb % 2 ^ 64)

/-- Source `struct EvalWeights`, with its default member initialisers. -/
structure EvalWeights where
  pawn : Int := 100
  knight : Int := 320
  bishop : Int := 330
  rook : Int := 500
  queen : Int := 900
  king_safety : Int := 50
  pawn_structure : Int := 30
  material : Int := 100
  mobility : Int := 1
  center_control : Int := 1

/-! ### Single-precision arithmetic

`Evaluator::evaluate` multiplies an `int` by a `float`. A finite `float` is
the exact value `num / 2 ^ k`, kept as the pair `(num, k)`; every operation
rounds its exact result to the nearest value with a 24-bit significand, ties
to even (IEEE 754 binary32, normal range). -/

/-- The loop of `log2_floor`. -/
def log2_loop : Nat → Nat → Nat
  | 0, _ => 0
  | fuel + 1, n => if 2 ≤ n then log2_loop fuel (n / 2) + 1 else 0

/-- The position of the leading bit of `n`: `⌊log₂ n⌋` for `n > 0`. -/
def log2_floor (n : Nat) : Nat := log2_loop n n

/-- The exponent `⌊log₂ (n / d)⌋` of a positive ratio. -/
def ratio_exponent (n d : Nat) : Int :=
  let t : Int := (log2_floor n : Int) - (log2_floor d : Int)
  if d * 2 ^ t.toNat ≤ n * 2 ^ (-t).toNat then t else t - 1

/-- The ratio `N / D` (`D > 0`) rounded to single precision. -/
def f32_round (N : Int) (D : Nat) : Int × Nat :=
  if N = 0 then (0, 0)
  else
    let n := N.natAbs
    let sh : Int := ratio_exponent n D - 23
    let Ns := n * 2 ^ (-sh).toNat
    let Ds := D * 2 ^ sh.toNat
    let qf := Ns / Ds
    let rem := Ns % Ds
    let r := if 2 * rem > Ds ∨ (2 * rem = Ds ∧ qf % 2 = 1) then qf + 1 else qf
    let mag : Int := ((r * 2 ^ sh.toNat : Nat) : Int)
    (if N < 0 then -mag else mag, (-sh).toNat)

/-- The conversion of an `int` to `float`. -/
def f32_of_int (s : Int) : Int × Nat := f32_round s 1

/-- The quotient `x / 4000.0f`. -/
def f32_div_4000 (x : Int × Nat) : Int × Nat := f32_round x.1 (4000 * 2 ^ x.2)

/-- The product of two `float`s. -/
def f32_mul (x y : Int × Nat) : Int × Nat := f32_round (x.1 * y.1) (2 ^ (x.2 + y.2))

/-- Source `std::clamp(x, 0.0f, 1.0f)`. -/
def f32_clamp01 (x : Int × Nat) : Int × Nat :=
  if x.1 < 0 then (0, 0) else if (2 ^ x.2 : Int) < x.1 then (1, 0) else x

/-- The conversion of a `float` to `int`: truncation towards zero. -/
def f32_to_int (x : Int × Nat) : Int := Int.tdiv x.1 (2 ^ x.2)

/-- Source `Evaluator::evaluate_material`. -/
def evaluate_material (w : EvalWeights) (board : Board) (color : Color) : Int :=
  let material : Int := 0
  let material := material + (count_bits (board.m_pieces color PAWN) : Int) * w.pawn
  let material := material + (count_bits (board.m_pieces color KNIGHT) : Int) * w.knight
  let material := material + (count_bits (board.m_pieces color BISHOP) : Int) * w.bishop
  let material := material + (count_bits (board.m_pieces color ROOK) : Int) * w.rook
  let material := material + (count_bits (board.m_pieces color QUEEN) : Int) * w.queen
  material

/-- Source `Evaluator::evaluate_pawn_structure`. -/
def evaluate_pawn_structure (board : Board) (color : Color) : Int :=
  let score : Int := 0
  let pawns := board.m_pieces color PAWN
  -- Doubled pawns
  let score := (List.range 8).foldl (fun score file =>
    let count : Int := (count_bits (pawns &&& FILE_MASKS file) : Int)
    if count > 1 then score - (count - 1) * 20 else score) score
  -- Isolated pawns
  let score := (List.range 8).foldl (fun score file =>
    let isolated := true
    let isolated :=
      if file > 0 ∧ pawns &&& FILE_MASKS (file - 1) ≠ 0 then false else isolated
    let isolated :=
      if file < 7 ∧ pawns &&& FILE_MASKS (file + 1) ≠ 0 then false else isolated
    if isolated then score - 15 else score) score
  -- Passed pawns
  let passed : Bitboard := 0
  let score := score + (count_bits passed : Int) * 30
  score

/-- Source `Evaluator::evaluate_king_safety`. -/
def evaluate_king_safety (w : EvalWeights) (board : Board) (color : Color) : Int :=
  let king_sq := find_king board color
  let safety : Int := 0
  let shield := KING_SHIELD color king_sq &&& board.m_pieces color PAWN
  let safety := safety + (count_bits shield : Int) * 5
  safety * w.king_safety

/-- Source `Evaluator::evaluate_mobility`. -/
def evaluate_mobility (w : EvalWeights) (board : Board) (color : Color) : Int :=
  let mobility : Int := 0
  let occupied := occupancy board
  let friendly := if color = WHITE then get_white_pieces board else get_black_pieces board
  let mobility := (pop_all (board.m_pieces color KNIGHT)).foldl (fun mobility sq =>
    mobility + (count_bits (knight_attack_table sq &&& bb_not friendly) : Int)) mobility
  let mobility := (pop_all (board.m_pieces color BISHOP)).foldl (fun mobility sq =>
    mobility + (count_bits (get_bishop_attacks sq occupied &&& bb_not friendly) : Int)) mobility
  let mobility := (pop_all (board.m_pieces color ROOK)).foldl (fun mobility sq =>
    mobility + (count_bits (get_rook_attacks sq occupied &&& bb_not friendly) : Int)) mobility
  let mobility := (pop_all (board.m_pieces color QUEEN)).foldl (fun mobility sq =>
    mobility + (count_bits (get_queen_attacks sq occupied &&& bb_not friendly) : Int)) mobility
  mobility * w.mobility

/-- Source `Evaluator::game_phase`: a `float` between 0 (endgame) and 1. -/
def game_phase (w : EvalWeights) (board : Board) : Int × Nat :=
  let material := evaluate_material w board WHITE + evaluate_material w board BLACK
  f32_clamp01 (f32_div_4000 (f32_of_int material))

/-- Source `Evaluator::evaluate`. -/
def evaluate (w : EvalWeights) (board : Board) : Int :=
  let score : Int := 0
  let score := score + evaluate_material w board WHITE
  let score := score - evaluate_material w board BLACK
  let score := score + evaluate_pawn_structure board WHITE
  let score := score - evaluate_pawn_structure board BLACK
  let score := score + evaluate_king_safety w board WHITE
  let score := score - evaluate_king_safety w board BLACK
  let score := score + evaluate_mobility w board WHITE
  let score := score - evaluate_mobility w board BLACK
  let phase := game_phase w board
  f32_to_int (f32_mul (f32_of_int score) phase)

/-- Source `Evaluator::evaluate_king_safety` with the assertion of
`find_king`: `none` when the program aborts there. -/
def evaluate_king_safety_checked (w : EvalWeights) (board : Board) (color : Color) :
    Option Int :=
  match find_king_checked board color with
  | none => none
  | some king_sq =>
    let safety : Int := 0
    let shield := KING_SHIELD color king_sq &&& board.m_pieces color PAWN
    let safety := safety + (count_bits shield : Int) * 5
    some (safety * w.king_safety)

/-- Source `Evaluator::evaluate` with the assertion of `find_king`: the calls
in the order of the source, `none` when a call of `evaluate_king_safety`
aborts. -/
def evaluate_checked (w : EvalWeights) (board : Board) : Option Int :=
  let score : Int := 0
  let score := score + evaluate_material w board WHITE
  let score := score - evaluate_material w board BLACK
  let score := score + evaluate_pawn_structure board WHITE
  let score := score - evaluate_pawn_structure board BLACK
  match evaluate_king_safety_checked w board WHITE with
  | none => none
  | some safety_white =>
    let score := score + safety_white
    match evaluate_king_safety_checked w board BLACK with
    | none => none
    | some safety_black =>
      let score := score - safety_black
      let score := score + evaluate_mobility w board WHITE
      let score := score - evaluate_mobility w board BLACK
      let phase := game_phase w board
      some (f32_to_int (f32_mul (f32_of_int score) phase))

/-! ## Legality tests of the board -/

/-- Source `Move::none()`. -/
def Move.none : Move := ⟨NUM_SQUARES, NUM_SQUARES, NONE_PIECE⟩

/-- Source `Move::is_valid`. -/
def Move.is_valid (m : Move) : Bool := m.from_ != NUM_SQUARES && m.to_ != NUM_SQUARES

/-- Source `Board::make_null_move`. -/
def make_null_move (b : Board) : Board :=
  { b with m_side_to_move := opposite_color b.m_side_to_move }

/-- Source `Board::is_checkmate`. -/
def is_checkmate (Z : Zobrist) (b : Board) : Bool :=
  if !is_in_check b b.m_side_to_move then false
  else (generate_legal_moves Z b).isEmpty

/-- Source `Board::is_stalemate`. -/
def is_stalemate (Z : Zobrist) (b : Board) : Bool :=
  if is_in_check b b.m_side_to_move then false
  else (generate_legal_moves Z b).isEmpty

/-- Source `Board::is_legal`. -/
def is_legal (Z : Zobrist) (b : Board) (move : Move) : Bool :=
  if !is_on_board move.from_ || !is_on_board move.to_ then false
  else
    let piece := piece_at b move.from_
    if piece.color ≠ b.m_side_to_move then false
    else if piece.type = PAWN ∧ move.promotion ≠ NONE_PIECE ∧
        ¬ (rank_of move.to_ = 7 ∨ rank_of move.to_ = 0) then false
    else
      let temp := make_move Z b move
      !is_in_check temp b.m_side_to_move

/-! ## Search (search.hpp, search.cpp)

The counters `m_nodes` (which only feeds `SearchResult::nodes` and the stop
test) and the field `pv` (never written) are not carried. `m_stop` is the null
pointer `Searcher`'s constructor leaves, so both stop tests are false. Scores
stay between `-INF` and `INF`, so `int` negation never overflows; the sum
`-beta + 1` of the null-move test, which leaves the `int` range for
`beta = -INF`, is the integer it denotes. -/

/-- Source `INF = std::numeric_limits<int>::max()`. -/
def INF : Int := 2147483647

/-- Source `piece_value` (search.hpp). -/
def piece_value (pt : PieceType) : Int :=
  match pt with
  | PAWN => 100
  | KNIGHT => 320
  | BISHOP => 330
  | ROOK => 500
  | QUEEN => 900
  | KING => 20000
  | _ => 0

/-- Source `struct SearchParams`. -/
structure SearchParams where
  depth : Int := 6
  time_ms : Int := 5000
  use_time : Bool := true
  infinite : Bool := false

/-- Source `struct SearchResult` (without `nodes` and `pv`). -/
structure SearchResult where
  best_move : Move := ⟨A1, A1, NONE_PIECE⟩
  score : Int := 0
  depth : Int := 0
deriving DecidableEq, Repr

/-- The members of `class Searcher` that the search reads. `m_book` is the
book's `probe` when a book is attached; the two tables are never written
after construction. -/
structure Searcher where
  m_book : Option (Board → Move)
  m_evaluator : EvalWeights
  m_killer_moves : Nat → Nat → Move
  m_history : Color → Square → Square → Int

/-- Source `Searcher::Searcher`: `memset` zeroes the killer and history
tables (a zeroed `Move` is A1 to A1 with promotion `PieceType(0)`). -/
def Searcher_ctor (evaluator : EvalWeights) (book : Option (Board → Move)) : Searcher :=
  { m_book := book, m_evaluator := evaluator,
    m_killer_moves := fun _ _ => ⟨A1, A1, PAWN⟩,
    m_history := fun _ _ _ => 0 }

/-- Source `Searcher::probe_book`. -/
def probe_book (Z : Zobrist) (S : Searcher) (board : Board) : Move :=
  match S.m_book with
  | none => Move.none
  | some probe =>
    if board.m_fullmove_number > 20 then Move.none
    else
      let book_move := probe board
      if book_move.is_valid && is_legal Z board book_move then book_move else Move.none

/-- The comparison lambda of `Searcher::order_moves`. -/
def move_before (S : Searcher) (board : Board) (m_ply : Nat) (tt_move a b : Move) : Bool :=
  if a = tt_move then true
  else if b = tt_move then false
  else
    let a_cap := piece_value (piece_at board a.to_).type
    let b_cap := piece_value (piece_at board b.to_).type
    if a_cap ≠ b_cap then decide (a_cap > b_cap)
    else if a = S.m_killer_moves m_ply 0 then true
    else if b = S.m_killer_moves m_ply 0 then false
    else if a = S.m_killer_moves m_ply 1 then true
    else if b = S.m_killer_moves m_ply 1 then false
    else
      let stm := board.m_side_to_move
      decide (S.m_history stm a.from_ a.to_ > S.m_history stm b.from_ b.to_)

/-- One insertion of `std_sort`: `x` goes in front of the first element that
does not have to come before it. -/
def sort_insert (lt : Move → Move → Bool) (x : Move) : List Move → List Move
  | [] => [x]
  | y :: ys => if lt y x then y :: sort_insert lt x ys else x :: y :: ys

/-- Library `std::sort` (the sources only call it). The C++ standard fixes
its result up to the order of equivalent elements. The definition is insertion
sort, which libstdc++ runs on a range of at most 16 elements and which gives
the stable arrangement; on a longer range the library partitions first and
can order equivalent moves otherwise. That the result is a permutation of the
input (`std_sort_perm`) holds of every implementation. -/
def std_sort (lt : Move → Move → Bool) : List Move → List Move
  | [] => []
  | x :: xs => sort_insert lt x (std_sort lt xs)

/-- Source `Searcher::order_moves`. -/
def order_moves (S : Searcher) (board : Board) (m_ply : Nat) (moves : List Move)
    (tt_move : Move) : List Move :=
  std_sort (move_before S board m_ply tt_move) moves

/-- The loop `for (const Move& move : moves)` shared by `alpha_beta` and
`quiescence`: `child move alpha` is the score of `move` searched with the
current `alpha`; a score of at least `beta` returns `beta` at once. -/
def cutoff_loop (child : Move → Int → Int) (beta : Int) : List Move → Int → Int
  | [], alpha => alpha
  | move :: rest, alpha =>
    let score := child move alpha
    if score ≥ beta then beta
    else cutoff_loop child beta rest (if score > alpha then score else alpha)

/-- Source `Searcher::quiescence`. `fuel` bounds the depth of the recursion,
which the code leaves to the captures running out; with no fuel left the
captures are not looked at. -/
def quiescence (Z : Zobrist) (S : Searcher) : Nat → Board → Int → Int → Int
  | 0, board, alpha, beta =>
    let stand_pat := evaluate S.m_evaluator board
    if stand_pat ≥ beta then beta
    else if stand_pat > alpha then stand_pat else alpha
  | fuel + 1, board, alpha, beta =>
    let stand_pat := evaluate S.m_evaluator board
    if stand_pat ≥ beta then beta
    else
      let alpha := if stand_pat > alpha then stand_pat else alpha
      let captures := (generate_legal_moves Z board).filter
        (fun move => (piece_at board move.to_).type != NONE_PIECE)
      cutoff_loop
        (fun move alpha => -quiescence Z S fuel (make_move Z board move) (-beta) (-alpha))
        beta captures alpha

/-- Source `Searcher::alpha_beta`. The first argument is the fuel of
`quiescence`, the second bounds the recursion on `depth` (every call lowers
`depth` by at least one, so `depth` itself is enough); `m_ply` is the value
the member has when the call is entered. -/
def alpha_beta (Z : Zobrist) (S : Searcher) (qfuel : Nat) :
    Nat → Int → Nat → Board → Int → Int → Bool → Int
  | 0, _, _, board, alpha, beta, _ => quiescence Z S qfuel board alpha beta
  | fuel + 1, depth, m_ply, board, alpha, beta, null_move =>
    if depth ≤ 0 then quiescence Z S qfuel board alpha beta
    else if null_move && decide (depth ≥ 3) && !is_in_check board board.m_side_to_move &&
        decide (-alpha_beta Z S qfuel fuel (depth - 1 - 2) (m_ply + 1) (make_null_move board)
          (-beta) (-beta + 1) false ≥ beta) then beta
    else
      let moves := order_moves S board m_ply (generate_legal_moves Z board) ⟨A1, A1, NONE_PIECE⟩
      cutoff_loop
        (fun move alpha =>
          -alpha_beta Z S qfuel fuel (depth - 1) (m_ply + 1) (make_move Z board move)
            (-beta) (-alpha) true)
        beta moves alpha

/-- Source `Searcher::time_elapsed`. The steady clock is an oracle: `clock n`
says whether `time_ms` milliseconds have passed at the `n`-th reading. -/
def time_elapsed (clock : Nat → Bool) (params : SearchParams) (n : Nat) : Bool :=
  if params.infinite then false else clock n

/-- The variables the loops of `Searcher::search` update: `alpha`, `result`,
the number of clock readings so far, and whether `goto finish_search` has
been taken. -/
structure SearchState where
  alpha : Int
  result : SearchResult
  readings : Nat
  finished : Bool

/-- The body of the loop over the root moves in `Searcher::search`. -/
def search_move (Z : Zobrist) (S : Searcher) (clock : Nat → Bool) (qfuel : Nat)
    (board : Board) (params : SearchParams) (depth : Int) (st : SearchState) (move : Move) :
    SearchState :=
  if st.finished then st
  else
    let new_board := make_move Z board move
    let score := -alpha_beta Z S qfuel (depth - 1).toNat (depth - 1) 1 new_board (-INF)
      (-st.alpha) true
    let st :=
      if score > st.alpha then
        { st with alpha := score, result := { best_move := move, score := score, depth := depth } }
      else st
    if time_elapsed clock params st.readings && params.use_time then
      { st with readings := st.readings + 1, finished := true }
    else { st with readings := st.readings + 1 }

/-- The body of the iterative-deepening loop of `Searcher::search`. -/
def search_depth (Z : Zobrist) (S : Searcher) (clock : Nat → Bool) (qfuel : Nat)
    (board : Board) (params : SearchParams) (st : SearchState) (depth : Int) : SearchState :=
  if st.finished then st
  else
    let moves := order_moves S board 0 (generate_legal_moves Z board) ⟨A1, A1, NONE_PIECE⟩
    moves.foldl (search_move Z S clock qfuel board params depth) st

/-- Source `Searcher::search`. -/
def search (Z : Zobrist) (S : Searcher) (clock : Nat → Bool) (qfuel : Nat) (board : Board)
    (params : SearchParams) : SearchResult :=
  let book_move := probe_book Z S board
  if book_move.is_valid then { best_move := book_move, score := 0, depth := 0 }
  else
    let depths : List Int :=
      (List.range params.depth.toNat).map (fun (i : Nat) => (i : Int) + 1)
    let st := depths.foldl (search_depth Z S clock qfuel board params)
      { alpha := -INF, result := {}, readings := 0, finished := false }
    st.result

/-- The fuel given to `quiescence` when a search is evaluated: one more than
the number of squares a `uint8_t` index can name. -/
def QFUEL : Nat := 257

/-! ## Castling rights as read back (board.cpp) -/

/-- Source `Board::get_castling_rights`: `m_castling_rights` is promoted to
`int` and tested against `1 << WHITE_OO`, ... -/
def get_castling_rights (b : Board) : Int :=
  let rights : Nat := 0
  let rights := if b.m_castling_rights &&& (1 <<< WHITE_OO) ≠ 0 then rights ||| 1 else rights
  let rights := if b.m_castling_rights &&& (1 <<< WHITE_OOO) ≠ 0 then rights ||| 2 else rights
  let rights := if b.m_castling_rights &&& (1 <<< BLACK_OO) ≠ 0 then rights ||| 4 else rights
  let rights := if b.m_castling_rights &&& (1 <<< BLACK_OOO) ≠ 0 then rights ||| 8 else rights
  (rights : Int)

/-! ## Magic lookup (board.cpp)

`magic_bits.hpp`, which holds the magic multipliers and the index bit counts,
is not among the sources; the four tables are parameters. Each row
`rook_attacks[sq]`, `bishop_attacks[sq]` is a total function of the index,
zero before `init_magics` (static storage); an index outside the row is
undefined behaviour in the source. -/

/-- The tables of `namespace magic_bits`. -/
structure MagicBits where
  ROOK_MAGIC_NUMBERS : Square → Nat
  ROOK_INDEX_BITS : Square → Nat
  BISHOP_MAGIC_NUMBERS : Square → Nat
  BISHOP_INDEX_BITS : Square → Nat

/-- Source `struct Magic`, without the pointer `attacks` to the row. -/
structure Magic where
  mask : Bitboard
  magic : Nat
  shift : Nat

/-- The loop of `index_to_occupancy`: `n` iterations are left, `i` is the loop
counter. -/
def index_to_occupancy_loop (index : Nat) : Nat → Nat → Bitboard → Bitboard → Bitboard
  | 0, _, _, result => result
  | n + 1, i, mask, result =>
    let sq := ctz mask
    index_to_occupancy_loop index n (i + 1) (mask &&& (mask - 1))
      (if index &&& (1 <<< i) ≠ 0 then result ||| (1 <<< sq) else result)

/-- Source `index_to_occupancy`. -/
def index_to_occupancy (index bits : Nat) (mask : Bitboard) : Bitboard :=
  index_to_occupancy_loop index bits 0 mask 0

/-- The index `(occ * m->magic) >> m->shift` in 64-bit arithmetic. -/
def magic_index (m : Magic) (occ : Bitboard) : Nat := ((occ * m.magic) % 2 ^ 64) >>> m.shift

/-- The attack set `init_sliding_attacks` computes for a subset. -/
def compute_attacks (is_rook : Bool) (sq : Square) (occ : Bitboard) : Bitboard :=
  if is_rook then compute_rook_attacks sq occ else compute_bishop_attacks sq occ

/-- Source `Board::init_sliding_attacks`, for the magic `m` of `sq`: the row
after the loop, given the row before it. -/
def init_sliding_attacks (m : Magic) (sq : Square) (is_rook : Bool) (row : Nat → Bitboard) :
    Nat → Bitboard :=
  let mask := m.mask
  let bits := count_bits mask
  (List.range (1 <<< bits)).foldl (fun row i =>
    let occ := index_to_occupancy i bits mask
    let attacks := compute_attacks is_rook sq occ
    let idx := magic_index m occ
    Function.update row idx attacks) row

/-- Source `rook_magics[sq]` as `init_magics` sets it. The shift is
`64 - ROOK_INDEX_BITS[sq]`; an index bit count above 64 (a negative shift,
undefined in the source) gives the shift 0 here. -/
def rook_magics (mb : MagicBits) (sq : Square) : Magic :=
  { mask := rook_mask sq, magic := mb.ROOK_MAGIC_NUMBERS sq,
    shift := 64 - mb.ROOK_INDEX_BITS sq }

/-- Source `bishop_magics[sq]` as `init_magics` sets it. -/
def bishop_magics (mb : MagicBits) (sq : Square) : Magic :=
  { mask := bishop_mask sq, magic := mb.BISHOP_MAGIC_NUMBERS sq,
    shift := 64 - mb.BISHOP_INDEX_BITS sq }

/-- Source `rook_attacks[sq]` after `init_magics`. -/
def rook_attacks (mb : MagicBits) (sq : Square) : Nat → Bitboard :=
  init_sliding_attacks (rook_magics mb sq) sq true (fun _ => 0)

/-- Source `bishop_attacks[sq]` after `init_magics`. -/
def bishop_attacks (mb : MagicBits) (sq : Square) : Nat → Bitboard :=
  init_sliding_attacks (bishop_magics mb sq) sq false (fun _ => 0)

/-- Source `Board::get_rook_attacks`, read through the table. -/
def Lookup.get_rook_attacks (mb : MagicBits) (sq : Square) (occupancy : Bitboard) : Bitboard :=
  let m := rook_magics mb sq
  let occupancy := occupancy &&& m.mask
  let occupancy := (occupancy * m.magic) % 2 ^ 64
  let occupancy := occupancy >>> m.shift
  rook_attacks mb sq occupancy

/-- Source `Board::get_bishop_attacks`, read through the table. -/
def Lookup.get_bishop_attacks (mb : MagicBits) (sq : Square) (occupancy : Bitboard) : Bitboard :=
  let m := bishop_magics mb sq
  let occupancy := occupancy &&& m.mask
  let occupancy := (occupancy * m.magic) % 2 ^ 64
  let occupancy := occupancy >>> m.shift
  bishop_attacks mb sq occupancy

/-- The proviso on a magic: two subsets of the mask with different attack sets
never share an index, and every index is below the width of the row. -/
def collision_free (m : Magic) (attacks : Bitboard → Bitboard) (width : Nat) : Prop :=
  ∀ s1 s2 : Bitboard, s1 &&& m.mask = s1 → s2 &&& m.mask = s2 →
    (magic_index m s1 = magic_index m s2 → attacks s1 = attacks s2) ∧ magic_index m s1 < width

/-! ### Enumeration of the subsets of a mask -/

/-- The occupancy `index_to_occupancy` builds when the squares it pops are
the list `l`: bit `i + j` of `index` decides whether the `j`-th square is set. -/
def occupancy_of_positions (index : Nat) : Nat → List Nat → Bitboard → Bitboard
  | _, [], result => result
  | i, p :: rest, result =>
    occupancy_of_positions index (i + 1) rest
      (if index.testBit i then result ||| (1 <<< p) else result)

/-- A linear test that `f` takes different values on `i, ..., i + n - 1`:
`seen` is the set of the values met so far, as a bit set. -/
def distinct_loop (f : Nat → Nat) : Nat → Nat → Nat → Bool
  | 0, _, _ => true
  | n + 1, i, seen =>
    if seen.testBit (f i) then false else distinct_loop f n (i + 1) (seen ||| (1 <<< f i))

/-- A pair of magics for the square b2, found by the usual random search: the
rook magic sends the 1024 subsets of `rook_mask(B2)` to 1024 different 10-bit
indices, the bishop magic the 32 subsets of `bishop_mask(B2)` to 32 different
5-bit indices. -/
def b2_magic_bits : MagicBits :=
  { ROOK_MAGIC_NUMBERS := fun _ => 0x42400150002001,
    ROOK_INDEX_BITS := fun _ => 10,
    BISHOP_MAGIC_NUMBERS := fun _ => 0x800102228010c28,
    BISHOP_INDEX_BITS := fun _ => 5 }

/-- The positions of the set bits among the low 64, in ascending order. -/
def bit_positions (m : Bitboard) : List Nat := (List.range 64).filter (fun i => m.testBit i)

/-! ## Transposition table (search.hpp) -/

/-- Source `enum TTFlag`. -/
def EXACT : Nat := 0
def LOWER_BOUND : Nat := 1
def UPPER_BOUND : Nat := 2

/-- Source `struct TTEntry`. -/
structure TTEntry where
  key : Nat
  depth : Int
  score : Int
  best_move : Move
  flag : Nat

/-- Source `class TranspositionTable`: `table` holds `size` entries. -/
structure TranspositionTable where
  table : Nat → TTEntry
  size : Nat

/-- Source `TranspositionTable::store`. -/
def TranspositionTable.store (tt : TranspositionTable) (key : Nat) (depth score : Int)
    (move : Move) (flag : Nat) : TranspositionTable :=
  let index := key % tt.size
  if depth ≥ (tt.table index).depth then
    { tt with table := Function.update tt.table index ⟨key, depth, score, move, flag⟩ }
  else tt

/-- Source `TranspositionTable::probe`: the returned flag and the values of
the reference parameters `score` and `move` after the call. -/
def TranspositionTable.probe (tt : TranspositionTable) (key : Nat) (depth alpha beta : Int)
    (score : Int) (move : Move) : Bool × Int × Move :=
  let index := key % tt.size
  if (tt.table index).key = key ∧ (tt.table index).depth ≥ depth then
    let move := (tt.table index).best_move
    let score := (tt.table index).score
    if (tt.table index).flag = EXACT then (true, score, move)
    else if (tt.table index).flag = LOWER_BOUND ∧ score ≥ beta then (true, score, move)
    else if (tt.table index).flag = UPPER_BOUND ∧ score ≤ alpha then (true, score, move)
    else (false, score, move)
  else (false, score, move)

/-! ## UCI move text (uci.cpp) -/

/-- The enumerator value of a `PieceType`. -/
def PieceType.index : PieceType → Nat
  | PAWN => 0
  | KNIGHT => 1
  | BISHOP => 2
  | ROOK => 3
  | QUEEN => 4
  | KING => 5
  | NUM_PIECE_TYPES => 6
  | NONE_PIECE => 7

/-- Source `tolower` in the C locale. -/
def tolower (c : Char) : Char := c.toLower

/-- Source `UCI::print_best_move`: the characters written between
`bestmove ` and the newline. -/
def print_best_move (move : Move) : String :=
  let out : List Char := []
  let out := out ++ [Char.ofNat (97 + file_of move.from_).toNat]
  let out := out ++ [Char.ofNat (49 + rank_of move.from_).toNat]
  let out := out ++ [Char.ofNat (97 + file_of move.to_).toNat]
  let out := out ++ [Char.ofNat (49 + rank_of move.to_).toNat]
  let out :=
    if move.promotion ≠ NONE_PIECE then
      out ++ [tolower (" PNBRQK".toList.getD move.promotion.index (Char.ofNat 0))]
    else out
  String.mk out

/-- The move parser in the loop of `UCI::handle_position`. `token[i]` is the
terminating zero for `i = token.length()`. -/
def parse_move (token : String) : Move :=
  let t := token.toList
  let at_ (i : Nat) : Int := ((t.getD i (Char.ofNat 0)).toNat : Int)
  { from_ := ((at_ 0 - 97 + (at_ 1 - 49) * 8) % 256).toNat,
    to_ := ((at_ 2 - 97 + (at_ 3 - 49) * 8) % 256).toNat,
    promotion := if t.length > 4 then char_to_piece (t.getD 4 (Char.ofNat 0)) else NONE_PIECE }

/-! ## Principal variation search (search.cpp) -/

/-- The loop `for (const Move& move : moves)` of `Searcher::pvs`, with its
flag `first_move`: `child move a b` is `pvs(new_board, depth-1, a, b, true)`
for the board after `move`. -/
def pvs_loop (child : Move → Int → Int → Int) (beta : Int) : List Move → Int → Bool → Int
  | [], alpha, _ => alpha
  | move :: rest, alpha, first_move =>
    let score :=
      if first_move then -child move (-beta) (-alpha)
      else
        let score := -child move (-alpha - 1) (-alpha)
        if score > alpha then -child move (-beta) (-alpha) else score
    if score ≥ beta then beta
    else pvs_loop child beta rest (if score > alpha then score else alpha) false

/-- Source `Searcher::pvs`. The arguments are those of `alpha_beta`; `pvs`
leaves the member `m_ply` as it finds it, and never reads `null_move`. -/
def pvs (Z : Zobrist) (S : Searcher) (qfuel : Nat) :
    Nat → Int → Nat → Board → Int → Int → Bool → Int
  | 0, _, _, board, alpha, beta, _ => quiescence Z S qfuel board alpha beta
  | fuel + 1, depth, m_ply, board, alpha, beta, _ =>
    if depth ≤ 0 then quiescence Z S qfuel board alpha beta
    else
      let moves := order_moves S board m_ply (generate_legal_moves Z board) ⟨A1, A1, NONE_PIECE⟩
      pvs_loop
        (fun move a b => pvs Z S qfuel fuel (depth - 1) m_ply (make_move Z board move) a b true)
        beta moves alpha true

/-- The value `v` clamped to the window: `alpha` below it, `beta` above it. -/
def clamp (v alpha beta : Int) : Int := max alpha (min v beta)

/-- The full-width negamax value of depth `d` in the spec's words: the
quiescence value at the leaves, minus infinity at a node with no legal moves,
and otherwise the best of the negated values of the children. -/
def negamax (Z : Zobrist) (S : Searcher) (qfuel : Nat) : Nat → Board → Int
  | 0, board => quiescence Z S qfuel board (-INF) INF
  | d + 1, board =>
    (generate_legal_moves Z board).foldl
      (fun best move => max best (-negamax Z S qfuel d (make_move Z board move))) (-INF)

/-- The moves `quiescence` follows: the legal moves onto an occupied square. -/
def capture_moves (Z : Zobrist) (board : Board) : List Move :=
  (generate_legal_moves Z board).filter
    (fun move => (piece_at board move.to_).type != NONE_PIECE)

/-- The value `quiescence` looks for, without a window: the static evaluation
or the best negated value after a capture, whichever is larger. -/
def quiescence_value (Z : Zobrist) (S : Searcher) : Nat → Board → Int
  | 0, board => evaluate S.m_evaluator board
  | fuel + 1, board =>
    (capture_moves Z board).foldl
      (fun best move => max best (-quiescence_value Z S fuel (make_move Z board move)))
      (evaluate S.m_evaluator board)

/-- The number of non-empty entries among the 64 of `m_squares`. -/
def occupied_squares (board : Board) : Nat :=
  ((Finset.range 64).filter (fun sq => (board.m_squares sq).type ≠ NONE_PIECE)).card

/-- The 64 entries of `m_squares` are the same on two boards. -/
def squares_agree (b c : Board) : Prop := ∀ sq, sq < 64 → b.m_squares sq = c.m_squares sq

/-- A run of recursive calls of `quiescence` from `board`: each step is a move
that `quiescence` follows, paired with the board the next call works on. Of
that board only the 64 entries of `m_squares` are fixed, as `make_move` leaves
them. -/
def capture_run (Z : Zobrist) : Board → List (Move × Board) → Prop
  | _, [] => True
  | board, (m, next) :: rest =>
    m ∈ capture_moves Z board ∧ squares_agree next (make_move Z board m) ∧
      capture_run Z next rest

/-! ## Construction of the transposition table (search.hpp) -/

theorem make_move_pieces (Z : Zobrist) (b : Board) (m : Move) :
    (make_move Z b m).m_pieces = b.m_pieces := rfl

theorem is_square_attacked_make_move (Z : Zobrist) (b : Board) (m : Move) (sq : Square)
    (c : Color) : is_square_attacked (make_move Z b m) sq c = is_square_attacked b sq c := rfl

theorem is_in_check_make_move (Z : Zobrist) (b : Board) (m : Move) (c : Color) :
    is_in_check (make_move Z b m) c = is_in_check b c := rfl

theorem make_move_squares_key (Z Z2 : Zobrist) (b : Board) (m : Move) :
    (make_move Z b m).m_squares = (make_move Z2 b m).m_squares := rfl

theorem pieces_on_make_move_key (Z Z2 : Zobrist) (b : Board) (m : Move) :
    pieces_on (make_move Z b m) = pieces_on (make_move Z2 b m) := rfl

theorem consistent_make_move_key (Z Z2 : Zobrist) (b : Board) (m : Move) :
    consistent (make_move Z b m) ↔ consistent (make_move Z2 b m) := Iff.rfl

theorem legal_step_key_irrelevant (Z Z2 : Zobrist) (b : Board) (us : Color) (king_sq : Square)
    (in_check : Bool) (st : Bitboard × List Move) (m : Move) :
    legal_step Z b us king_sq in_check st m = legal_step Z2 b us king_sq in_check st m := by
  unfold legal_step
  simp only [is_in_check_make_move]

/-- The moves `generate_legal_moves` returns do not depend on the key tables. -/
theorem generate_legal_moves_key_irrelevant (Z Z2 : Zobrist) (b : Board) :
    generate_legal_moves Z b = generate_legal_moves Z2 b := by
  unfold generate_legal_moves
  have h : legal_step Z b b.m_side_to_move (find_king b b.m_side_to_move)
      (is_in_check b b.m_side_to_move) =
      legal_step Z2 b b.m_side_to_move (find_king b b.m_side_to_move)
      (is_in_check b b.m_side_to_move) := by
    funext st m
    exact legal_step_key_irrelevant Z Z2 b _ _ _ st m
  simp only [h]

/-! ## The Zobrist key under make_move -/

theorem xor_out_in (k e c : Nat) : ((k ^^^ e) ^^^ c) ^^^ e ^^^ c = k := by
  apply Nat.eq_of_testBit_eq
  intro i
  simp only [Nat.testBit_xor]
  cases k.testBit i <;> cases e.testBit i <;> cases c.testBit i <;> rfl

theorem xor_keys_cancel (a d x c s : Nat) (h0 : 0 = (a ^^^ x) ^^^ c)
    (h1 : s = ((d ^^^ x) ^^^ s) ^^^ c) : a = d := by
  apply Nat.eq_of_testBit_eq
  intro i
  have h0i := congrArg (fun n => n.testBit i) h0
  have h1i := congrArg (fun n => n.testBit i) h1
  simp only [Nat.testBit_xor, Nat.zero_testBit] at h0i h1i
  revert h0i h1i
  cases a.testBit i <;> cases d.testBit i <;> cases x.testBit i <;> cases c.testBit i <;>
    cases s.testBit i <;> simp

/-- What `make_move` does to the key: the en-passant and castling keys are
XOR-ed out and in again, so only `side_key` is toggled. -/
theorem make_move_key (Z : Zobrist) (b : Board) (m : Move) :
    get_zobrist_key (make_move Z b m) = get_zobrist_key b ^^^ Z.side_key := by
  unfold make_move get_zobrist_key
  by_cases he : b.m_en_passant = NUM_SQUARES
  · simp only [he, ne_eq, not_true_eq_false, if_false, Nat.xor_assoc, Nat.xor_self,
      Nat.xor_zero]
  · simp only [he, ne_eq, not_false_eq_true, if_true]
    exact xor_out_in _ _ _

/-! ## Promotions and the shape of generated moves -/

theorem king_moves_plain (b : Board) (sq : Square) (m : Move)
    (h : m ∈ generate_king_moves b sq) : m.promotion = NONE_PIECE ∧ m.from_ = sq := by
  unfold generate_king_moves at h
  simp only [] at h
  split_ifs at h <;> simp only [List.mem_append, List.mem_map, List.mem_singleton] at h <;>
    aesop

theorem queen_moves_plain (b : Board) (sq : Square) (m : Move)
    (h : m ∈ generate_queen_moves b sq) : m.promotion = NONE_PIECE ∧ m.from_ = sq := by
  unfold generate_queen_moves at h
  simp only [List.mem_map] at h
  aesop

theorem knight_moves_plain (b : Board) (sq : Square) (m : Move)
    (h : m ∈ generate_knight_moves b sq) : m.promotion = NONE_PIECE ∧ m.from_ = sq := by
  unfold generate_knight_moves at h
  simp only [List.mem_map] at h
  aesop

theorem bishop_moves_plain (b : Board) (sq : Square) (m : Move)
    (h : m ∈ generate_bishop_moves b sq) : m.promotion = NONE_PIECE ∧ m.from_ = sq := by
  unfold generate_bishop_moves at h
  simp only [List.mem_map] at h
  aesop

theorem rook_moves_plain (b : Board) (sq : Square) (m : Move)
    (h : m ∈ generate_rook_moves b sq) : m.promotion = NONE_PIECE ∧ m.from_ = sq := by
  unfold generate_rook_moves at h
  simp only [List.mem_map] at h
  aesop

theorem pawn_capture_moves_plain (b : Board) (sq fwd : Square) (p : Piece) (d : Int) (m : Move)
    (h : m ∈ pawn_capture_moves b sq fwd p d) : m.promotion = NONE_PIECE ∧ m.from_ = sq := by
  unfold pawn_capture_moves at h
  simp only [] at h
  split_ifs at h <;>
    simp only [List.mem_append, List.mem_singleton, List.not_mem_nil, or_false, false_or,
      or_self] at h <;>
    aesop

theorem pawn_moves_promotion (b : Board) (sq : Square) (m : Move)
    (h : m ∈ generate_pawn_moves b sq) :
    m.from_ = sq ∧ (m.promotion ≠ NONE_PIECE → rank_of m.to_ = 7 ∨ rank_of m.to_ = 0) := by
  unfold generate_pawn_moves at h
  simp only [List.mem_append] at h
  rcases h with (h | h) | h
  · split_ifs at h <;>
      simp only [List.mem_append, List.mem_singleton, List.mem_cons, List.not_mem_nil,
        or_false, false_or, or_self] at h <;>
      aesop
  · have := pawn_capture_moves_plain _ _ _ _ _ _ h
    exact ⟨this.2, fun hp => absurd this.1 hp⟩
  · have := pawn_capture_moves_plain _ _ _ _ _ _ h
    exact ⟨this.2, fun hp => absurd this.1 hp⟩

/-- A move of `piece_moves b sq` starts on `sq`; if it carries a promotion,
the piece on `sq` is a pawn and the destination is on rank index 7 or 0. -/
theorem piece_moves_promotion (b : Board) (sq : Square) (m : Move) (h : m ∈ piece_moves b sq) :
    m.from_ = sq ∧ (m.promotion ≠ NONE_PIECE →
      (piece_at b sq).type = PAWN ∧ (rank_of m.to_ = 7 ∨ rank_of m.to_ = 0)) := by
  unfold piece_moves at h
  split at h
  · next ht =>
    have := pawn_moves_promotion b sq m h
    exact ⟨this.1, fun hp => ⟨ht, this.2 hp⟩⟩
  · have := knight_moves_plain b sq m h
    exact ⟨this.2, fun hp => absurd this.1 hp⟩
  · have := bishop_moves_plain b sq m h
    exact ⟨this.2, fun hp => absurd this.1 hp⟩
  · have := rook_moves_plain b sq m h
    exact ⟨this.2, fun hp => absurd this.1 hp⟩
  · have := queen_moves_plain b sq m h
    exact ⟨this.2, fun hp => absurd this.1 hp⟩
  · have := king_moves_plain b sq m h
    exact ⟨this.2, fun hp => absurd this.1 hp⟩
  · simp at h

/-- Membership in the list the square loop of `generate_pseudo_legal_moves`
accumulates. -/
theorem mem_pseudo_loop (b : Board) (m : Move) (l : List Square) (init : List Move) :
    m ∈ l.foldl (fun moves sq =>
        if (piece_at b sq).color ≠ b.m_side_to_move then moves
        else moves ++ piece_moves b sq) init ↔
      m ∈ init ∨ ∃ sq ∈ l, (piece_at b sq).color = b.m_side_to_move ∧ m ∈ piece_moves b sq := by
  induction l generalizing init with
  | nil => simp
  | cons a t ih =>
    rw [List.foldl_cons, ih]
    by_cases hc : (piece_at b a).color = b.m_side_to_move
    · simp only [hc, ne_eq, not_true_eq_false, if_false, List.mem_append, List.mem_cons,
        exists_eq_or_imp, true_and]
      tauto
    · simp only [hc, ne_eq, not_false_eq_true, if_true, List.mem_cons, exists_eq_or_imp,
        false_and, false_or]

theorem mem_generate_pseudo_legal_moves (b : Board) (m : Move) :
    m ∈ generate_pseudo_legal_moves b ↔
      ∃ sq < 64, (piece_at b sq).color = b.m_side_to_move ∧ m ∈ piece_moves b sq := by
  unfold generate_pseudo_legal_moves
  rw [mem_pseudo_loop]
  simp [List.mem_range]

theorem legal_step_snd (Z : Zobrist) (b : Board) (us : Color) (king_sq : Square)
    (in_check : Bool) (st : Bitboard × List Move) (m : Move) :
    (legal_step Z b us king_sq in_check st m).2 = st.2 ∨
      (legal_step Z b us king_sq in_check st m).2 = st.2 ++ [m] := by
  unfold legal_step
  simp only []
  split_ifs <;> simp

theorem mem_legal_loop (Z : Zobrist) (b : Board) (us : Color) (king_sq : Square)
    (in_check : Bool) (m : Move) (l : List Move) (st : Bitboard × List Move)
    (h : m ∈ (l.foldl (legal_step Z b us king_sq in_check) st).2) : m ∈ st.2 ∨ m ∈ l := by
  induction l generalizing st with
  | nil => exact Or.inl h
  | cons a t ih =>
    rw [List.foldl_cons] at h
    rcases ih _ h with h1 | h1
    · rcases legal_step_snd Z b us king_sq in_check st a with e | e
      · rw [e] at h1
        exact Or.inl h1
      · rw [e] at h1
        rcases List.mem_append.1 h1 with h2 | h2
        · exact Or.inl h2
        · exact Or.inr (by simp at h2; simp [h2])
    · exact Or.inr (List.mem_cons_of_mem _ h1)

/-- Every legal move is one of the pseudo-legal moves. -/
theorem legal_subset_pseudo_legal (Z : Zobrist) (b : Board) (m : Move)
    (h : m ∈ generate_legal_moves Z b) : m ∈ generate_pseudo_legal_moves b := by
  unfold generate_legal_moves at h
  rcases mem_legal_loop Z b _ _ _ m _ _ h with h1 | h1
  · simp at h1
  · exact h1

/-! ## Ray scans and attack tables against the spec's attack relation -/

theorem and_bit_ne_zero (occ k : Nat) : occ &&& (1 <<< k) ≠ 0 ↔ occ.testBit k = true := by
  rw [Nat.one_shiftLeft, Nat.and_two_pow]
  cases h : occ.testBit k
  · simp
  · have h2 : 2 ^ k ≠ 0 := Nat.pos_iff_ne_zero.1 (Nat.two_pow_pos k)
    simp [h2]

theorem testBit_or_bit (a k s : Nat) :
    (a ||| (1 <<< k)).testBit s = true ↔ a.testBit s = true ∨ s = k := by
  rw [Nat.testBit_or, Nat.one_shiftLeft, Nat.testBit_two_pow]
  simp only [Bool.or_eq_true, decide_eq_true_eq]
  exact or_congr Iff.rfl eq_comm

theorem testBit_high (x s : Nat) (hx : x < 2 ^ 64) (hs : ¬ s < 64) : x.testBit s = false := by
  apply Nat.testBit_lt_two_pow
  exact lt_of_lt_of_le hx (Nat.pow_le_pow_right (by decide) (by omega))

/-- A ray scan adds exactly the squares of the ray that are reached before
the scan has passed an occupied square. -/
theorem testBit_ray_scan (occ : Bitboard) (l : List Nat) (a : Bitboard) (s : Nat) :
    (ray_scan occ l a).testBit s = true ↔
      a.testBit s = true ∨
        (s ∈ l ∧ ∀ x ∈ l.takeWhile (fun x => x != s), occ.testBit x = false) := by
  induction l generalizing a with
  | nil => simp [ray_scan]
  | cons k rest ih =>
    unfold ray_scan
    by_cases hb : occ &&& (1 <<< k) ≠ 0
    · rw [if_pos hb, testBit_or_bit]
      have hk : occ.testBit k = true := (and_bit_ne_zero occ k).1 hb
      by_cases hks : k = s
      · subst hks
        simp [List.takeWhile]
      · have : (k != s) = true := by simpa using hks
        simp only [List.takeWhile, this, List.mem_cons, forall_eq_or_imp, hk]
        simp [Ne.symm hks]
    · rw [if_neg hb, ih, testBit_or_bit]
      have hk : occ.testBit k = false := by
        have := (and_bit_ne_zero occ k).not.1 hb
        simpa using this
      by_cases hks : k = s
      · subst hks
        simp [List.takeWhile]
      · have : (k != s) = true := by simpa using hks
        simp only [List.takeWhile, this, List.mem_cons, forall_eq_or_imp, hk, true_and,
          (Ne.symm hks), false_or, or_false]

theorem testBit_scan_rays (occ : Bitboard) (rays : List (List Nat)) (a : Bitboard) (s : Nat) :
    (rays.foldl (fun attacks ray => ray_scan occ ray attacks) a).testBit s = true ↔
      a.testBit s = true ∨
        ∃ ray ∈ rays, s ∈ ray ∧ ∀ x ∈ ray.takeWhile (fun x => x != s), occ.testBit x = false := by
  induction rays generalizing a with
  | nil => simp
  | cons r rest ih =>
    rw [List.foldl_cons, ih, testBit_ray_scan]
    simp only [List.mem_cons, exists_eq_or_imp]
    tauto

set_option maxRecDepth 100000 in
theorem rook_rays_sound : rays_sound rook_rays rook_mask rook_line := by decide!

set_option maxRecDepth 100000 in
theorem rook_rays_complete : rays_complete rook_rays rook_line := by decide!

set_option maxRecDepth 100000 in
theorem bishop_rays_sound : rays_sound bishop_rays bishop_mask bishop_line := by decide!

set_option maxRecDepth 100000 in
theorem bishop_rays_complete : rays_complete bishop_rays bishop_line := by decide!

set_option maxRecDepth 100000 in
/-- No ray loop started from a square of the board is cut short by its fuel:
each visits at most 7 squares, far fewer than the 32 allowed. -/
theorem ray_loops_within_fuel :
    ∀ sq < 64, ∀ ray ∈ rook_rays sq ++ bishop_rays sq ++ rook_mask_rays sq ++ bishop_mask_rays sq,
      ray.length ≤ 7 := by decide!

/-- Ray attacks in the spec's words, for loops and a mask that pass the
geometric checks: the scanned set is the squares on a line through `sq` with
nothing on the squares in between, whether or not the occupancy is masked. -/
theorem scan_rays_spec (rays : Square → List (List Nat)) (mask : Square → Bitboard)
    (line : Square → Square → Prop) (hs : rays_sound rays mask line)
    (hc : rays_complete rays line) (sq : Square) (hsq : sq < 64) (occ : Bitboard)
    (masked : Bool) (s : Nat) :
    ((rays sq).foldl (fun attacks ray =>
        ray_scan (if masked then occ &&& mask sq else occ) ray attacks) 0).testBit s = true ↔
      s < 64 ∧ line s sq ∧ ∀ x ∈ between_squares s sq, occ.testBit x = false := by
  rw [testBit_scan_rays]
  simp only [Nat.zero_testBit, Bool.false_eq_true, false_or]
  constructor
  · rintro ⟨ray, hray, hmem, hclear⟩
    obtain ⟨h64, hline, hpre, hbet⟩ := hs sq hsq ray hray s hmem
    refine ⟨h64, hline, fun x hx => ?_⟩
    have hx2 := hbet x hx
    have := hclear x hx2
    cases masked
    · simpa using this
    · simp only [if_true, Nat.testBit_and, (hpre x hx2).1, Bool.and_true] at this
      exact this
  · rintro ⟨h64, hline, hclear⟩
    obtain ⟨ray, hray, hmem⟩ := hc sq hsq s h64 hline
    obtain ⟨_, _, hpre, _⟩ := hs sq hsq ray hray s hmem
    refine ⟨ray, hray, hmem, fun x hx => ?_⟩
    have := hclear x (hpre x hx).2
    cases masked
    · simpa using this
    · simp [Nat.testBit_and, this]

theorem get_rook_attacks_spec (sq : Square) (hsq : sq < 64) (occ : Bitboard) (s : Nat) :
    (get_rook_attacks sq occ).testBit s = true ↔
      s < 64 ∧ rook_line s sq ∧ ∀ x ∈ between_squares s sq, occ.testBit x = false :=
  scan_rays_spec rook_rays rook_mask rook_line rook_rays_sound rook_rays_complete sq hsq occ
    true s

theorem get_bishop_attacks_spec (sq : Square) (hsq : sq < 64) (occ : Bitboard) (s : Nat) :
    (get_bishop_attacks sq occ).testBit s = true ↔
      s < 64 ∧ bishop_line s sq ∧ ∀ x ∈ between_squares s sq, occ.testBit x = false :=
  scan_rays_spec bishop_rays bishop_mask bishop_line bishop_rays_sound bishop_rays_complete
    sq hsq occ true s

theorem compute_rook_attacks_spec (sq : Square) (hsq : sq < 64) (occ : Bitboard) (s : Nat) :
    (compute_rook_attacks sq occ).testBit s = true ↔
      s < 64 ∧ rook_line s sq ∧ ∀ x ∈ between_squares s sq, occ.testBit x = false :=
  scan_rays_spec rook_rays rook_mask rook_line rook_rays_sound rook_rays_complete sq hsq occ
    false s

theorem compute_bishop_attacks_spec (sq : Square) (hsq : sq < 64) (occ : Bitboard) (s : Nat) :
    (compute_bishop_attacks sq occ).testBit s = true ↔
      s < 64 ∧ bishop_line s sq ∧ ∀ x ∈ between_squares s sq, occ.testBit x = false :=
  scan_rays_spec bishop_rays bishop_mask bishop_line bishop_rays_sound bishop_rays_complete
    sq hsq occ false s

set_option maxRecDepth 100000 in
/-- The pawns of colour `c` that attack `sq` are read from the table of the
opposite colour. -/
theorem pawn_table_spec : ∀ c ∈ real_colors, ∀ sq < 64,
    pawn_attack_table (opposite_color c) sq < 2 ^ 64 ∧
    ∀ s < 64, ((pawn_attack_table (opposite_color c) sq).testBit s = true ↔
      pawn_attacks_sq c s sq) := by decide!

set_option maxRecDepth 100000 in
theorem knight_table_spec : ∀ sq < 64, knight_attack_table sq < 2 ^ 64 ∧
    ∀ s < 64, ((knight_attack_table sq).testBit s = true ↔ knight_attacks_sq s sq) := by
  decide!

set_option maxRecDepth 100000 in
theorem king_table_spec : ∀ sq < 64, king_attack_table sq < 2 ^ 64 ∧
    ∀ s < 64, ((king_attack_table sq).testBit s = true ↔ king_attacks_sq s sq) := by
  decide!

/-! ## The claims -/

set_option maxRecDepth 100000 in
/-- C1 (fails on the code): a returned move need not leave the mover out of
check on the board `make_move` produces. After
`set_fen("4k3/8/8/8/8/8/8/r3K3 w - - 0 1")` the king move e1e2 is in
`generate_legal_moves`, and on the board obtained by `make_move(e1e2)`
`is_in_check(WHITE)` is still true, because `make_move` never updates the
bitboards `is_in_check` reads. -/
theorem C1_king_still_in_check_after_legal_move :
    ∀ Z : Zobrist,
      (set_fen Board_ctor "4k3/8/8/8/8/8/8/r3K3 w - - 0 1").isOk = true ∧
      (⟨E1, 12, NONE_PIECE⟩ : Move) ∈
        generate_legal_moves Z (from_fen "4k3/8/8/8/8/8/8/r3K3 w - - 0 1") ∧
      is_in_check (make_move Z (from_fen "4k3/8/8/8/8/8/8/r3K3 w - - 0 1") ⟨E1, 12, NONE_PIECE⟩)
        WHITE = true := by
  intro Z
  rw [generate_legal_moves_key_irrelevant Z test_keys, is_in_check_make_move]
  decide

set_option maxRecDepth 100000 in
/-- C2 (fails on the code): `generate_legal_moves` is not complete. After
`set_fen("k3r2R/8/8/8/8/8/8/4K3 w - - 0 1")` White is in check from the single
rook on e8; the capture h8e8 is pseudo-legal and in the position it leads to
(`k3R3/8/8/8/8/8/8/4K3 b`) nothing attacks the white king, yet h8e8 is not
returned. -/
theorem C2_capture_of_checker_not_generated :
    ∀ Z : Zobrist,
      (⟨H8, E8, NONE_PIECE⟩ : Move) ∈
        generate_pseudo_legal_moves (from_fen "k3r2R/8/8/8/8/8/8/4K3 w - - 0 1") ∧
      count_bits (attackers_to (from_fen "k3r2R/8/8/8/8/8/8/4K3 w - - 0 1") E1 BLACK) = 1 ∧
      attackers_to (from_fen "k3R3/8/8/8/8/8/8/4K3 b - - 0 1") E1 BLACK = 0 ∧
      (⟨H8, E8, NONE_PIECE⟩ : Move) ∉
        generate_legal_moves Z (from_fen "k3r2R/8/8/8/8/8/8/4K3 w - - 0 1") := by
  intro Z
  rw [generate_legal_moves_key_irrelevant Z test_keys]
  decide

set_option maxRecDepth 100000 in
/-- C3 (fails on the code): `make_move` does not preserve the
squares/bitboards invariant. The start position is consistent and e2e4 is a
generated legal move, but after `make_move(e2e4)` the square e2 is empty in
`m_squares` while bit e2 is still set in the white pawn bitboard. -/
theorem C3_make_move_breaks_consistency :
    ∀ Z : Zobrist,
      consistent Board_ctor ∧
      (⟨12, 28, NONE_PIECE⟩ : Move) ∈ generate_legal_moves Z Board_ctor ∧
      (make_move Z Board_ctor ⟨12, 28, NONE_PIECE⟩).m_squares 12 = Piece.NONE ∧
      ((make_move Z Board_ctor ⟨12, 28, NONE_PIECE⟩).m_pieces WHITE PAWN).testBit 12 = true ∧
      ¬ consistent (make_move Z Board_ctor ⟨12, 28, NONE_PIECE⟩) := by
  intro Z
  rw [generate_legal_moves_key_irrelevant Z test_keys, make_move_squares_key Z test_keys,
    make_move_pieces, consistent_make_move_key Z test_keys]
  decide

set_option maxRecDepth 100000 in
/-- C4 (fails on the code): the stored key is not the key recomputed from
scratch. After `set_fen("4k3/8/8/8/8/8/8/4K3 w - - 0 1")` the key is `0`
(`set_fen` never writes it) and after the legal move e1e2 it is `side_key`
(`make_move` never XORs a piece key); so for key tables that give the white
king different keys on e1 and e2, the stored key differs from the recomputed
one before or after the move. -/
theorem C4_zobrist_key_not_maintained (Z : Zobrist)
    (h : Z.piece_keys KING WHITE E1 ≠ Z.piece_keys KING WHITE 12) :
    (⟨E1, 12, NONE_PIECE⟩ : Move) ∈
        generate_legal_moves Z (from_fen "4k3/8/8/8/8/8/8/4K3 w - - 0 1") ∧
      get_zobrist_key (from_fen "4k3/8/8/8/8/8/8/4K3 w - - 0 1") = 0 ∧
      get_zobrist_key
          (make_move Z (from_fen "4k3/8/8/8/8/8/8/4K3 w - - 0 1") ⟨E1, 12, NONE_PIECE⟩) =
        Z.side_key ∧
      (get_zobrist_key (from_fen "4k3/8/8/8/8/8/8/4K3 w - - 0 1") ≠
          zobrist_from_scratch Z (from_fen "4k3/8/8/8/8/8/8/4K3 w - - 0 1") ∨
        get_zobrist_key
            (make_move Z (from_fen "4k3/8/8/8/8/8/8/4K3 w - - 0 1") ⟨E1, 12, NONE_PIECE⟩) ≠
          zobrist_from_scratch Z
            (make_move Z (from_fen "4k3/8/8/8/8/8/8/4K3 w - - 0 1") ⟨E1, 12, NONE_PIECE⟩)) := by
  have k0 : get_zobrist_key (from_fen "4k3/8/8/8/8/8/8/4K3 w - - 0 1") = 0 := by decide
  refine ⟨?_, k0, ?_, ?_⟩
  · rw [generate_legal_moves_key_irrelevant Z test_keys]
    decide
  · rw [make_move_key, k0, Nat.zero_xor]
  · have p0 : pieces_on (from_fen "4k3/8/8/8/8/8/8/4K3 w - - 0 1") =
        [(E1, ⟨KING, WHITE⟩), (E8, ⟨KING, BLACK⟩)] := by decide
    have p1 : pieces_on
        (make_move Z (from_fen "4k3/8/8/8/8/8/8/4K3 w - - 0 1") ⟨E1, 12, NONE_PIECE⟩) =
        [(12, ⟨KING, WHITE⟩), (E8, ⟨KING, BLACK⟩)] := by
      rw [pieces_on_make_move_key Z test_keys]
      decide
    have s0 : (from_fen "4k3/8/8/8/8/8/8/4K3 w - - 0 1").m_side_to_move = WHITE := by decide
    have c0 : (from_fen "4k3/8/8/8/8/8/8/4K3 w - - 0 1").m_castling_rights = 0 := by decide
    have e0 : (from_fen "4k3/8/8/8/8/8/8/4K3 w - - 0 1").m_en_passant = NUM_SQUARES := by
      decide
    rw [make_move_key, k0]
    generalize from_fen "4k3/8/8/8/8/8/8/4K3 w - - 0 1" = P at *
    by_contra hcon
    push_neg at hcon
    obtain ⟨h0, h1⟩ := hcon
    unfold zobrist_from_scratch at h0 h1
    rw [p0] at h0
    rw [p1] at h1
    simp only [make_move, s0, c0, e0, List.foldl, opposite_color,
      ne_eq, not_true_eq_false, if_false, if_true, Nat.zero_xor, reduceCtorEq] at h0 h1
    exact h (xor_keys_cancel _ _ _ _ _ h0 h1)

set_option maxRecDepth 100000 in
theorem C4_zobrist_key_not_maintained_witness :
    test_keys.piece_keys KING WHITE E1 ≠ test_keys.piece_keys KING WHITE 12 ∧
      (get_zobrist_key (from_fen "4k3/8/8/8/8/8/8/4K3 w - - 0 1") ≠
          zobrist_from_scratch test_keys (from_fen "4k3/8/8/8/8/8/8/4K3 w - - 0 1") ∨
        get_zobrist_key
            (make_move test_keys (from_fen "4k3/8/8/8/8/8/8/4K3 w - - 0 1")
              ⟨E1, 12, NONE_PIECE⟩) ≠
          zobrist_from_scratch test_keys
            (make_move test_keys (from_fen "4k3/8/8/8/8/8/8/4K3 w - - 0 1")
              ⟨E1, 12, NONE_PIECE⟩)) :=
  ⟨by decide, (C4_zobrist_key_not_maintained test_keys (by decide)).2.2.2⟩

set_option maxRecDepth 100000 in
/-- C5 (fails on the code): `attackers_to` and `is_square_attacked` disagree
on pawns. After `set_fen("4k3/8/8/8/4P3/8/8/4K3 w - - 0 1")` the white pawn on
e4 attacks d5: `attackers_to(d5, WHITE)` is the bit of e4, but
`is_square_attacked(d5, WHITE)` is false, because it reads
`pawn_attack_table[by_color]` where `attackers_to` reads the table of the
opposite colour. -/
theorem C5_pawn_attack_missed_by_is_square_attacked :
    (set_fen Board_ctor "4k3/8/8/8/4P3/8/8/4K3 w - - 0 1").isOk = true ∧
      attackers_to (from_fen "4k3/8/8/8/4P3/8/8/4K3 w - - 0 1") 35 WHITE = 1 <<< 28 ∧
      attackers_to (from_fen "4k3/8/8/8/4P3/8/8/4K3 w - - 0 1") 35 WHITE ≠ 0 ∧
      is_square_attacked (from_fen "4k3/8/8/8/4P3/8/8/4K3 w - - 0 1") 35 WHITE = false := by
  decide

/-- C6: on a board whose squares and bitboards agree, for a square `sq` of
the board and a colour `c`, bit `s` of `attackers_to(sq, c)` is set exactly
when `s` is a square of the board holding a piece of colour `c` that attacks
`sq` under the board's occupancy (pawn diagonals in `c`'s direction, knight
and king leaps, bishop, rook and queen rays with nothing in between), the
slider lookups returning the stored ray attacks. -/
theorem C6_attackers_to_spec (b : Board) (hcons : consistent b) (sq : Square) (hsq : sq < 64)
    (c : Color) (hc : c ∈ real_colors) (s : Square) :
    (attackers_to b sq c).testBit s = true ↔
      s < 64 ∧ (b.m_squares s).color = c ∧ attacks_square b s sq := by
  unfold attackers_to
  simp only [Nat.testBit_or, Nat.testBit_and, Bool.or_eq_true, Bool.and_eq_true,
    Nat.zero_testBit, Bool.false_eq_true, false_or, get_bishop_attacks_spec sq hsq,
    get_rook_attacks_spec sq hsq]
  by_cases hs : s < 64
  · obtain ⟨hbits, _⟩ := hcons s hs
    simp only [hbits c hc PAWN (by decide), hbits c hc KNIGHT (by decide),
      hbits c hc BISHOP (by decide), hbits c hc ROOK (by decide),
      hbits c hc QUEEN (by decide), hbits c hc KING (by decide),
      (pawn_table_spec c hc sq hsq).2 s hs, (knight_table_spec sq hsq).2 s hs,
      (king_table_spec sq hsq).2 s hs, hs, true_and]
    unfold attacks_square
    rcases hpc : b.m_squares s with ⟨t, col⟩
    cases t <;>
      simp only [Piece.mk.injEq, reduceCtorEq, false_and, and_false, true_and, false_or,
        or_false, or_self]
    · constructor
      · rintro ⟨h, rfl⟩
        exact ⟨rfl, h⟩
      · rintro ⟨rfl, h⟩
        exact ⟨h, rfl⟩
    all_goals tauto
  · simp only [testBit_high _ s (pawn_table_spec c hc sq hsq).1 hs,
      testBit_high _ s (knight_table_spec sq hsq).1 hs,
      testBit_high _ s (king_table_spec sq hsq).1 hs, hs, false_and, Bool.false_eq_true,
      or_false]

set_option maxRecDepth 100000 in
theorem C6_attackers_to_spec_witness :
    consistent (from_fen "k3r2R/8/8/8/8/8/8/4K3 w - - 0 1") ∧
      ((attackers_to (from_fen "k3r2R/8/8/8/8/8/8/4K3 w - - 0 1") E1 BLACK).testBit E8 = true ↔
        E8 < 64 ∧ ((from_fen "k3r2R/8/8/8/8/8/8/4K3 w - - 0 1").m_squares E8).color = BLACK ∧
          attacks_square (from_fen "k3r2R/8/8/8/8/8/8/4K3 w - - 0 1") E8 E1) :=
  ⟨by decide,
   C6_attackers_to_spec (from_fen "k3r2R/8/8/8/8/8/8/4K3 w - - 0 1") (by decide) E1
     (by decide) BLACK (by decide) E8⟩

set_option maxRecDepth 100000 in
/-- C7 (fails on the code): a castle through a square attacked by a pawn is
generated. After `set_fen("4k3/8/8/8/8/8/6p1/4K2R w K - 0 1")` the black pawn
on g2 attacks f1 (`attackers_to(f1, BLACK)` is the bit of g2), the square the
king crosses, yet e1g1 is in `generate_legal_moves`. -/
theorem C7_castle_through_pawn_attack :
    ∀ Z : Zobrist,
      (from_fen "4k3/8/8/8/8/8/6p1/4K2R w K - 0 1").m_squares 14 = ⟨PAWN, BLACK⟩ ∧
      (pawn_attack_table BLACK 14).testBit F1 = true ∧
      attackers_to (from_fen "4k3/8/8/8/8/8/6p1/4K2R w K - 0 1") F1 BLACK = 1 <<< 14 ∧
      is_square_attacked (from_fen "4k3/8/8/8/8/8/6p1/4K2R w K - 0 1") F1 BLACK = false ∧
      (⟨E1, G1, NONE_PIECE⟩ : Move) ∈
        generate_legal_moves Z (from_fen "4k3/8/8/8/8/8/6p1/4K2R w K - 0 1") := by
  intro Z
  rw [generate_legal_moves_key_irrelevant Z test_keys]
  decide

set_option maxRecDepth 100000 in
/-- C8 (fails on the code for e8c8): after
`set_fen("r3k3/8/8/8/8/8/8/4K3 b q - 0 1")` the castling field grants Black the
queen-side right, king and rook are at home, b8, c8 and d8 are empty and no
white piece attacks c8, d8 or e8, yet e8c8 is not in `generate_legal_moves`:
`1 << BLACK_OOO` is `256`, which the 8-bit `m_castling_rights` cannot hold. -/
theorem C8_black_queen_side_castle_missing :
    ∀ Z : Zobrist,
      (set_fen Board_ctor "r3k3/8/8/8/8/8/8/4K3 b q - 0 1").isOk = true ∧
      (from_fen "r3k3/8/8/8/8/8/8/4K3 b q - 0 1").m_castling_rights = 0 ∧
      (from_fen "r3k3/8/8/8/8/8/8/4K3 b q - 0 1").m_squares E8 = ⟨KING, BLACK⟩ ∧
      (from_fen "r3k3/8/8/8/8/8/8/4K3 b q - 0 1").m_squares A8 = ⟨ROOK, BLACK⟩ ∧
      (∀ sq ∈ [B8, C8, D8], is_empty (from_fen "r3k3/8/8/8/8/8/8/4K3 b q - 0 1") sq = true) ∧
      (∀ sq ∈ [C8, D8, E8],
        attackers_to (from_fen "r3k3/8/8/8/8/8/8/4K3 b q - 0 1") sq WHITE = 0) ∧
      (⟨E8, C8, NONE_PIECE⟩ : Move) ∉
        generate_legal_moves Z (from_fen "r3k3/8/8/8/8/8/8/4K3 b q - 0 1") := by
  intro Z
  rw [generate_legal_moves_key_irrelevant Z test_keys]
  decide

set_option maxRecDepth 100000 in
/-- C9 (fails on the code for captures): a pawn capture onto the last rank is
emitted without a promotion piece. After
`set_fen("r3k3/1P6/8/8/8/8/8/4K3 w - - 0 1")` the push b7b8 is expanded into
Queen, Rook, Bishop, Knight in that order, but the capture b7a8 is emitted
once, with promotion `NONE_PIECE`. -/
theorem C9_capture_onto_last_rank_without_promotion :
    generate_pawn_moves (from_fen "r3k3/1P6/8/8/8/8/8/4K3 w - - 0 1") 49 =
        [⟨49, 57, QUEEN⟩, ⟨49, 57, ROOK⟩, ⟨49, 57, BISHOP⟩, ⟨49, 57, KNIGHT⟩,
          ⟨49, 56, NONE_PIECE⟩] ∧
      (⟨49, 56, NONE_PIECE⟩ : Move) ∈
        generate_pseudo_legal_moves (from_fen "r3k3/1P6/8/8/8/8/8/4K3 w - - 0 1") ∧
      (∀ m ∈ generate_pseudo_legal_moves (from_fen "r3k3/1P6/8/8/8/8/8/4K3 w - - 0 1"),
        m.from_ = 49 → m.to_ = 56 → m.promotion = NONE_PIECE) := by
  decide

/-- C10: a move of `generate_pseudo_legal_moves` (hence of
`generate_legal_moves`) whose promotion is not `NONE_PIECE` is made by a pawn
and has its destination on rank index 7 or rank index 0. -/
theorem C10_promotion_only_by_pawn_on_last_rank (Z : Zobrist) (b : Board) (m : Move)
    (hm : m ∈ generate_pseudo_legal_moves b ∨ m ∈ generate_legal_moves Z b)
    (hp : m.promotion ≠ NONE_PIECE) :
    (piece_at b m.from_).type = PAWN ∧ (rank_of m.to_ = 7 ∨ rank_of m.to_ = 0) := by
  have hm2 : m ∈ generate_pseudo_legal_moves b := by
    rcases hm with h | h
    · exact h
    · exact legal_subset_pseudo_legal Z b m h
  rcases (mem_generate_pseudo_legal_moves b m).1 hm2 with ⟨sq, _, _, hmem⟩
  have := piece_moves_promotion b sq m hmem
  rw [this.1]
  exact this.2 hp

set_option maxRecDepth 100000 in
theorem C10_promotion_only_by_pawn_on_last_rank_witness :
    (⟨49, 57, QUEEN⟩ : Move) ∈
        generate_pseudo_legal_moves (from_fen "r3k3/1P6/8/8/8/8/8/4K3 w - - 0 1") ∧
      (piece_at (from_fen "r3k3/1P6/8/8/8/8/8/4K3 w - - 0 1") 49).type = PAWN ∧
      (rank_of 57 = 7 ∨ rank_of 57 = 0) :=
  ⟨by decide,
   C10_promotion_only_by_pawn_on_last_rank test_keys
     (from_fen "r3k3/1P6/8/8/8/8/8/4K3 w - - 0 1") ⟨49, 57, QUEEN⟩ (Or.inl (by decide))
     (by decide)⟩

/-! ## Boards that differ in the key only -/

theorem same_position_refl (b : Board) : same_position b b :=
  ⟨rfl, rfl, rfl, rfl, rfl, rfl, rfl⟩

theorem same_position_make_move (Z Z2 : Zobrist) (b c : Board) (h : same_position b c)
    (m : Move) : same_position (make_move Z b m) (make_move Z2 c m) := by
  obtain ⟨h1, h2, h3, h4, h5, h6, h7⟩ := h
  refine ⟨?_, h2, ?_, h4, h5, h6, h7⟩
  · show Function.update (Function.update b.m_squares m.from_ Piece.NONE) m.to_
        (piece_at b m.from_) =
      Function.update (Function.update c.m_squares m.from_ Piece.NONE) m.to_ (piece_at c m.from_)
    unfold piece_at
    rw [h1]
  · show opposite_color b.m_side_to_move = opposite_color c.m_side_to_move
    rw [h3]

theorem generate_legal_moves_congr (Z Z2 : Zobrist) (b c : Board) (h : same_position b c) :
    generate_legal_moves Z b = generate_legal_moves Z2 c := by
  obtain ⟨k, sq, pc, sd, ep, hm, fm, cr⟩ := b
  obtain ⟨k2, sq2, pc2, sd2, ep2, hm2, fm2, cr2⟩ := c
  obtain ⟨h1, h2, h3, h4, h5, h6, h7⟩ := h
  simp only at h1 h2 h3 h4 h5 h6 h7
  subst h1 h2 h3 h4 h5 h6 h7
  rw [generate_legal_moves_key_irrelevant Z Z2]
  rfl

theorem make_move_en_passant (Z : Zobrist) (b : Board) (m : Move) :
    (make_move Z b m).m_en_passant = b.m_en_passant := rfl

theorem make_move_castling_rights (Z : Zobrist) (b : Board) (m : Move) :
    (make_move Z b m).m_castling_rights = b.m_castling_rights := rfl

/-! ## Claims C11 to C20 -/

set_option maxRecDepth 100000 in
/-- C11 (fails on the code): `make_move` never writes the en-passant square.
After the double push e2e4 from the start position the square is still
`NUM_SQUARES` (not e3), and after the quiet move a2a3 from a position loaded
with en-passant square d6 it is still d6 (not reset). -/
theorem C11_en_passant_square_never_updated :
    ∀ Z : Zobrist,
      (⟨12, 28, NONE_PIECE⟩ : Move) ∈ generate_legal_moves Z Board_ctor ∧
      piece_at Board_ctor 12 = ⟨PAWN, WHITE⟩ ∧
      (make_move Z Board_ctor ⟨12, 28, NONE_PIECE⟩).m_en_passant = NUM_SQUARES ∧
      (from_fen "rnbqkbnr/1pp1pppp/p7/3pP3/8/8/PPPP1PPP/RNBQKBNR w KQkq d6 0 3").m_en_passant
        = 43 ∧
      (⟨8, 16, NONE_PIECE⟩ : Move) ∈ generate_legal_moves Z
        (from_fen "rnbqkbnr/1pp1pppp/p7/3pP3/8/8/PPPP1PPP/RNBQKBNR w KQkq d6 0 3") ∧
      (make_move Z (from_fen "rnbqkbnr/1pp1pppp/p7/3pP3/8/8/PPPP1PPP/RNBQKBNR w KQkq d6 0 3")
        ⟨8, 16, NONE_PIECE⟩).m_en_passant = 43 := by
  intro Z
  rw [generate_legal_moves_key_irrelevant Z test_keys, make_move_en_passant,
    generate_legal_moves_key_irrelevant Z test_keys, make_move_en_passant]
  decide

set_option maxRecDepth 100000 in
/-- C12 (fails on the code): `make_move` removes no captured piece. After
the en-passant capture e5d6 (position after e2e4 a7a6 e4e5 d7d5) the black
pawn is still on d5 in `m_squares` and in the black pawn bitboard; after the
ordinary capture e4d5 in `4k3/8/8/3p4/4P3/8/8/4K3 w` the bit of d5 is still
set in the black pawn bitboard. -/
theorem C12_captured_piece_not_removed :
    ∀ Z : Zobrist,
      (⟨36, 43, NONE_PIECE⟩ : Move) ∈ generate_legal_moves Z
        (from_fen "rnbqkbnr/1pp1pppp/p7/3pP3/8/8/PPPP1PPP/RNBQKBNR w KQkq d6 0 3") ∧
      (make_move Z (from_fen "rnbqkbnr/1pp1pppp/p7/3pP3/8/8/PPPP1PPP/RNBQKBNR w KQkq d6 0 3")
        ⟨36, 43, NONE_PIECE⟩).m_squares 35 = ⟨PAWN, BLACK⟩ ∧
      ((make_move Z (from_fen "rnbqkbnr/1pp1pppp/p7/3pP3/8/8/PPPP1PPP/RNBQKBNR w KQkq d6 0 3")
        ⟨36, 43, NONE_PIECE⟩).m_pieces BLACK PAWN).testBit 35 = true ∧
      (⟨28, 35, NONE_PIECE⟩ : Move) ∈ generate_legal_moves Z
        (from_fen "4k3/8/8/3p4/4P3/8/8/4K3 w - - 0 1") ∧
      ((make_move Z (from_fen "4k3/8/8/3p4/4P3/8/8/4K3 w - - 0 1")
        ⟨28, 35, NONE_PIECE⟩).m_pieces BLACK PAWN).testBit 35 = true := by
  intro Z
  rw [generate_legal_moves_key_irrelevant Z test_keys, make_move_squares_key Z test_keys,
    make_move_pieces, generate_legal_moves_key_irrelevant Z test_keys, make_move_pieces]
  decide

set_option maxRecDepth 100000 in
/-- C13 (fails on the code): in `7k/8/8/K2pP2r/8/8/8/8 w - d6 0 1` the
en-passant capture e5d6 is returned by `generate_legal_moves`, although in
the position it leads to (`7k/8/3P4/K6r/8/8/8/8 b`) the rook on h5 attacks the
white king on a5. -/
theorem C13_en_passant_exposing_king_is_generated :
    ∀ Z : Zobrist,
      (set_fen Board_ctor "7k/8/8/K2pP2r/8/8/8/8 w - d6 0 1").isOk = true ∧
      attackers_to (from_fen "7k/8/3P4/K6r/8/8/8/8 b - - 0 1") 32 BLACK = 1 <<< 39 ∧
      (⟨36, 43, NONE_PIECE⟩ : Move) ∈
        generate_legal_moves Z (from_fen "7k/8/8/K2pP2r/8/8/8/8 w - d6 0 1") := by
  intro Z
  rw [generate_legal_moves_key_irrelevant Z test_keys]
  decide

set_option maxRecDepth 100000 in
/-- C14 (fails on the code): `make_move` ignores `move.promotion`. After
a7a8 with promotion Queen in `8/P7/8/8/8/8/8/k6K w`, the piece on a8 is a white
pawn, the queen bitboard has no bit on a8 and the pawn bitboard still has its
bit on a7. -/
theorem C14_promotion_leaves_a_pawn :
    ∀ Z : Zobrist,
      (⟨48, 56, QUEEN⟩ : Move) ∈
        generate_legal_moves Z (from_fen "8/P7/8/8/8/8/8/k6K w - - 0 1") ∧
      piece_at (make_move Z (from_fen "8/P7/8/8/8/8/8/k6K w - - 0 1") ⟨48, 56, QUEEN⟩) 56 =
        ⟨PAWN, WHITE⟩ ∧
      ((make_move Z (from_fen "8/P7/8/8/8/8/8/k6K w - - 0 1") ⟨48, 56, QUEEN⟩).m_pieces
        WHITE QUEEN).testBit 56 = false ∧
      ((make_move Z (from_fen "8/P7/8/8/8/8/8/k6K w - - 0 1") ⟨48, 56, QUEEN⟩).m_pieces
        WHITE PAWN).testBit 48 = true := by
  intro Z
  unfold piece_at
  rw [generate_legal_moves_key_irrelevant Z test_keys, make_move_squares_key Z test_keys,
    make_move_pieces]
  decide

set_option maxRecDepth 100000 in
/-- C15 (fails on the code): `make_move` does not castle. After e1g1 in
`4k3/8/8/8/8/8/8/4K2R w K` the king stands on g1 but the rook is still on h1
(f1 is empty, the rook bitboard is unchanged) and White keeps its castling
right. -/
theorem C15_castling_leaves_rook_and_rights :
    ∀ Z : Zobrist,
      (⟨E1, G1, NONE_PIECE⟩ : Move) ∈
        generate_legal_moves Z (from_fen "4k3/8/8/8/8/8/8/4K2R w K - 0 1") ∧
      piece_at (make_move Z (from_fen "4k3/8/8/8/8/8/8/4K2R w K - 0 1") ⟨E1, G1, NONE_PIECE⟩)
        G1 = ⟨KING, WHITE⟩ ∧
      piece_at (make_move Z (from_fen "4k3/8/8/8/8/8/8/4K2R w K - 0 1") ⟨E1, G1, NONE_PIECE⟩)
        H1 = ⟨ROOK, WHITE⟩ ∧
      piece_at (make_move Z (from_fen "4k3/8/8/8/8/8/8/4K2R w K - 0 1") ⟨E1, G1, NONE_PIECE⟩)
        F1 = Piece.NONE ∧
      (make_move Z (from_fen "4k3/8/8/8/8/8/8/4K2R w K - 0 1") ⟨E1, G1, NONE_PIECE⟩).m_pieces
        WHITE ROOK = 1 <<< H1 ∧
      (make_move Z (from_fen "4k3/8/8/8/8/8/8/4K2R w K - 0 1")
        ⟨E1, G1, NONE_PIECE⟩).m_castling_rights = 1 <<< WHITE_OO := by
  intro Z
  unfold piece_at
  rw [generate_legal_moves_key_irrelevant Z test_keys, make_move_squares_key Z test_keys,
    make_move_pieces, make_move_castling_rights]
  decide

set_option maxRecDepth 100000 in
/-- C16 (fails on the code): after loading the position reached by e2e4
a7a6 e4e5 d7d5 (en-passant square d6) and playing the generated legal moves
a2a3 and d8d6, `generate_legal_moves` returns the capture e5d6 twice: once as
a capture of the queen and once as en passant, the en-passant square never
having been reset. -/
theorem C16_duplicate_en_passant_capture :
    ∀ Z : Zobrist,
      (set_fen Board_ctor
        "rnbqkbnr/1pp1pppp/p7/3pP3/8/8/PPPP1PPP/RNBQKBNR w KQkq d6 0 3").isOk = true ∧
      (⟨8, 16, NONE_PIECE⟩ : Move) ∈ generate_legal_moves Z
        (from_fen "rnbqkbnr/1pp1pppp/p7/3pP3/8/8/PPPP1PPP/RNBQKBNR w KQkq d6 0 3") ∧
      (⟨59, 43, NONE_PIECE⟩ : Move) ∈ generate_legal_moves Z
        (make_move Z
          (from_fen "rnbqkbnr/1pp1pppp/p7/3pP3/8/8/PPPP1PPP/RNBQKBNR w KQkq d6 0 3")
          ⟨8, 16, NONE_PIECE⟩) ∧
      (generate_legal_moves Z
        (make_move Z
          (make_move Z
            (from_fen "rnbqkbnr/1pp1pppp/p7/3pP3/8/8/PPPP1PPP/RNBQKBNR w KQkq d6 0 3")
            ⟨8, 16, NONE_PIECE⟩)
          ⟨59, 43, NONE_PIECE⟩)).count ⟨36, 43, NONE_PIECE⟩ = 2 ∧
      ¬ (generate_legal_moves Z
        (make_move Z
          (make_move Z
            (from_fen "rnbqkbnr/1pp1pppp/p7/3pP3/8/8/PPPP1PPP/RNBQKBNR w KQkq d6 0 3")
            ⟨8, 16, NONE_PIECE⟩)
          ⟨59, 43, NONE_PIECE⟩)).Nodup := by
  intro Z
  have e1 := generate_legal_moves_congr Z test_keys _ _
    (same_position_make_move Z test_keys _ _ (same_position_refl
      (from_fen "rnbqkbnr/1pp1pppp/p7/3pP3/8/8/PPPP1PPP/RNBQKBNR w KQkq d6 0 3"))
      ⟨8, 16, NONE_PIECE⟩)
  have e2 := generate_legal_moves_congr Z test_keys _ _
    (same_position_make_move Z test_keys _ _
      (same_position_make_move Z test_keys _ _ (same_position_refl
        (from_fen "rnbqkbnr/1pp1pppp/p7/3pP3/8/8/PPPP1PPP/RNBQKBNR w KQkq d6 0 3"))
        ⟨8, 16, NONE_PIECE⟩) ⟨59, 43, NONE_PIECE⟩)
  rw [e1, e2, generate_legal_moves_key_irrelevant Z test_keys]
  decide

set_option maxRecDepth 100000 in
/-- C17: on a default-constructed board, and on the board `set_fen` loads
from the start position, `generate_legal_moves` returns exactly 20 moves: the
four knight moves and the sixteen pawn pushes. -/
theorem C17_start_position_has_twenty_moves :
    ∀ Z : Zobrist,
      generate_legal_moves Z Board_ctor =
        [⟨1, 16, NONE_PIECE⟩, ⟨1, 18, NONE_PIECE⟩, ⟨6, 21, NONE_PIECE⟩, ⟨6, 23, NONE_PIECE⟩,
         ⟨8, 16, NONE_PIECE⟩, ⟨8, 24, NONE_PIECE⟩, ⟨9, 17, NONE_PIECE⟩, ⟨9, 25, NONE_PIECE⟩,
         ⟨10, 18, NONE_PIECE⟩, ⟨10, 26, NONE_PIECE⟩, ⟨11, 19, NONE_PIECE⟩, ⟨11, 27, NONE_PIECE⟩,
         ⟨12, 20, NONE_PIECE⟩, ⟨12, 28, NONE_PIECE⟩, ⟨13, 21, NONE_PIECE⟩, ⟨13, 29, NONE_PIECE⟩,
         ⟨14, 22, NONE_PIECE⟩, ⟨14, 30, NONE_PIECE⟩, ⟨15, 23, NONE_PIECE⟩, ⟨15, 31, NONE_PIECE⟩] ∧
      (generate_legal_moves Z Board_ctor).length = 20 ∧
      generate_legal_moves Z
          (from_fen "rnbqkbnr/pppppppp/8/8/8/8/PPPPPPPP/RNBQKBNR w KQkq - 0 1") =
        generate_legal_moves Z Board_ctor := by
  intro Z
  rw [generate_legal_moves_key_irrelevant Z test_keys,
    generate_legal_moves_key_irrelevant Z test_keys]
  decide

/-! ## The search on boards that differ in the key only -/

theorem evaluate_congr (w : EvalWeights) (b c : Board) (h : same_position b c) :
    evaluate w b = evaluate w c := by
  obtain ⟨k, sq, pc, sd, ep, hm, fm, cr⟩ := b
  obtain ⟨k2, sq2, pc2, sd2, ep2, hm2, fm2, cr2⟩ := c
  obtain ⟨h1, h2, h3, h4, h5, h6, h7⟩ := h
  simp only at h1 h2 h3 h4 h5 h6 h7
  subst h1 h2 h3 h4 h5 h6 h7
  rfl

theorem order_moves_congr (S : Searcher) (b c : Board) (h : same_position b c) (ply : Nat)
    (moves : List Move) (tt : Move) :
    order_moves S b ply moves tt = order_moves S c ply moves tt := by
  obtain ⟨k, sq, pc, sd, ep, hm, fm, cr⟩ := b
  obtain ⟨k2, sq2, pc2, sd2, ep2, hm2, fm2, cr2⟩ := c
  obtain ⟨h1, h2, h3, h4, h5, h6, h7⟩ := h
  simp only at h1 h2 h3 h4 h5 h6 h7
  subst h1 h2 h3 h4 h5 h6 h7
  rfl

theorem is_in_check_congr (b c : Board) (h : same_position b c) (col : Color) :
    is_in_check b col = is_in_check c col := by
  obtain ⟨k, sq, pc, sd, ep, hm, fm, cr⟩ := b
  obtain ⟨k2, sq2, pc2, sd2, ep2, hm2, fm2, cr2⟩ := c
  obtain ⟨h1, h2, h3, h4, h5, h6, h7⟩ := h
  simp only at h1 h2 h3 h4 h5 h6 h7
  subst h1 h2 h3 h4 h5 h6 h7
  rfl

theorem same_position_make_null_move (b c : Board) (h : same_position b c) :
    same_position (make_null_move b) (make_null_move c) := by
  obtain ⟨h1, h2, h3, h4, h5, h6, h7⟩ := h
  refine ⟨h1, h2, ?_, h4, h5, h6, h7⟩
  show opposite_color b.m_side_to_move = opposite_color c.m_side_to_move
  rw [h3]

theorem quiescence_congr (Z Z2 : Zobrist) (S : Searcher) (fuel : Nat) :
    ∀ (b c : Board), same_position b c → ∀ (alpha beta : Int),
      quiescence Z S fuel b alpha beta = quiescence Z2 S fuel c alpha beta := by
  induction fuel with
  | zero =>
    intro b c h alpha beta
    simp only [quiescence, evaluate_congr S.m_evaluator b c h]
  | succ n ih =>
    intro b c h alpha beta
    have hp : (fun move : Move => (piece_at b move.to_).type != NONE_PIECE) =
        (fun move : Move => (piece_at c move.to_).type != NONE_PIECE) := by
      funext move
      unfold piece_at
      rw [h.1]
    have hc : (fun (move : Move) (alpha : Int) =>
          -quiescence Z S n (make_move Z b move) (-beta) (-alpha)) =
        (fun (move : Move) (alpha : Int) =>
          -quiescence Z2 S n (make_move Z2 c move) (-beta) (-alpha)) := by
      funext move a
      rw [ih _ _ (same_position_make_move Z Z2 b c h move)]
    simp only [quiescence, evaluate_congr S.m_evaluator b c h,
      generate_legal_moves_congr Z Z2 b c h, hp, hc]

theorem alpha_beta_congr (Z Z2 : Zobrist) (S : Searcher) (qfuel fuel : Nat) :
    ∀ (depth : Int) (ply : Nat) (b c : Board), same_position b c →
      ∀ (alpha beta : Int) (nm : Bool),
        alpha_beta Z S qfuel fuel depth ply b alpha beta nm =
          alpha_beta Z2 S qfuel fuel depth ply c alpha beta nm := by
  induction fuel with
  | zero =>
    intro depth ply b c h alpha beta nm
    simp only [alpha_beta, quiescence_congr Z Z2 S qfuel b c h]
  | succ n ih =>
    intro depth ply b c h alpha beta nm
    have hc : (fun (move : Move) (alpha : Int) =>
          -alpha_beta Z S qfuel n (depth - 1) (ply + 1) (make_move Z b move) (-beta) (-alpha)
            true) =
        (fun (move : Move) (alpha : Int) =>
          -alpha_beta Z2 S qfuel n (depth - 1) (ply + 1) (make_move Z2 c move) (-beta) (-alpha)
            true) := by
      funext move a
      rw [ih _ _ _ _ (same_position_make_move Z Z2 b c h move)]
    simp only [alpha_beta, quiescence_congr Z Z2 S qfuel b c h,
      generate_legal_moves_congr Z Z2 b c h, hc, is_in_check_congr b c h, h.2.2.1,
      ih _ _ _ _ (same_position_make_null_move b c h), order_moves_congr S b c h]

theorem is_legal_key_irrelevant (Z Z2 : Zobrist) (b : Board) (m : Move) :
    is_legal Z b m = is_legal Z2 b m := by
  unfold is_legal
  simp only [is_in_check_make_move]

/-- The result of a search does not depend on the key tables. -/
theorem search_key_irrelevant (Z Z2 : Zobrist) (S : Searcher) (clock : Nat → Bool)
    (qfuel : Nat) (board : Board) (params : SearchParams) :
    search Z S clock qfuel board params = search Z2 S clock qfuel board params := by
  have hm : search_move Z S clock qfuel board params =
      search_move Z2 S clock qfuel board params := by
    funext depth st move
    have key := alpha_beta_congr Z Z2 S qfuel (depth - 1).toNat (depth - 1) 1 _ _
      (same_position_make_move Z Z2 board board (same_position_refl board) move)
    simp only [search_move, key]
  have hd : search_depth Z S clock qfuel board params =
      search_depth Z2 S clock qfuel board params := by
    funext st depth
    unfold search_depth
    rw [hm, generate_legal_moves_key_irrelevant Z Z2]
  have hb : probe_book Z S board = probe_book Z2 S board := by
    unfold probe_book
    simp only [is_legal_key_irrelevant Z Z2]
  unfold search
  rw [hd, hb]


theorem time_elapsed_untimed (clock : Nat → Bool) (params : SearchParams)
    (h : params.infinite = true ∨ params.use_time = false) (n : Nat) :
    (time_elapsed clock params n && params.use_time) = false := by
  unfold time_elapsed
  rcases h with h | h
  · simp [h]
  · simp [h]

/-- Without a time limit the clock is never consulted to any effect. -/
theorem search_clock_irrelevant (Z : Zobrist) (S : Searcher) (clock clock2 : Nat → Bool)
    (qfuel : Nat) (board : Board) (params : SearchParams)
    (h : params.infinite = true ∨ params.use_time = false) :
    search Z S clock qfuel board params = search Z S clock2 qfuel board params := by
  have hm : search_move Z S clock qfuel board params =
      search_move Z S clock2 qfuel board params := by
    funext depth st move
    simp only [search_move, time_elapsed_untimed clock params h,
      time_elapsed_untimed clock2 params h]
  have hd : search_depth Z S clock qfuel board params =
      search_depth Z S clock2 qfuel board params := by
    funext st depth
    unfold search_depth
    rw [hm]
  unfold search
  rw [hd]

theorem foldl_fixed {α β : Type} (f : α → β → α) (h : ∀ a x, f a x = a) (l : List β) (a : α) :
    l.foldl f a = a := by
  induction l generalizing a with
  | nil => rfl
  | cons x t ih => rw [List.foldl_cons, h, ih]

/-- With no book and no legal move, `search` returns the default result:
move A1 to A1, score 0, depth 0. -/
theorem search_without_moves (Z : Zobrist) (S : Searcher) (clock : Nat → Bool) (qfuel : Nat)
    (board : Board) (params : SearchParams) (hb : S.m_book = none)
    (hg : generate_legal_moves Z board = []) :
    search Z S clock qfuel board params = {} := by
  have hd : ∀ st depth, search_depth Z S clock qfuel board params st depth = st := by
    intro st depth
    unfold search_depth
    rw [hg]
    simp [order_moves, std_sort]
  have hv : (probe_book Z S board).is_valid = false := by
    unfold probe_book
    rw [hb]
    rfl
  simp only [search, hv, foldl_fixed _ hd]
  rfl

/-- The score of a root move does not depend on the key tables. -/
theorem alpha_beta_key_irrelevant (Z Z2 : Zobrist) (S : Searcher) (qfuel fuel : Nat)
    (depth : Int) (ply : Nat) (b : Board) (m : Move) (alpha beta : Int) (nm : Bool) :
    alpha_beta Z S qfuel fuel depth ply (make_move Z b m) alpha beta nm =
      alpha_beta Z2 S qfuel fuel depth ply (make_move Z2 b m) alpha beta nm :=
  alpha_beta_congr Z Z2 S qfuel fuel depth ply _ _
    (same_position_make_move Z Z2 b b (same_position_refl b) m) alpha beta nm

/-! ## Bounds of the evaluation and of the search -/

/-- The move loop returns at least the smaller of its two bounds. -/
theorem cutoff_loop_ge (child : Move → Int → Int) (beta : Int) :
    ∀ (l : List Move) (alpha : Int), min alpha beta ≤ cutoff_loop child beta l alpha := by
  intro l
  induction l with
  | nil => intro alpha; simp [cutoff_loop]
  | cons m rest ih =>
    intro alpha
    simp only [cutoff_loop]
    split_ifs with h1 h2
    · exact min_le_right _ _
    · exact le_trans (min_le_min_right _ (le_of_lt h2)) (ih _)
    · exact ih _

theorem sort_insert_perm (lt : Move → Move → Bool) (x : Move) :
    ∀ l : List Move, (sort_insert lt x l).Perm (x :: l) := by
  intro l
  induction l with
  | nil => simp [sort_insert]
  | cons y ys ih =>
    simp only [sort_insert]
    split_ifs
    · exact (List.Perm.cons y ih).trans (List.Perm.swap x y ys)
    · exact List.Perm.refl _

/-- The sorted list is a rearrangement of the list. -/
theorem std_sort_perm (lt : Move → Move → Bool) : ∀ l : List Move, (std_sort lt l).Perm l := by
  intro l
  induction l with
  | nil => simp [std_sort]
  | cons x xs ih =>
    simp only [std_sort]
    exact (sort_insert_perm lt x _).trans (List.Perm.cons x ih)

theorem find_king_checked_of_king (b : Board) (color : Color)
    (h : b.m_pieces color KING ≠ 0) : find_king_checked b color = some (find_king b color) := by
  unfold find_king_checked find_king
  simp only []
  rw [if_pos h]

theorem evaluate_king_safety_checked_of_king (w : EvalWeights) (b : Board) (color : Color)
    (h : b.m_pieces color KING ≠ 0) :
    evaluate_king_safety_checked w b color = some (evaluate_king_safety w b color) := by
  unfold evaluate_king_safety_checked
  rw [find_king_checked_of_king b color h]
  rfl

/-- With both kings in the bitboards the assertion of `find_king` holds at
both calls of `evaluate`, which returns the value of the model. -/
theorem evaluate_checked_of_kings (w : EvalWeights) (b : Board) (h : kings_present b) :
    evaluate_checked w b = some (evaluate w b) := by
  unfold evaluate_checked
  simp only [evaluate_king_safety_checked_of_king w b WHITE h.1,
    evaluate_king_safety_checked_of_king w b BLACK h.2]
  rfl

theorem kings_present_make_move (Z : Zobrist) (b : Board) (m : Move) (h : kings_present b) :
    kings_present (make_move Z b m) := h

theorem make_move_checked_in_array (Z : Zobrist) (b : Board) (m : Move) (hfrom : m.from_ < 64)
    (hto : m.to_ < 64) : make_move_checked Z b m = some (make_move Z b m) := by
  unfold make_move_checked is_on_board
  have h1 : m.from_ < NUM_SQUARES := hfrom
  have h2 : m.to_ < NUM_SQUARES := hto
  simp [h1, h2, A1]

/-! ## Claims C18 to C20 -/

set_option maxRecDepth 100000 in
/-- C18: after `set_fen` of `7k/5Q2/6K1/8/8/8/8/8 b - - 0 1` (which loads),
`generate_legal_moves` is empty, `is_in_check(BLACK)` is false, `is_stalemate`
is true, and `Searcher::search` at depth 1 with no book returns score 0, for
any clock and any bound on the quiescence recursion. -/
theorem C18_stalemate_search_scores_zero :
    ∀ (Z : Zobrist) (clock : Nat → Bool) (qfuel : Nat),
      (set_fen Board_ctor "7k/5Q2/6K1/8/8/8/8/8 b - - 0 1").isOk = true ∧
      generate_legal_moves Z (from_fen "7k/5Q2/6K1/8/8/8/8/8 b - - 0 1") = [] ∧
      is_in_check (from_fen "7k/5Q2/6K1/8/8/8/8/8 b - - 0 1") BLACK = false ∧
      is_stalemate Z (from_fen "7k/5Q2/6K1/8/8/8/8/8 b - - 0 1") = true ∧
      (search Z (Searcher_ctor {} none) clock qfuel (from_fen "7k/5Q2/6K1/8/8/8/8/8 b - - 0 1")
        { depth := 1 }).score = 0 := by
  intro Z clock qfuel
  have hg : generate_legal_moves Z (from_fen "7k/5Q2/6K1/8/8/8/8/8 b - - 0 1") = [] := by
    rw [generate_legal_moves_key_irrelevant Z test_keys]
    decide
  have hs : (from_fen "7k/5Q2/6K1/8/8/8/8/8 b - - 0 1").m_side_to_move = BLACK := by decide
  have hc : is_in_check (from_fen "7k/5Q2/6K1/8/8/8/8/8 b - - 0 1") BLACK = false := by decide
  refine ⟨by decide, hg, hc, ?_, ?_⟩
  · unfold is_stalemate
    rw [hg, hs, hc]
    rfl
  · rw [search_without_moves Z _ clock qfuel _ _ rfl hg]

set_option maxRecDepth 100000 in
/-- C19 (fails on the code): on `8/P7/8/8/8/8/8/k6K w - - 0 1` the promotion
a7a8q is among the legal moves, but a depth-1 search with the default
weights, no book and no time limit returns the king move h1g1 with score -2.
The comparison of `order_moves` puts no root move before another, every root
move gets the same score -2 (the evaluation reads the bitboards, which
`make_move` leaves as they were), and the best move is replaced only by a
strictly better score, so the first generated move stays. -/
theorem C19_search_prefers_first_move_to_promotion :
    ∀ (Z : Zobrist) (clock : Nat → Bool),
      (⟨48, 56, QUEEN⟩ : Move) ∈
        generate_legal_moves Z (from_fen "8/P7/8/8/8/8/8/k6K w - - 0 1") ∧
      (∀ a ∈ generate_legal_moves Z (from_fen "8/P7/8/8/8/8/8/k6K w - - 0 1"),
        ∀ b ∈ generate_legal_moves Z (from_fen "8/P7/8/8/8/8/8/k6K w - - 0 1"),
          move_before (Searcher_ctor {} none) (from_fen "8/P7/8/8/8/8/8/k6K w - - 0 1") 0
            ⟨A1, A1, NONE_PIECE⟩ a b = false) ∧
      (∀ m ∈ generate_legal_moves Z (from_fen "8/P7/8/8/8/8/8/k6K w - - 0 1"),
        -alpha_beta Z (Searcher_ctor {} none) QFUEL 0 0 1
          (make_move Z (from_fen "8/P7/8/8/8/8/8/k6K w - - 0 1") m) (-INF) INF true = -2) ∧
      search Z (Searcher_ctor {} none) clock QFUEL (from_fen "8/P7/8/8/8/8/8/k6K w - - 0 1")
          { depth := 1, use_time := false } =
        { best_move := ⟨H1, G1, NONE_PIECE⟩, score := -2, depth := 1 } := by
  intro Z clock
  simp only [alpha_beta_key_irrelevant Z test_keys]
  rw [generate_legal_moves_key_irrelevant Z test_keys, search_key_irrelevant Z test_keys,
    search_clock_irrelevant test_keys _ clock (fun _ => false) _ _ _ (Or.inr rfl)]
  decide

set_option maxRecDepth 100000 in
/-- C21 (fails on the code): on `8/8/8/8/8/8/8/k6K w - - 0 1`, which has legal
moves, a search to depth 2 with no book and no time limit runs both
iterations and returns depth 1. `alpha` is kept from one iteration to the
next and the result is written only when a score exceeds it; every root move
scores 0 in both iterations, so the second iteration records nothing. -/
theorem C21_search_depth_stays_behind :
    ∀ (Z : Zobrist) (clock : Nat → Bool),
      generate_legal_moves Z (from_fen "8/8/8/8/8/8/8/k6K w - - 0 1") ≠ [] ∧
      search Z (Searcher_ctor {} none) clock QFUEL (from_fen "8/8/8/8/8/8/8/k6K w - - 0 1")
          { depth := 2, use_time := false } =
        { best_move := ⟨H1, G1, NONE_PIECE⟩, score := 0, depth := 1 } := by
  intro Z clock
  rw [generate_legal_moves_key_irrelevant Z test_keys, search_key_irrelevant Z test_keys,
    search_clock_irrelevant test_keys _ clock (fun _ => false) _ _ _ (Or.inr rfl)]
  decide

set_option maxRecDepth 100000 in
/-- C22 (fails on the code): with only the first four fields `set_fen` does
not complete: the fifth extraction fails, `token` still holds the en-passant
field and `std::stoi` throws on it. With five fields the call completes and
leaves the fullmove number at 1. -/
theorem C22_four_field_fen_throws :
    (set_fen Board_ctor "rnbqkbnr/pppppppp/8/8/8/8/PPPPPPPP/RNBQKBNR w KQkq -").isOk = false ∧
    (set_fen Board_ctor "8/8/8/8/8/8/8/k6K w - e3").isOk = false ∧
    (set_fen Board_ctor "rnbqkbnr/pppppppp/8/8/8/8/PPPPPPPP/RNBQKBNR w KQkq - 0").isOk = true ∧
    (from_fen "rnbqkbnr/pppppppp/8/8/8/8/PPPPPPPP/RNBQKBNR w KQkq - 0").m_fullmove_number = 1 ∧
    (from_fen "rnbqkbnr/pppppppp/8/8/8/8/PPPPPPPP/RNBQKBNR w KQkq - 0").m_halfmove_clock = 0 := by
  decide

set_option maxRecDepth 100000 in
/-- C23 (fails on the code): a placement whose seventh rank holds nine pawns
is loaded without any failure, and the ninth pawn lands on a8; a FEN that
stops after the side to move makes `std::stoi` throw, but by then the board of
the start position has been cleared and the en-passant square set to 142. -/
theorem C23_malformed_fen_changes_board :
    (set_fen Board_ctor "rnbqkbnr/ppppppppp/8/8/8/8/PPPPPPPP/RNBQKBNR w KQkq - 0 1").isOk = true ∧
    (from_fen "rnbqkbnr/ppppppppp/8/8/8/8/PPPPPPPP/RNBQKBNR w KQkq - 0 1").m_squares A8 =
      ⟨PAWN, BLACK⟩ ∧
    Board_ctor.m_squares A8 = ⟨ROOK, BLACK⟩ ∧
    (set_fen Board_ctor "8/8/8/8/8/8/8/8 w").isOk = false ∧
    (from_fen "8/8/8/8/8/8/8/8 w").m_squares A8 = Piece.NONE ∧
    (from_fen "8/8/8/8/8/8/8/8 w").m_pieces BLACK ROOK = 0 ∧
    Board_ctor.m_pieces BLACK ROOK = (1 <<< 56) ||| (1 <<< 63) ∧
    (from_fen "8/8/8/8/8/8/8/8 w").m_en_passant = 142 ∧
    Board_ctor.m_en_passant = NUM_SQUARES := by
  decide

set_option maxRecDepth 100000 in
/-- C24 (fails on the code): after `set_fen` with the castling field `KQkq`
the stored mask is 22 and `get_castling_rights()` is 7, not 15; with the field
`q` it is 0. `set_fen` stores `1 << BLACK_OOO = 256` for `q`, which does not
fit the 8-bit member. -/
theorem C24_black_queen_side_right_lost :
    (set_fen Board_ctor "r3k2r/8/8/8/8/8/8/R3K2R w KQkq - 0 1").isOk = true ∧
    (from_fen "r3k2r/8/8/8/8/8/8/R3K2R w KQkq - 0 1").m_castling_rights = 22 ∧
    get_castling_rights (from_fen "r3k2r/8/8/8/8/8/8/R3K2R w KQkq - 0 1") = 7 ∧
    (set_fen Board_ctor "r3k2r/8/8/8/8/8/8/R3K2R w q - 0 1").isOk = true ∧
    get_castling_rights (from_fen "r3k2r/8/8/8/8/8/8/R3K2R w q - 0 1") = 0 := by
  decide

set_option maxRecDepth 100000 in
/-- C25 (fails on the code): `print_best_move` writes the queen promotion
a7a8 as `a7a8r`, which the move parser of `handle_position` reads back as a
rook promotion; rook, bishop and knight are written as `b`, `n` and `p`. The
string `" PNBRQK"` is indexed by the piece type, whose values start at
`PAWN = 0`. Moves without promotion do make the round trip. -/
theorem C25_promotion_letter_off_by_one :
    print_best_move ⟨48, 56, QUEEN⟩ = "a7a8r" ∧
    parse_move (print_best_move ⟨48, 56, QUEEN⟩) = ⟨48, 56, ROOK⟩ ∧
    print_best_move ⟨48, 56, ROOK⟩ = "a7a8b" ∧
    print_best_move ⟨48, 56, BISHOP⟩ = "a7a8n" ∧
    print_best_move ⟨48, 56, KNIGHT⟩ = "a7a8p" ∧
    parse_move "a7a8q" = ⟨48, 56, QUEEN⟩ ∧
    (∀ f < 64, ∀ t < 64,
      parse_move (print_best_move ⟨f, t, NONE_PIECE⟩) = ⟨f, t, NONE_PIECE⟩) := by
  decide!

set_option maxRecDepth 100000 in
/-- C26 (fails on the code): on the start position `is_legal` accepts the
rook move a1a8, which `generate_legal_moves` does not contain, and
`probe_book` returns it when the book proposes it. `is_legal` checks the
colour of the moving piece and the king's safety after the move, never
whether the piece can make the move. -/
theorem C26_is_legal_accepts_impossible_move :
    ∀ Z : Zobrist,
      is_legal Z Board_ctor ⟨A1, A8, NONE_PIECE⟩ = true ∧
      (⟨A1, A8, NONE_PIECE⟩ : Move) ∉ generate_legal_moves Z Board_ctor ∧
      probe_book Z (Searcher_ctor {} (some (fun _ => ⟨A1, A8, NONE_PIECE⟩))) Board_ctor =
        ⟨A1, A8, NONE_PIECE⟩ := by
  intro Z
  rw [generate_legal_moves_key_irrelevant Z test_keys]
  unfold probe_book
  simp only [is_legal_key_irrelevant Z test_keys]
  decide

/-- An entry that `store` accepts is found again by `probe` when it is exact. -/
theorem probe_after_store (tt : TranspositionTable) (key : Nat) (depth score alpha beta s0 : Int)
    (move m0 : Move) (h : depth ≥ (tt.table (key % tt.size)).depth) :
    (tt.store key depth score move EXACT).probe key depth alpha beta s0 m0 =
      (true, score, move) := by
  unfold TranspositionTable.store
  simp only []
  rw [if_pos h]
  unfold TranspositionTable.probe
  simp [Function.update_same]

/-- C27: `TranspositionTable::probe` returns true exactly when the slot at
`key % size` holds that key with a stored depth of at least `depth` and the
flag is Exact, or LowerBound with stored score at least `beta`, or UpperBound
with stored score at most `alpha`; whenever it returns true the output score
and move are the stored score and best move. -/
theorem C27_probe_returns_matching_entry (tt : TranspositionTable) (key : Nat)
    (depth alpha beta score : Int) (move : Move) :
    ((tt.probe key depth alpha beta score move).1 = true ↔
      (tt.table (key % tt.size)).key = key ∧ (tt.table (key % tt.size)).depth ≥ depth ∧
      ((tt.table (key % tt.size)).flag = EXACT ∨
        ((tt.table (key % tt.size)).flag = LOWER_BOUND ∧
          (tt.table (key % tt.size)).score ≥ beta) ∨
        ((tt.table (key % tt.size)).flag = UPPER_BOUND ∧
          (tt.table (key % tt.size)).score ≤ alpha))) ∧
    ((tt.probe key depth alpha beta score move).1 = true →
      (tt.probe key depth alpha beta score move).2.1 = (tt.table (key % tt.size)).score ∧
      (tt.probe key depth alpha beta score move).2.2 = (tt.table (key % tt.size)).best_move) := by
  unfold TranspositionTable.probe
  simp only []
  generalize tt.table (key % tt.size) = e
  by_cases h1 : e.key = key ∧ e.depth ≥ depth
  · rw [if_pos h1]
    by_cases h2 : e.flag = EXACT
    · rw [if_pos h2]
      exact ⟨⟨fun _ => ⟨h1.1, h1.2, Or.inl h2⟩, fun _ => rfl⟩, fun _ => ⟨rfl, rfl⟩⟩
    · rw [if_neg h2]
      by_cases h3 : e.flag = LOWER_BOUND ∧ e.score ≥ beta
      · rw [if_pos h3]
        exact ⟨⟨fun _ => ⟨h1.1, h1.2, Or.inr (Or.inl h3)⟩, fun _ => rfl⟩, fun _ => ⟨rfl, rfl⟩⟩
      · rw [if_neg h3]
        by_cases h4 : e.flag = UPPER_BOUND ∧ e.score ≤ alpha
        · rw [if_pos h4]
          exact ⟨⟨fun _ => ⟨h1.1, h1.2, Or.inr (Or.inr h4)⟩, fun _ => rfl⟩, fun _ => ⟨rfl, rfl⟩⟩
        · rw [if_neg h4]
          refine ⟨⟨fun h => absurd h (by simp), ?_⟩, fun h => absurd h (by simp)⟩
          rintro ⟨_, _, h5 | h5 | h5⟩
          · exact absurd h5 h2
          · exact absurd h5 h3
          · exact absurd h5 h4
  · rw [if_neg h1]
    refine ⟨⟨fun h => absurd h (by simp), ?_⟩, fun h => absurd h (by simp)⟩
    rintro ⟨h5, h6, _⟩
    exact absurd ⟨h5, h6⟩ h1

set_option maxRecDepth 100000 in
/-- C28 (fails on the code): a side without pawns gets -120 from
`evaluate_pawn_structure`, not 0, on every board; a single white pawn on a2
gets -105, not -15. The isolated-pawn loop runs over the eight files and
subtracts 15 for each file whose neighbours hold no friendly pawn, whether or
not the file itself holds one. -/
theorem C28_isolated_penalty_charged_per_file :
    (∀ (board : Board) (color : Color), board.m_pieces color PAWN = 0 →
      evaluate_pawn_structure board color = -120) ∧
    (from_fen "8/8/8/8/8/8/8/k6K w - - 0 1").m_pieces WHITE PAWN = 0 ∧
    evaluate_pawn_structure (from_fen "8/8/8/8/8/8/8/k6K w - - 0 1") WHITE = -120 ∧
    (from_fen "8/8/8/8/8/8/P7/k6K w - - 0 1").m_pieces WHITE PAWN = 1 <<< 8 ∧
    evaluate_pawn_structure (from_fen "8/8/8/8/8/8/P7/k6K w - - 0 1") WHITE = -105 := by
  refine ⟨?_, by decide, by decide, by decide, by decide⟩
  intro board color h
  simp only [evaluate_pawn_structure, h, Nat.zero_and]
  decide

theorem king_shield_off_a1 (c : Color) (sq : Square) (h : sq ≠ A1) : KING_SHIELD c sq = 0 := by
  unfold KING_SHIELD
  split
  · exact absurd rfl h
  · exact absurd rfl h
  · rfl

set_option maxRecDepth 100000 in
/-- C29 (fails on the code): with the white king on g1 and white pawns on
f2, g2 and h2, `evaluate_king_safety` returns 0, not 750; it returns 0 on
every board whose king is not on a1, because the initialiser of `KING_SHIELD`
gives a shield to the square a1 only. -/
theorem C29_king_shield_only_on_a1 :
    find_king (from_fen "6k1/5ppp/8/8/8/8/5PPP/6K1 w - - 0 1") WHITE = G1 ∧
    (from_fen "6k1/5ppp/8/8/8/8/5PPP/6K1 w - - 0 1").m_pieces WHITE PAWN =
      (1 <<< 13) ||| (1 <<< 14) ||| (1 <<< 15) ∧
    evaluate_king_safety {} (from_fen "6k1/5ppp/8/8/8/8/5PPP/6K1 w - - 0 1") WHITE = 0 ∧
    (∀ (w : EvalWeights) (board : Board) (color : Color), find_king board color ≠ A1 →
      evaluate_king_safety w board color = 0) := by
  refine ⟨by decide, by decide, by decide, ?_⟩
  intro w board color h
  have h0 : count_bits 0 = 0 := by decide
  simp only [evaluate_king_safety, king_shield_off_a1 color _ h, Nat.zero_and, h0]
  simp

/-! ## The magic tables enumerate the subsets of the mask -/

theorem find_range_some (P : Nat → Bool) : ∀ (n p : Nat),
    (List.range n).find? P = some p → p < n ∧ P p = true ∧ ∀ j < p, P j = false := by
  intro n
  induction n with
  | zero => intro p h; simp at h
  | succ n ih =>
    intro p h
    rw [List.range_succ, List.find?_append] at h
    cases hf : (List.range n).find? P with
    | some q =>
      rw [hf] at h
      have := ih q hf
      have hq : q = p := by simpa [Option.or] using h
      subst hq
      exact ⟨by omega, this.2.1, this.2.2⟩
    | none =>
      rw [hf] at h
      simp only [Option.or] at h
      have hnone : ∀ j < n, P j = false := by
        intro j hj
        have := List.find?_eq_none.1 hf j (List.mem_range.2 hj)
        simpa using this
      by_cases hp : P n = true
      · simp [List.find?, hp] at h
        subst h
        exact ⟨by omega, hp, hnone⟩
      · simp [List.find?, hp] at h

theorem head_filter_eq_find (P : Nat → Bool) : ∀ l : List Nat,
    (l.filter P).head? = l.find? P := by
  intro l
  induction l with
  | nil => rfl
  | cons a t ih =>
    by_cases h : P a = true
    · simp [List.filter_cons, List.find?_cons, h]
    · simp [List.filter_cons, List.find?_cons, h, ih]

theorem mem_bit_positions (m x : Nat) : x ∈ bit_positions m ↔ x < 64 ∧ m.testBit x = true := by
  simp [bit_positions]

theorem count_bits_eq (m : Bitboard) : count_bits m = (bit_positions m).length := rfl

theorem bit_positions_nodup (m : Bitboard) : (bit_positions m).Nodup :=
  (List.nodup_range 64).filter _

/-- The head of the positions is the lowest set bit, which `ctz` returns. -/
theorem bit_positions_cons (m : Bitboard) (p : Nat) (t : List Nat)
    (h : bit_positions m = p :: t) :
    ctz m = p ∧ p < 64 ∧ m.testBit p = true ∧ ∀ j < p, m.testBit j = false := by
  have hh : (bit_positions m).head? = some p := by rw [h]; rfl
  unfold bit_positions at hh
  rw [head_filter_eq_find] at hh
  have := find_range_some _ 64 p hh
  refine ⟨?_, this.1, this.2.1, this.2.2⟩
  unfold ctz
  rw [hh]
  rfl

/-- The expression `m & (m - 1)` clears the lowest set bit. -/
theorem testBit_clear_lowest (m p : Nat) (hp : m.testBit p = true)
    (hlow : ∀ j < p, m.testBit j = false) (j : Nat) :
    (m &&& (m - 1)).testBit j = (m.testBit j && decide (j ≠ p)) := by
  have hmod : m % 2 ^ (p + 1) = 2 ^ p := by
    apply Nat.eq_of_testBit_eq
    intro i
    rw [Nat.testBit_mod_two_pow, Nat.testBit_two_pow]
    by_cases h1 : i < p
    · have := hlow i h1
      have h2 : ¬ p = i := by omega
      simp [this, h2]
    · by_cases h2 : i = p
      · subst h2
        simp [hp]
      · have h3 : ¬ i < p + 1 := by omega
        have h4 : ¬ p = i := by omega
        simp [h3, h4]
  have hm : m = 2 ^ (p + 1) * (m / 2 ^ (p + 1)) + 2 ^ p := by
    have := Nat.div_add_mod m (2 ^ (p + 1))
    rw [hmod] at this
    exact this.symm
  have hpos : 0 < 2 ^ p := Nat.two_pow_pos p
  have hm1 : m - 1 = 2 ^ (p + 1) * (m / 2 ^ (p + 1)) + (2 ^ p - 1) := by omega
  have hlt : 2 ^ p < 2 ^ (p + 1) := Nat.pow_lt_pow_right (by decide) (by omega)
  have hlt1 : 2 ^ p - 1 < 2 ^ (p + 1) := by omega
  rw [Nat.testBit_and]
  rw [hm1]
  nth_rewrite 1 [hm]
  nth_rewrite 3 [hm]
  rw [Nat.testBit_mul_pow_two_add _ hlt, Nat.testBit_mul_pow_two_add _ hlt1,
    Nat.testBit_two_pow, Nat.testBit_two_pow_sub_one]
  by_cases h1 : j < p + 1
  · by_cases h2 : j = p
    · subst h2
      simp
    · have h3 : ¬ p = j := by omega
      simp [h1, h3]
  · have h2 : j ≠ p := by omega
    simp [h1, h2]

theorem bit_positions_clear (m : Bitboard) (p : Nat) (t : List Nat)
    (h : bit_positions m = p :: t) : bit_positions (m &&& (m - 1)) = t := by
  obtain ⟨_, hp64, hp, hlow⟩ := bit_positions_cons m p t h
  have hnd := bit_positions_nodup m
  rw [h] at hnd
  have hpt : p ∉ t := (List.nodup_cons.1 hnd).1
  have h1 : bit_positions (m &&& (m - 1)) =
      (bit_positions m).filter (fun j => decide (j ≠ p)) := by
    unfold bit_positions
    rw [List.filter_filter]
    congr 1
    funext j
    rw [testBit_clear_lowest m p hp hlow j, Bool.and_comm]
  rw [h1, h, List.filter_cons]
  simp only [ne_eq, not_true_eq_false, decide_False, Bool.false_eq_true, ↓reduceIte]
  rw [List.filter_eq_self]
  intro a ha
  have : a ≠ p := fun e => hpt (e ▸ ha)
  simpa using this

/-- The loop of `index_to_occupancy` walks the set bits of the mask upwards. -/
theorem index_to_occupancy_loop_eq (index : Nat) : ∀ (n i : Nat) (m r : Bitboard),
    n ≤ (bit_positions m).length →
    index_to_occupancy_loop index n i m r =
      occupancy_of_positions index i ((bit_positions m).take n) r := by
  intro n
  induction n with
  | zero => intro i m r _; simp [index_to_occupancy_loop, occupancy_of_positions]
  | succ n ih =>
    intro i m r hn
    cases hb : bit_positions m with
    | nil => rw [hb] at hn; simp at hn
    | cons p t =>
      obtain ⟨hctz, _, _, _⟩ := bit_positions_cons m p t hb
      have ht := bit_positions_clear m p t hb
      rw [hb] at hn
      simp only [List.length_cons, Nat.add_le_add_iff_right] at hn
      simp only [index_to_occupancy_loop, List.take_succ_cons, occupancy_of_positions]
      rw [ih (i + 1) (m &&& (m - 1)) _ (by rw [ht]; exact hn), ht, hctz]
      congr 1
      by_cases hbit : index.testBit i = true
      · rw [if_pos ((and_bit_ne_zero index i).2 hbit), if_pos hbit]
      · rw [if_neg (fun h => hbit ((and_bit_ne_zero index i).1 h)), if_neg hbit]

theorem index_to_occupancy_eq (index : Nat) (mask : Bitboard) :
    index_to_occupancy index (count_bits mask) mask =
      occupancy_of_positions index 0 (bit_positions mask) 0 := by
  unfold index_to_occupancy
  rw [index_to_occupancy_loop_eq index _ 0 mask 0 (le_of_eq (count_bits_eq mask)),
    count_bits_eq, List.take_length]

/-- Every bit of the built occupancy was there before or is in the list. -/
theorem occupancy_of_positions_subset (index : Nat) : ∀ (l : List Nat) (i : Nat) (r : Bitboard)
    (x : Nat), (occupancy_of_positions index i l r).testBit x = true →
      r.testBit x = true ∨ x ∈ l := by
  intro l
  induction l with
  | nil => intro i r x h; exact Or.inl h
  | cons p t ih =>
    intro i r x h
    simp only [occupancy_of_positions] at h
    rcases ih _ _ x h with h1 | h1
    · split_ifs at h1
      · rcases (testBit_or_bit r p x).1 h1 with h2 | h2
        · exact Or.inl h2
        · exact Or.inr (h2 ▸ List.mem_cons_self _ _)
      · exact Or.inl h1
    · exact Or.inr (List.mem_cons_of_mem _ h1)

/-- Every set of positions from the list is built by some index. -/
theorem occupancy_of_positions_onto : ∀ (l : List Nat) (i low : Nat) (r s : Bitboard),
    low < 2 ^ i → (∀ x, s.testBit x = true → x ∈ l) →
    ∃ k < 2 ^ l.length, occupancy_of_positions (2 ^ i * k + low) i l r = r ||| s := by
  intro l
  induction l with
  | nil =>
    intro i low r s _ hs
    refine ⟨0, by simp, ?_⟩
    have : s = 0 := by
      apply Nat.eq_of_testBit_eq
      intro x
      rw [Nat.zero_testBit]
      cases hx : s.testBit x
      · rfl
      · exact absurd (hs x hx) (List.not_mem_nil _)
    simp [occupancy_of_positions, this]
  | cons p t ih =>
    intro i low r s hlow hs
    by_cases hb : s.testBit p = true
    · -- the bit of `p` is wanted
      have hs2 : ∀ x, (s ^^^ 2 ^ p).testBit x = true → x ∈ t := by
        intro x hx
        rw [Nat.testBit_xor, Nat.testBit_two_pow] at hx
        by_cases hxp : p = x
        · subst hxp
          simp [hb] at hx
        · simp only [hxp, decide_False, Bool.xor_false] at hx
          rcases List.mem_cons.1 (hs x hx) with h | h
          · exact absurd h.symm hxp
          · exact h
      have hlow2 : 2 ^ i + low < 2 ^ (i + 1) := by rw [pow_succ]; omega
      obtain ⟨k, hk, hocc⟩ := ih (i + 1) (2 ^ i + low) (r ||| (1 <<< p)) (s ^^^ 2 ^ p)
        hlow2 hs2
      refine ⟨2 * k + 1, by simp only [List.length_cons, pow_succ]; omega, ?_⟩
      have hidx : 2 ^ i * (2 * k + 1) + low = 2 ^ (i + 1) * k + (2 ^ i + low) := by
        rw [pow_succ]; ring
      have hbit : (2 ^ i * (2 * k + 1) + low).testBit i = true := by
        rw [Nat.testBit_mul_pow_two_add _ hlow]
        simp
        omega
      simp only [occupancy_of_positions]
      rw [if_pos hbit, hidx, hocc]
      apply Nat.eq_of_testBit_eq
      intro x
      simp only [Nat.testBit_or, Nat.testBit_xor, Nat.one_shiftLeft, Nat.testBit_two_pow]
      by_cases hxp : p = x
      · subst hxp
        simp [hb]
      · simp [hxp]
    · -- the bit of `p` is not wanted
      have hs2 : ∀ x, s.testBit x = true → x ∈ t := by
        intro x hx
        rcases List.mem_cons.1 (hs x hx) with h | h
        · subst h
          exact absurd hx hb
        · exact h
      have hlow2 : low < 2 ^ (i + 1) := by rw [pow_succ]; omega
      obtain ⟨k, hk, hocc⟩ := ih (i + 1) low r s hlow2 hs2
      refine ⟨2 * k, by simp only [List.length_cons, pow_succ]; omega, ?_⟩
      have hidx : 2 ^ i * (2 * k) + low = 2 ^ (i + 1) * k + low := by
        rw [pow_succ]; ring
      have hbit : ¬ (2 ^ i * (2 * k) + low).testBit i = true := by
        rw [Nat.testBit_mul_pow_two_add _ hlow]
        simp
      simp only [occupancy_of_positions]
      rw [if_neg hbit, hidx, hocc]

/-- The subsets of a 64-bit mask are exactly what `index_to_occupancy`
enumerates. -/
theorem index_to_occupancy_onto (mask s : Bitboard) (hs : s &&& mask = s) (hm : mask < 2 ^ 64) :
    ∃ i < 2 ^ count_bits mask, index_to_occupancy i (count_bits mask) mask = s := by
  have hsub : ∀ x, s.testBit x = true → x ∈ bit_positions mask := by
    intro x hx
    rw [← hs, Nat.testBit_and] at hx
    simp only [Bool.and_eq_true] at hx
    rw [mem_bit_positions]
    refine ⟨?_, hx.2⟩
    by_contra h
    rw [testBit_high mask x hm h] at hx
    exact absurd hx.2 (by simp)
  obtain ⟨k, hk, hocc⟩ := occupancy_of_positions_onto (bit_positions mask) 0 0 0 s (by simp) hsub
  refine ⟨k, by rw [count_bits_eq]; exact hk, ?_⟩
  rw [index_to_occupancy_eq]
  simpa using hocc

theorem index_to_occupancy_subset (index : Nat) (mask : Bitboard) :
    index_to_occupancy index (count_bits mask) mask &&& mask =
      index_to_occupancy index (count_bits mask) mask := by
  apply Nat.eq_of_testBit_eq
  intro x
  rw [Nat.testBit_and]
  cases hx : (index_to_occupancy index (count_bits mask) mask).testBit x
  · rfl
  · rw [index_to_occupancy_eq] at hx
    rcases occupancy_of_positions_subset index _ 0 0 x hx with h | h
    · simp at h
    · simp [((mem_bit_positions mask x).1 h).2]

theorem foldl_update_miss (f g : Nat → Nat) : ∀ (l : List Nat) (row : Nat → Nat) (x : Nat),
    (∀ i ∈ l, f i ≠ x) →
    (l.foldl (fun row i => Function.update row (f i) (g i)) row) x = row x := by
  intro l
  induction l with
  | nil => intro row x _; rfl
  | cons a t ih =>
    intro row x h
    rw [List.foldl_cons, ih _ x (fun i hi => h i (List.mem_cons_of_mem _ hi))]
    exact Function.update_noteq (Ne.symm (h a (List.mem_cons_self _ _))) _ _

/-- After a run of writes, a slot that was written holds what one of the
writes to it stored. -/
theorem foldl_update_hit (f g : Nat → Nat) : ∀ (l : List Nat) (row : Nat → Nat) (x : Nat),
    (∃ i ∈ l, f i = x) →
    ∃ j ∈ l, f j = x ∧ (l.foldl (fun row i => Function.update row (f i) (g i)) row) x = g j := by
  intro l
  induction l with
  | nil => intro row x h; obtain ⟨i, hi, _⟩ := h; exact absurd hi (List.not_mem_nil _)
  | cons a t ih =>
    intro row x h
    by_cases ht : ∃ i ∈ t, f i = x
    · obtain ⟨j, hj, hfj, hval⟩ := ih (Function.update row (f a) (g a)) x ht
      exact ⟨j, List.mem_cons_of_mem _ hj, hfj, by rw [List.foldl_cons]; exact hval⟩
    · have hmiss : ∀ i ∈ t, f i ≠ x := fun i hi e => ht ⟨i, hi, e⟩
      obtain ⟨i, hi, hfi⟩ := h
      have hia : i = a := by
        rcases List.mem_cons.1 hi with h1 | h1
        · exact h1
        · exact absurd hfi (hmiss i h1)
      subst hia
      refine ⟨i, List.mem_cons_self _ _, hfi, ?_⟩
      rw [List.foldl_cons, foldl_update_miss f g t _ x hmiss, ← hfi]
      exact Function.update_same _ _ _

/-- With a collision-free magic, the slot read for a subset of the mask holds
the attack set of that subset, whatever the row held before. -/
theorem init_sliding_attacks_entry (m : Magic) (sq : Square) (is_rook : Bool)
    (row : Nat → Bitboard) (width : Nat) (hm : m.mask < 2 ^ 64)
    (hfree : collision_free m (compute_attacks is_rook sq) width)
    (s : Bitboard) (hs : s &&& m.mask = s) :
    init_sliding_attacks m sq is_rook row (magic_index m s) = compute_attacks is_rook sq s := by
  obtain ⟨i, hi, hocc⟩ := index_to_occupancy_onto m.mask s hs hm
  have hmem : ∃ i ∈ List.range (1 <<< count_bits m.mask),
      magic_index m (index_to_occupancy i (count_bits m.mask) m.mask) = magic_index m s :=
    ⟨i, by rw [Nat.one_shiftLeft]; exact List.mem_range.2 hi, by rw [hocc]⟩
  obtain ⟨j, _, hfj, hval⟩ := foldl_update_hit
    (fun i => magic_index m (index_to_occupancy i (count_bits m.mask) m.mask))
    (fun i => compute_attacks is_rook sq (index_to_occupancy i (count_bits m.mask) m.mask))
    _ row _ hmem
  have hsub := index_to_occupancy_subset j m.mask
  have := (hfree _ s hsub hs).1 hfj
  unfold init_sliding_attacks
  simp only []
  rw [hval]
  exact this

set_option maxRecDepth 100000 in
theorem masks_are_64_bit : ∀ sq < 64, rook_mask sq < 2 ^ 64 ∧ bishop_mask sq < 2 ^ 64 := by
  decide!

theorem compute_rook_attacks_masked (sq : Square) (hsq : sq < 64) (occ : Bitboard) :
    compute_rook_attacks sq (occ &&& rook_mask sq) = compute_rook_attacks sq occ := by
  apply Nat.eq_of_testBit_eq
  intro s
  rw [Bool.eq_iff_iff, compute_rook_attacks_spec sq hsq occ s]
  exact get_rook_attacks_spec sq hsq occ s

theorem compute_bishop_attacks_masked (sq : Square) (hsq : sq < 64) (occ : Bitboard) :
    compute_bishop_attacks sq (occ &&& bishop_mask sq) = compute_bishop_attacks sq occ := by
  apply Nat.eq_of_testBit_eq
  intro s
  rw [Bool.eq_iff_iff, compute_bishop_attacks_spec sq hsq occ s]
  exact get_bishop_attacks_spec sq hsq occ s

theorem land_land_self (a b : Nat) : a &&& b &&& b = a &&& b := by
  rw [Nat.land_assoc, Nat.and_self]

theorem distinct_loop_spec (f : Nat → Nat) : ∀ (n i seen : Nat),
    distinct_loop f n i seen = true →
    (∀ a, i ≤ a → a < i + n → seen.testBit (f a) = false) ∧
    (∀ a b, i ≤ a → a < b → b < i + n → f a ≠ f b) := by
  intro n
  induction n with
  | zero =>
    intro i seen _
    exact ⟨fun a h1 h2 => by omega, fun a b h1 h2 h3 => by omega⟩
  | succ n ih =>
    intro i seen h
    simp only [distinct_loop] at h
    by_cases hseen : seen.testBit (f i) = true
    · rw [if_pos hseen] at h
      exact absurd h (by simp)
    · rw [if_neg hseen] at h
      obtain ⟨h1, h2⟩ := ih (i + 1) _ h
      have hsplit : ∀ a, i + 1 ≤ a → a < i + 1 + n →
          seen.testBit (f a) = false ∧ f a ≠ f i := by
        intro a ha1 ha2
        have := h1 a ha1 ha2
        constructor
        · cases hc : seen.testBit (f a)
          · rfl
          · rw [(testBit_or_bit seen (f i) (f a)).2 (Or.inl hc)] at this
            exact absurd this (by simp)
        · intro e
          rw [(testBit_or_bit seen (f i) (f a)).2 (Or.inr e)] at this
          exact absurd this (by simp)
      constructor
      · intro a ha1 ha2
        by_cases ha : a = i
        · subst ha
          simpa using hseen
        · exact (hsplit a (by omega) (by omega)).1
      · intro a b ha1 hab hb
        by_cases ha : a = i
        · subst ha
          exact fun e => (hsplit b (by omega) (by omega)).2 e.symm
        · exact h2 a b (by omega) hab (by omega)

/-- A magic whose indices over the enumeration of the subsets are all
different and below the width is collision-free. -/
theorem collision_free_of_distinct (m : Magic) (attacks : Bitboard → Bitboard) (width : Nat)
    (hm : m.mask < 2 ^ 64)
    (hd : distinct_loop
      (fun i => magic_index m (index_to_occupancy i (count_bits m.mask) m.mask))
      (2 ^ count_bits m.mask) 0 0 = true)
    (hw : ∀ i < 2 ^ count_bits m.mask,
      magic_index m (index_to_occupancy i (count_bits m.mask) m.mask) < width) :
    collision_free m attacks width := by
  intro s1 s2 h1 h2
  obtain ⟨i, hi, hocc1⟩ := index_to_occupancy_onto m.mask s1 h1 hm
  obtain ⟨j, hj, hocc2⟩ := index_to_occupancy_onto m.mask s2 h2 hm
  have hinj := (distinct_loop_spec _ _ 0 0 hd).2
  constructor
  · intro hidx
    rw [← hocc1, ← hocc2] at hidx
    have hij : i = j := by
      by_contra hne
      rcases Nat.lt_or_gt_of_ne hne with hlt | hgt
      · exact hinj i j (Nat.zero_le _) hlt (by omega) hidx
      · exact hinj j i (Nat.zero_le _) hgt (by omega) hidx.symm
    rw [← hocc1, ← hocc2, hij]
  · rw [← hocc1]
    exact hw i hi

/-! ## Claim C30 -/

/-- C30: magic lookup equals ray tracing. For every square and every
occupancy, if the rook magic of the square is collision-free (two subsets of
the mask with different ray attacks never share an index, every index is below
4096) and the bishop magic likewise (below 512), then after `init_magics` the
table lookups `get_rook_attacks` and `get_bishop_attacks` return what
`compute_rook_attacks` and `compute_bishop_attacks` return. -/
theorem C30_magic_lookup_equals_ray_tracing (mb : MagicBits) (sq : Square) (occ : Bitboard)
    (hsq : sq < 64)
    (hrook : collision_free (rook_magics mb sq) (compute_rook_attacks sq) 4096)
    (hbishop : collision_free (bishop_magics mb sq) (compute_bishop_attacks sq) 512) :
    Lookup.get_rook_attacks mb sq occ = compute_rook_attacks sq occ ∧
    Lookup.get_bishop_attacks mb sq occ = compute_bishop_attacks sq occ := by
  have hmask := masks_are_64_bit sq hsq
  constructor
  · have h := init_sliding_attacks_entry (rook_magics mb sq) sq true (fun _ => 0) 4096
      hmask.1 hrook (occ &&& rook_mask sq) (land_land_self _ _)
    rw [← compute_rook_attacks_masked sq hsq occ]
    exact h
  · have h := init_sliding_attacks_entry (bishop_magics mb sq) sq false (fun _ => 0) 512
      hmask.2 hbishop (occ &&& bishop_mask sq) (land_land_self _ _)
    rw [← compute_bishop_attacks_masked sq hsq occ]
    exact h

set_option maxRecDepth 1000000 in
/-- C30 on b2 with the occupancy of the start position. -/
theorem C30_magic_lookup_equals_ray_tracing_witness :
    (9 : Square) < 64 ∧
    collision_free (rook_magics b2_magic_bits 9) (compute_rook_attacks 9) 4096 ∧
    collision_free (bishop_magics b2_magic_bits 9) (compute_bishop_attacks 9) 512 ∧
    Lookup.get_rook_attacks b2_magic_bits 9 0xFFFF00000000FFFF =
      compute_rook_attacks 9 0xFFFF00000000FFFF ∧
    Lookup.get_bishop_attacks b2_magic_bits 9 0xFFFF00000000FFFF =
      compute_bishop_attacks 9 0xFFFF00000000FFFF :=
  have hr : collision_free (rook_magics b2_magic_bits 9) (compute_rook_attacks 9) 4096 :=
    collision_free_of_distinct _ _ _ (by decide!) (by decide!) (by decide!)
  have hb : collision_free (bishop_magics b2_magic_bits 9) (compute_bishop_attacks 9) 512 :=
    collision_free_of_distinct _ _ _ (by decide!) (by decide!) (by decide!)
  ⟨by decide, hr, hb, C30_magic_lookup_equals_ray_tracing b2_magic_bits 9 0xFFFF00000000FFFF
    (by decide) hr hb⟩

/-! ## Claims C31 to C36 -/

/-- A node without legal moves at which the null-move test is not made
returns `alpha`. -/
theorem alpha_beta_without_moves (Z : Zobrist) (S : Searcher) (qfuel fuel : Nat) (depth : Int)
    (ply : Nat) (board : Board) (alpha beta : Int) (null_move : Bool)
    (hd : 1 ≤ depth) (hn : depth < 3 ∨ null_move = false)
    (hg : generate_legal_moves Z board = []) :
    alpha_beta Z S qfuel (fuel + 1) depth ply board alpha beta null_move = alpha := by
  have h3 : (null_move && decide (depth ≥ 3)) = false := by
    rcases hn with h | h
    · have : ¬ depth ≥ 3 := by omega
      simp [this]
    · simp [h]
  simp only [alpha_beta]
  rw [if_neg (by omega), h3, hg]
  simp [order_moves, std_sort, cutoff_loop]

set_option maxRecDepth 100000 in
/-- C31 (fails on the code): at depth 1 `alpha_beta` returns `alpha`, for
every window, on the stalemate position `7k/5Q2/6K1/8/8/8/8/8 b - - 0 1`
(no legal move, not in check) and on the checkmate position
`7k/6Q1/6K1/8/8/8/8/8 b - - 0 1` (no legal move, in check): with no move to
search the loop is not entered and `return alpha` is reached. -/
theorem C31_no_moves_returns_alpha :
    ∀ (Z : Zobrist) (qfuel : Nat) (alpha beta : Int),
      generate_legal_moves Z (from_fen "7k/5Q2/6K1/8/8/8/8/8 b - - 0 1") = [] ∧
      is_in_check (from_fen "7k/5Q2/6K1/8/8/8/8/8 b - - 0 1") BLACK = false ∧
      alpha_beta Z (Searcher_ctor {} none) qfuel 1 1 0
        (from_fen "7k/5Q2/6K1/8/8/8/8/8 b - - 0 1") alpha beta true = alpha ∧
      generate_legal_moves Z (from_fen "7k/6Q1/6K1/8/8/8/8/8 b - - 0 1") = [] ∧
      is_in_check (from_fen "7k/6Q1/6K1/8/8/8/8/8 b - - 0 1") BLACK = true ∧
      alpha_beta Z (Searcher_ctor {} none) qfuel 1 1 0
        (from_fen "7k/6Q1/6K1/8/8/8/8/8 b - - 0 1") alpha beta true = alpha := by
  intro Z qfuel alpha beta
  have h1 : generate_legal_moves Z (from_fen "7k/5Q2/6K1/8/8/8/8/8 b - - 0 1") = [] := by
    rw [generate_legal_moves_key_irrelevant Z test_keys]
    decide
  have h2 : generate_legal_moves Z (from_fen "7k/6Q1/6K1/8/8/8/8/8 b - - 0 1") = [] := by
    rw [generate_legal_moves_key_irrelevant Z test_keys]
    decide
  exact ⟨h1, by decide,
    alpha_beta_without_moves Z _ qfuel 0 1 0 _ alpha beta true (by decide) (Or.inl (by decide)) h1,
    h2, by decide,
    alpha_beta_without_moves Z _ qfuel 0 1 0 _ alpha beta true (by decide) (Or.inl (by decide)) h2⟩

/-- Without a capture to follow, `quiescence` returns the static evaluation
clamped to the window, whoever is to move. -/
theorem quiescence_without_captures (Z : Zobrist) (S : Searcher) (fuel : Nat) (board : Board)
    (alpha beta : Int) (hc : capture_moves Z board = []) :
    quiescence Z S fuel board alpha beta =
      if evaluate S.m_evaluator board ≥ beta then beta
      else if evaluate S.m_evaluator board > alpha then evaluate S.m_evaluator board
      else alpha := by
  cases fuel with
  | zero => rfl
  | succ n =>
    unfold capture_moves at hc
    simp only [quiescence, hc, cutoff_loop]

set_option maxRecDepth 100000 in
/-- C32 (fails on the code): on `8/P7/8/8/8/8/8/k6K b - - 0 1` Black is to
move, no legal move lands on an occupied square and `evaluate` is 2, yet
`quiescence(board, -INF, INF)` returns 2, not -2: the stand-pat score is
`evaluate(board)` whichever side is to move. -/
theorem C32_stand_pat_ignores_side_to_move :
    ∀ (Z : Zobrist) (qfuel : Nat),
      (from_fen "8/P7/8/8/8/8/8/k6K b - - 0 1").m_side_to_move = BLACK ∧
      capture_moves Z (from_fen "8/P7/8/8/8/8/8/k6K b - - 0 1") = [] ∧
      evaluate {} (from_fen "8/P7/8/8/8/8/8/k6K b - - 0 1") = 2 ∧
      quiescence Z (Searcher_ctor {} none) qfuel (from_fen "8/P7/8/8/8/8/8/k6K b - - 0 1")
        (-INF) INF = 2 := by
  intro Z qfuel
  have hc : capture_moves Z (from_fen "8/P7/8/8/8/8/8/k6K b - - 0 1") = [] := by
    unfold capture_moves
    rw [generate_legal_moves_key_irrelevant Z test_keys]
    decide
  have he : evaluate {} (from_fen "8/P7/8/8/8/8/8/k6K b - - 0 1") = 2 := by decide
  refine ⟨by decide, hc, he, ?_⟩
  rw [quiescence_without_captures Z _ qfuel _ _ _ hc]
  show (if evaluate {} (from_fen "8/P7/8/8/8/8/8/k6K b - - 0 1") ≥ INF then INF
    else if evaluate {} (from_fen "8/P7/8/8/8/8/8/k6K b - - 0 1") > -INF then
      evaluate {} (from_fen "8/P7/8/8/8/8/8/k6K b - - 0 1") else -INF) = 2
  rw [he]
  decide

/-- C33: occupancy outside the mask never affects the attack set. For every
square of the board and every occupancy, `compute_rook_attacks(sq, occ)` equals
`compute_rook_attacks(sq, occ & rook_mask(sq))`, and likewise for the bishop. -/
theorem C33_attacks_ignore_occupancy_off_mask (sq : Square) (occ : Bitboard) (hsq : sq < 64) :
    compute_rook_attacks sq occ = compute_rook_attacks sq (occ &&& rook_mask sq) ∧
    compute_bishop_attacks sq occ = compute_bishop_attacks sq (occ &&& bishop_mask sq) :=
  ⟨(compute_rook_attacks_masked sq hsq occ).symm, (compute_bishop_attacks_masked sq hsq occ).symm⟩

set_option maxRecDepth 100000 in
/-- C33 for the rook and the bishop on d4 with the occupancy of the start
position. -/
theorem C33_attacks_ignore_occupancy_off_mask_witness :
    (27 : Square) < 64 ∧
    compute_rook_attacks 27 0xFFFF00000000FFFF =
      compute_rook_attacks 27 (0xFFFF00000000FFFF &&& rook_mask 27) ∧
    compute_bishop_attacks 27 0xFFFF00000000FFFF =
      compute_bishop_attacks 27 (0xFFFF00000000FFFF &&& bishop_mask 27) :=
  ⟨by decide, C33_attacks_ignore_occupancy_off_mask 27 0xFFFF00000000FFFF (by decide)⟩

set_option maxRecDepth 100000 in
/-- C34 (fails on the code): after `set_fen` of the start position the
castling byte is 22, and after a FEN with the castling field `k` it is 16;
neither is below 16, the length of `Zobrist::castling_keys`. -/
theorem C34_castling_byte_exceeds_key_table :
    (set_fen Board_ctor "rnbqkbnr/pppppppp/8/8/8/8/PPPPPPPP/RNBQKBNR w KQkq - 0 1").isOk = true ∧
    (from_fen "rnbqkbnr/pppppppp/8/8/8/8/PPPPPPPP/RNBQKBNR w KQkq - 0 1").m_castling_rights = 22 ∧
    Board_ctor.m_castling_rights = 22 ∧
    (set_fen Board_ctor "r3k2r/8/8/8/8/8/8/R3K2R w k - 0 1").isOk = true ∧
    (from_fen "r3k2r/8/8/8/8/8/8/R3K2R w k - 0 1").m_castling_rights = 16 ∧
    (∀ (Z : Zobrist) (m : Move), (make_move Z Board_ctor m).m_castling_rights = 22) := by
  refine ⟨by decide, by decide, by decide, by decide, by decide, ?_⟩
  intro Z m
  rw [make_move_castling_rights]
  decide

theorem make_move_twice_squares (Z Z2 : Zobrist) (b : Board) (m1 m2 : Move) :
    (make_move Z (make_move Z b m1) m2).m_squares =
      (make_move Z2 (make_move Z2 b m1) m2).m_squares := rfl

theorem make_move_twice_side (Z Z2 : Zobrist) (b : Board) (m1 m2 : Move) :
    (make_move Z (make_move Z b m1) m2).m_side_to_move =
      (make_move Z2 (make_move Z2 b m1) m2).m_side_to_move := rfl

set_option maxRecDepth 100000 in
/-- C35 (fails on the code): from `8/P7/8/8/8/8/8/k6K w - - 0 1` the legal
moves a7a8 (promotion) and a1b1 lead to a board with White to move and a white
pawn on a8. For that pawn `generate_pawn_moves` computes its forward square as
64, which is not on the board, and calls `is_empty` with it: a read of
`m_squares[64]`, outside the array. -/
theorem C35_pawn_on_last_rank_reads_off_board :
    ∀ Z : Zobrist,
      (set_fen Board_ctor "8/P7/8/8/8/8/8/k6K w - - 0 1").isOk = true ∧
      (⟨48, 56, QUEEN⟩ : Move) ∈
        generate_legal_moves Z (from_fen "8/P7/8/8/8/8/8/k6K w - - 0 1") ∧
      (⟨0, 1, NONE_PIECE⟩ : Move) ∈ generate_legal_moves Z
        (make_move Z (from_fen "8/P7/8/8/8/8/8/k6K w - - 0 1") ⟨48, 56, QUEEN⟩) ∧
      (make_move Z (make_move Z (from_fen "8/P7/8/8/8/8/8/k6K w - - 0 1") ⟨48, 56, QUEEN⟩)
        ⟨0, 1, NONE_PIECE⟩).m_side_to_move = WHITE ∧
      (make_move Z (make_move Z (from_fen "8/P7/8/8/8/8/8/k6K w - - 0 1") ⟨48, 56, QUEEN⟩)
        ⟨0, 1, NONE_PIECE⟩).m_squares A8 = ⟨PAWN, WHITE⟩ ∧
      sq_add A8 (8 * 1) = 64 ∧ is_on_board (sq_add A8 (8 * 1)) = false ∧
      piece_at_checked
        (make_move Z (make_move Z (from_fen "8/P7/8/8/8/8/8/k6K w - - 0 1") ⟨48, 56, QUEEN⟩)
          ⟨0, 1, NONE_PIECE⟩) (sq_add A8 (8 * 1)) = none := by
  intro Z
  have hoff : ∀ b : Board, piece_at_checked b (sq_add A8 (8 * 1)) = none := fun _ => rfl
  rw [generate_legal_moves_key_irrelevant Z test_keys,
    generate_legal_moves_congr Z test_keys _ _
      (same_position_make_move Z test_keys _ _ (same_position_refl _) ⟨48, 56, QUEEN⟩),
    make_move_twice_squares Z test_keys, make_move_twice_side Z test_keys, hoff]
  decide

/-- C36, the claim as stated fails: the UCI move text `e2e9` is parsed into a
move from square 12 to square 68, which is not on the board, and `make_move`
is called with it unchecked: its write `m_squares[68]` is outside the 64-entry
array, on any board. -/
theorem C36_make_move_writes_off_board :
    parse_move "e2e9" = ⟨12, 68, NONE_PIECE⟩ ∧
    is_on_board (parse_move "e2e9").to_ = false ∧
    ∀ (Z : Zobrist) (b : Board), make_move_checked Z b (parse_move "e2e9") = none := by
  have hp : parse_move "e2e9" = ⟨12, 68, NONE_PIECE⟩ := by decide
  refine ⟨hp, by decide, ?_⟩
  intro Z b
  rw [hp]
  rfl

/-- C36 (amended): the frame of `make_move`. For every board and every move
whose `from` and `to` are squares of the board (below 64), both accesses of
`m_squares` are inside the array, and the squares other than `from` and `to`,
the twelve piece bitboards, the castling rights, the en-passant square and
both clocks are unchanged, and so are `occupancy()`,
`is_square_attacked(sq, c)` and `is_in_check(c)` for every `sq` and `c`. -/
theorem C36_make_move_frame (Z : Zobrist) (b : Board) (m : Move) (hfrom : m.from_ < 64)
    (hto : m.to_ < 64) :
    make_move_checked Z b m = some (make_move Z b m) ∧
    (∀ sq, sq ≠ m.from_ → sq ≠ m.to_ → (make_move Z b m).m_squares sq = b.m_squares sq) ∧
    (make_move Z b m).m_pieces = b.m_pieces ∧
    (make_move Z b m).m_castling_rights = b.m_castling_rights ∧
    (make_move Z b m).m_en_passant = b.m_en_passant ∧
    (make_move Z b m).m_halfmove_clock = b.m_halfmove_clock ∧
    (make_move Z b m).m_fullmove_number = b.m_fullmove_number ∧
    occupancy (make_move Z b m) = occupancy b ∧
    (∀ sq c, is_square_attacked (make_move Z b m) sq c = is_square_attacked b sq c) ∧
    (∀ c, is_in_check (make_move Z b m) c = is_in_check b c) := by
  refine ⟨make_move_checked_in_array Z b m hfrom hto, ?_, rfl, rfl, rfl, rfl, rfl, rfl,
    fun _ _ => rfl, fun _ => rfl⟩
  intro sq h1 h2
  show Function.update (Function.update b.m_squares m.from_ Piece.NONE) m.to_
    (piece_at b m.from_) sq = b.m_squares sq
  rw [Function.update_noteq h2, Function.update_noteq h1]

set_option maxRecDepth 100000 in
/-- C36 at the move e2e4 on the start position. -/
theorem C36_make_move_frame_witness :
    (parse_move "e2e4").from_ < 64 ∧ (parse_move "e2e4").to_ < 64 ∧
    (make_move_checked test_keys Board_ctor (parse_move "e2e4") =
      some (make_move test_keys Board_ctor (parse_move "e2e4")) ∧
    (∀ sq, sq ≠ (parse_move "e2e4").from_ → sq ≠ (parse_move "e2e4").to_ →
      (make_move test_keys Board_ctor (parse_move "e2e4")).m_squares sq =
        Board_ctor.m_squares sq) ∧
    (make_move test_keys Board_ctor (parse_move "e2e4")).m_pieces = Board_ctor.m_pieces ∧
    (make_move test_keys Board_ctor (parse_move "e2e4")).m_castling_rights =
      Board_ctor.m_castling_rights ∧
    (make_move test_keys Board_ctor (parse_move "e2e4")).m_en_passant =
      Board_ctor.m_en_passant ∧
    (make_move test_keys Board_ctor (parse_move "e2e4")).m_halfmove_clock =
      Board_ctor.m_halfmove_clock ∧
    (make_move test_keys Board_ctor (parse_move "e2e4")).m_fullmove_number =
      Board_ctor.m_fullmove_number ∧
    occupancy (make_move test_keys Board_ctor (parse_move "e2e4")) = occupancy Board_ctor ∧
    (∀ sq c, is_square_attacked (make_move test_keys Board_ctor (parse_move "e2e4")) sq c =
      is_square_attacked Board_ctor sq c) ∧
    (∀ c, is_in_check (make_move test_keys Board_ctor (parse_move "e2e4")) c =
      is_in_check Board_ctor c)) :=
  ⟨by decide, by decide,
   C36_make_move_frame test_keys Board_ctor (parse_move "e2e4") (by decide) (by decide)⟩

/-! ## The fail-hard window -/

/-- The move loop never returns more than `beta` when it starts at or below it. -/
theorem cutoff_loop_le (child : Move → Int → Int) (beta : Int) :
    ∀ (l : List Move) (alpha : Int), alpha ≤ beta → cutoff_loop child beta l alpha ≤ beta := by
  intro l
  induction l with
  | nil => intro alpha h; simpa [cutoff_loop] using h
  | cons m rest ih =>
    intro alpha h
    simp only [cutoff_loop]
    split_ifs with h1 h2
    · exact le_refl _
    · exact ih _ (by omega)
    · exact ih _ h

theorem cutoff_loop_window (child : Move → Int → Int) (l : List Move) (alpha beta : Int)
    (h : alpha ≤ beta) :
    alpha ≤ cutoff_loop child beta l alpha ∧ cutoff_loop child beta l alpha ≤ beta := by
  have h1 := cutoff_loop_ge child beta l alpha
  rw [min_eq_left h] at h1
  exact ⟨h1, cutoff_loop_le child beta l alpha h⟩

theorem quiescence_window (Z : Zobrist) (S : Searcher) (fuel : Nat) (board : Board)
    (alpha beta : Int) (h : alpha ≤ beta) :
    alpha ≤ quiescence Z S fuel board alpha beta ∧
      quiescence Z S fuel board alpha beta ≤ beta := by
  cases fuel with
  | zero =>
    simp only [quiescence]
    split_ifs <;> constructor <;> omega
  | succ n =>
    simp only [quiescence]
    split_ifs with h1 h2
    · exact ⟨h, le_refl _⟩
    · have := cutoff_loop_window
        (fun move alpha => -quiescence Z S n (make_move Z board move) (-beta) (-alpha))
        ((generate_legal_moves Z board).filter
          (fun move => (piece_at board move.to_).type != NONE_PIECE))
        (evaluate S.m_evaluator board) beta (by omega)
      exact ⟨by omega, this.2⟩
    · exact cutoff_loop_window _ _ _ _ h

theorem alpha_beta_window (Z : Zobrist) (S : Searcher) (qfuel fuel : Nat) (depth : Int)
    (ply : Nat) (board : Board) (alpha beta : Int) (null_move : Bool) (h : alpha ≤ beta) :
    alpha ≤ alpha_beta Z S qfuel fuel depth ply board alpha beta null_move ∧
      alpha_beta Z S qfuel fuel depth ply board alpha beta null_move ≤ beta := by
  cases fuel with
  | zero =>
    simp only [alpha_beta]
    exact quiescence_window Z S qfuel board alpha beta h
  | succ n =>
    simp only [alpha_beta]
    split_ifs
    · exact quiescence_window Z S qfuel board alpha beta h
    · exact ⟨h, le_refl _⟩
    · exact cutoff_loop_window _ _ _ _ h

/-- C37: the fail-hard window. For every board, depth and window with
`alpha <= beta` (in particular `-INF <= alpha <= beta <= INF`), the values
`alpha_beta` and `quiescence` return lie between `alpha` and `beta`, whatever
bound the recursions are given. -/
theorem C37_fail_hard_window (Z : Zobrist) (S : Searcher) (qfuel fuel : Nat) (depth : Int)
    (ply : Nat) (board : Board) (alpha beta : Int) (null_move : Bool) (h2 : alpha ≤ beta) :
    alpha ≤ alpha_beta Z S qfuel fuel depth ply board alpha beta null_move ∧
    alpha_beta Z S qfuel fuel depth ply board alpha beta null_move ≤ beta ∧
    alpha ≤ quiescence Z S qfuel board alpha beta ∧
    quiescence Z S qfuel board alpha beta ≤ beta :=
  ⟨(alpha_beta_window Z S qfuel fuel depth ply board alpha beta null_move h2).1,
   (alpha_beta_window Z S qfuel fuel depth ply board alpha beta null_move h2).2,
   (quiescence_window Z S qfuel board alpha beta h2).1,
   (quiescence_window Z S qfuel board alpha beta h2).2⟩

set_option maxRecDepth 100000 in
/-- C37 on the start position at depth 1 with the window (-50, 50). -/
theorem C37_fail_hard_window_witness :
    (-50 : Int) ≤ 50 ∧
    (-50 : Int) ≤ alpha_beta test_keys (Searcher_ctor {} none) QFUEL 1 1 0 Board_ctor (-50) 50
      true ∧
    alpha_beta test_keys (Searcher_ctor {} none) QFUEL 1 1 0 Board_ctor (-50) 50 true ≤ 50 ∧
    (-50 : Int) ≤ quiescence test_keys (Searcher_ctor {} none) QFUEL Board_ctor (-50) 50 ∧
    quiescence test_keys (Searcher_ctor {} none) QFUEL Board_ctor (-50) 50 ≤ 50 :=
  ⟨by decide,
   C37_fail_hard_window test_keys (Searcher_ctor {} none) QFUEL 1 1 0 Board_ctor (-50) 50 true
     (by decide)⟩

/-! ## Captures and the number of occupied squares -/

theorem can_land_self (b : Board) (sq : Square) (h : (piece_at b sq).type ≠ NONE_PIECE) :
    can_land b (piece_at b sq) sq = false := by
  unfold can_land
  simp [h]

theorem slider_moves_off_origin (b : Board) (sq : Square) (bb : Bitboard) (m : Move)
    (h : m ∈ ((pop_all bb).filter (fun to_ => can_land b (piece_at b sq) to_)).map
      (fun to_ => ({ from_ := sq, to_ := to_ } : Move)))
    (ho : (piece_at b m.to_).type ≠ NONE_PIECE) : m.to_ ≠ sq := by
  simp only [List.mem_map, List.mem_filter] at h
  obtain ⟨t, ⟨_, hl⟩, rfl⟩ := h
  intro e
  simp only at e ho
  rw [e] at hl ho
  rw [can_land_self b sq ho] at hl
  exact absurd hl (by simp)

set_option maxRecDepth 100000 in
theorem pawn_capture_square_off_origin :
    ∀ sq < 64, ∀ d ∈ [(1 : Int), -1], ∀ c ∈ [(-1 : Int), 1],
      sq_add (sq_add sq (8 * d)) c ≠ sq := by decide

theorem is_empty_type (b : Board) (x : Square) (h : is_empty b x = true) :
    (piece_at b x).type = NONE_PIECE := by
  unfold is_empty at h
  simpa using h

theorem forall_mem_append_single {P : Move → Prop} (l : List Move) (a : Move)
    (hl : ∀ m ∈ l, P m) (ha : P a) : ∀ m ∈ l ++ [a], P m := by
  intro m hm
  rcases List.mem_append.1 hm with h | h
  · exact hl m h
  · rw [List.mem_singleton.1 h]
    exact ha

theorem king_moves_off_origin (b : Board) (sq : Square) :
    ∀ m ∈ generate_king_moves b sq, (piece_at b m.to_).type ≠ NONE_PIECE → m.to_ ≠ sq := by
  have hbase : ∀ m ∈ ((pop_all (king_attack_table sq)).filter (fun to_ =>
        can_land b (piece_at b sq) to_ &&
          !is_square_attacked b to_ (opposite_color (piece_at b sq).color))).map
      (fun to_ => ({ from_ := sq, to_ := to_ } : Move)),
      (piece_at b m.to_).type ≠ NONE_PIECE → m.to_ ≠ sq := by
    intro m hm ho e
    simp only [List.mem_map, List.mem_filter, Bool.and_eq_true] at hm
    obtain ⟨t, ⟨_, hl, _⟩, rfl⟩ := hm
    simp only at e ho
    rw [e] at hl ho
    rw [can_land_self b sq ho] at hl
    exact absurd hl (by simp)
  unfold generate_king_moves
  simp only []
  split_ifs
  all_goals
    repeat (first | exact hbase | apply forall_mem_append_single)
  all_goals
    clear hbase
    intro ho _
    apply ho
    apply is_empty_type
    simp_all only [Bool.and_eq_true]

theorem knight_moves_off_origin (b : Board) (sq : Square) :
    ∀ m ∈ generate_knight_moves b sq, (piece_at b m.to_).type ≠ NONE_PIECE → m.to_ ≠ sq := by
  intro m h ho e
  unfold generate_knight_moves at h
  simp only [List.mem_map, List.mem_filter, Bool.and_eq_true] at h
  obtain ⟨d, ⟨_, _, _, hl⟩, rfl⟩ := h
  simp only at e ho
  rw [e] at hl ho
  rw [can_land_self b sq ho] at hl
  exact absurd hl (by simp)

theorem pawn_capture_moves_off_origin (b : Board) (sq : Square) (hsq : sq < 64) (d c : Int)
    (hd : d ∈ [(1 : Int), -1]) (hc : c ∈ [(-1 : Int), 1]) :
    ∀ m ∈ pawn_capture_moves b sq (sq_add sq (8 * d)) (piece_at b sq) c, m.to_ ≠ sq := by
  intro m h
  have hne := pawn_capture_square_off_origin sq hsq d hd c hc
  unfold pawn_capture_moves at h
  simp only [] at h
  split_ifs at h <;>
    simp only [List.mem_append, List.mem_singleton, List.not_mem_nil, or_false, false_or,
      or_self] at h
  all_goals (subst h; exact hne)

theorem pawn_moves_off_origin (b : Board) (sq : Square) (hsq : sq < 64) :
    ∀ m ∈ generate_pawn_moves b sq, (piece_at b m.to_).type ≠ NONE_PIECE → m.to_ ≠ sq := by
  intro m h ho
  unfold generate_pawn_moves at h
  simp only [List.mem_append] at h
  have hd : (if (piece_at b sq).color = WHITE then (1 : Int) else -1) ∈ [(1 : Int), -1] := by
    split_ifs <;> simp
  rcases h with (h | h) | h
  · -- pushes land on an empty square
    exfalso
    apply ho
    split_ifs at h <;>
      simp only [List.mem_append, List.mem_singleton, List.mem_cons, List.not_mem_nil,
        or_false, false_or, or_self] at h
    all_goals
      first
      | (subst h; apply is_empty_type; assumption)
      | (rcases h with h | h <;> (subst h; apply is_empty_type; assumption))
      | (rcases h with h | h | h | h <;> (subst h; apply is_empty_type; assumption))
      | (rcases h with (h | h | h | h) | h <;> (subst h; apply is_empty_type; assumption))
  · exact pawn_capture_moves_off_origin b sq hsq _ (-1) hd (by simp) m h
  · exact pawn_capture_moves_off_origin b sq hsq _ 1 hd (by simp) m h

theorem piece_moves_off_origin (b : Board) (sq : Square) (hsq : sq < 64) :
    ∀ m ∈ piece_moves b sq, (piece_at b m.to_).type ≠ NONE_PIECE → m.to_ ≠ sq := by
  intro m h
  unfold piece_moves at h
  split at h
  · exact pawn_moves_off_origin b sq hsq m h
  · exact knight_moves_off_origin b sq m h
  · exact slider_moves_off_origin b sq _ m h
  · exact slider_moves_off_origin b sq _ m h
  · exact slider_moves_off_origin b sq _ m h
  · exact king_moves_off_origin b sq m h
  · exact absurd h (List.not_mem_nil _)

/-- A square for which the `switch` of the move generator produces a move
holds a piece. -/
theorem piece_moves_origin_occupied (b : Board) (sq : Square) (m : Move)
    (h : m ∈ piece_moves b sq) : (piece_at b sq).type ≠ NONE_PIECE := by
  intro e
  unfold piece_moves at h
  rw [e] at h
  exact absurd h (List.not_mem_nil _)

/-- A legal move onto an occupied square starts on an occupied square of the
board and does not end where it starts. -/
theorem capture_moves_spec (Z : Zobrist) (b : Board) (m : Move) (h : m ∈ capture_moves Z b) :
    m.from_ < 64 ∧ (piece_at b m.from_).type ≠ NONE_PIECE ∧
      (piece_at b m.to_).type ≠ NONE_PIECE ∧ m.to_ ≠ m.from_ := by
  unfold capture_moves at h
  rw [List.mem_filter] at h
  obtain ⟨hl, ho⟩ := h
  have ho2 : (piece_at b m.to_).type ≠ NONE_PIECE := by simpa using ho
  obtain ⟨sq, hsq, _, hm⟩ :=
    (mem_generate_pseudo_legal_moves b m).1 (legal_subset_pseudo_legal Z b m hl)
  have hf := (piece_moves_promotion b sq m hm).1
  rw [hf]
  exact ⟨hsq, piece_moves_origin_occupied b sq m hm, ho2,
    piece_moves_off_origin b sq hsq m hm ho2⟩

/-- A move from an occupied square of the board onto another occupied one
leaves one non-empty entry fewer among the 64 of `m_squares`, also when the
destination index is past the array. -/
theorem occupied_squares_make_move (Z : Zobrist) (b : Board) (m : Move) (hf : m.from_ < 64)
    (hfo : (piece_at b m.from_).type ≠ NONE_PIECE) (hne : m.to_ ≠ m.from_)
    (ho : (piece_at b m.to_).type ≠ NONE_PIECE) :
    occupied_squares (make_move Z b m) + 1 = occupied_squares b := by
  unfold occupied_squares
  have hsq : (make_move Z b m).m_squares =
      Function.update (Function.update b.m_squares m.from_ Piece.NONE) m.to_
        (b.m_squares m.from_) := rfl
  rw [hsq]
  set S := (Finset.range 64).filter (fun sq => (b.m_squares sq).type ≠ NONE_PIECE) with hS
  have hfo2 : ¬ (b.m_squares m.from_).type = NONE_PIECE := hfo
  have ho2 : ¬ (b.m_squares m.to_).type = NONE_PIECE := ho
  have hfrom : m.from_ ∈ S := by
    rw [hS, Finset.mem_filter, Finset.mem_range]
    exact ⟨hf, hfo⟩
  have : (Finset.range 64).filter (fun sq =>
      ((Function.update (Function.update b.m_squares m.from_ Piece.NONE) m.to_
        (b.m_squares m.from_)) sq).type ≠ NONE_PIECE) = S.erase m.from_ := by
    ext x
    rw [Finset.mem_filter, Finset.mem_erase, hS, Finset.mem_filter]
    by_cases hx : x = m.to_
    · subst hx
      simp [Function.update_same, hfo2, hne, ho2]
    · by_cases hx2 : x = m.from_
      · subst hx2
        simp [Function.update_noteq hx, Function.update_same, Piece.NONE]
      · simp [Function.update_noteq hx, Function.update_noteq hx2, hx2]
  rw [this, Finset.card_erase_of_mem hfrom]
  have := Finset.card_pos.2 ⟨m.from_, hfrom⟩
  omega

theorem occupied_squares_congr (b c : Board) (h : squares_agree b c) :
    occupied_squares b = occupied_squares c := by
  unfold occupied_squares
  congr 1
  apply Finset.filter_congr
  intro sq hsq
  rw [h sq (Finset.mem_range.1 hsq)]

/-- Every move `quiescence` follows leaves one occupied square fewer. -/
theorem capture_moves_decrease (Z : Zobrist) (b : Board) (m : Move)
    (hm : m ∈ capture_moves Z b) :
    occupied_squares (make_move Z b m) + 1 = occupied_squares b := by
  obtain ⟨hf, hfo, ho, hne⟩ := capture_moves_spec Z b m hm
  exact occupied_squares_make_move Z b m hf hfo hne ho

theorem cutoff_loop_congr (child1 child2 : Move → Int → Int) (beta : Int) :
    ∀ (l : List Move), (∀ m ∈ l, ∀ a, child1 m a = child2 m a) →
      ∀ alpha, cutoff_loop child1 beta l alpha = cutoff_loop child2 beta l alpha := by
  intro l
  induction l with
  | nil => intro _ alpha; rfl
  | cons m rest ih =>
    intro h alpha
    simp only [cutoff_loop]
    rw [h m (List.mem_cons_self _ _) alpha]
    split_ifs
    · rfl
    · exact ih (fun x hx => h x (List.mem_cons_of_mem _ hx)) _
    · exact ih (fun x hx => h x (List.mem_cons_of_mem _ hx)) _

/-- One more level of recursion changes nothing once the bound has reached
the number of occupied squares. -/
theorem quiescence_fuel_succ (Z : Zobrist) (S : Searcher) : ∀ (n : Nat) (b : Board),
    occupied_squares b ≤ n →
    ∀ alpha beta, quiescence Z S (n + 1) b alpha beta = quiescence Z S n b alpha beta := by
  intro n
  induction n with
  | zero =>
    intro b hn alpha beta
    have hc : capture_moves Z b = [] := by
      rw [List.eq_nil_iff_forall_not_mem]
      intro m hm
      have := capture_moves_decrease Z b m hm
      omega
    unfold capture_moves at hc
    simp only [quiescence, hc, cutoff_loop]
  | succ n ih =>
    intro b hn alpha beta
    have hstep : ∀ m ∈ capture_moves Z b, ∀ a : Int,
        -quiescence Z S (n + 1) (make_move Z b m) (-beta) (-a) =
          -quiescence Z S n (make_move Z b m) (-beta) (-a) := by
      intro m hm a
      have hdec := capture_moves_decrease Z b m hm
      rw [ih (make_move Z b m) (by omega)]
    have hloop := cutoff_loop_congr
      (fun move a => -quiescence Z S (n + 1) (make_move Z b move) (-beta) (-a))
      (fun move a => -quiescence Z S n (make_move Z b move) (-beta) (-a)) beta
      (capture_moves Z b) hstep
    unfold capture_moves at hloop
    rw [quiescence, quiescence]
    simp only [hloop]

theorem quiescence_fuel_stable (Z : Zobrist) (S : Searcher) (b : Board) (alpha beta : Int) :
    ∀ k, quiescence Z S (occupied_squares b + k) b alpha beta =
      quiescence Z S (occupied_squares b) b alpha beta := by
  intro k
  induction k with
  | zero => rfl
  | succ k ih =>
    rw [← ih, ← Nat.add_assoc]
    exact quiescence_fuel_succ Z S _ b (by omega) alpha beta

theorem capture_run_length (Z : Zobrist) : ∀ (l : List (Move × Board)) (b : Board),
    capture_run Z b l → l.length ≤ occupied_squares b := by
  intro l
  induction l with
  | nil => intro b _; exact Nat.zero_le _
  | cons step rest ih =>
    intro b hc
    obtain ⟨m, next⟩ := step
    obtain ⟨hm, hagree, hrest⟩ := hc
    have hdec := capture_moves_decrease Z b m hm
    have hnext := occupied_squares_congr next (make_move Z b m) hagree
    have := ih next hrest
    simp only [List.length_cons]
    omega

/-- C38: `quiescence` terminates on every board that has both kings in its
bitboards. The static evaluation it starts with returns (the assertion of
`find_king` holds). Each recursive call is made after a legal move onto an
occupied square, the kings are still in the bitboards, and the board the call
works on has one non-empty entry fewer among the 64 of `m_squares`, whatever
else a write has changed in it. So a run of recursive calls is never longer
than the number of occupied squares of the starting board, and a bound on the
recursion of at least that number does not change the result. -/
theorem C38_quiescence_terminates (Z : Zobrist) (S : Searcher) (board : Board)
    (alpha beta : Int) (fuel : Nat) (hkings : kings_present board)
    (hfuel : occupied_squares board ≤ fuel) :
    evaluate_checked S.m_evaluator board = some (evaluate S.m_evaluator board) ∧
    (∀ m ∈ capture_moves Z board, (piece_at board m.to_).type ≠ NONE_PIECE ∧
      kings_present (make_move Z board m) ∧
      ∀ next, squares_agree next (make_move Z board m) →
        occupied_squares next < occupied_squares board) ∧
    (∀ run, capture_run Z board run → run.length ≤ occupied_squares board) ∧
    quiescence Z S fuel board alpha beta =
      quiescence Z S (occupied_squares board) board alpha beta := by
  refine ⟨evaluate_checked_of_kings _ board hkings, ?_, ?_, ?_⟩
  · intro m hm
    refine ⟨(capture_moves_spec Z board m hm).2.2.1, kings_present_make_move Z board m hkings, ?_⟩
    intro next hagree
    have h2 := capture_moves_decrease Z board m hm
    have h3 := occupied_squares_congr next (make_move Z board m) hagree
    omega
  · intro run hc
    exact capture_run_length Z run board hc
  · obtain ⟨k, hk⟩ := Nat.exists_eq_add_of_le hfuel
    rw [hk]
    exact quiescence_fuel_stable Z S board alpha beta k

set_option maxRecDepth 100000 in
/-- C38 on `k7/8/8/8/8/2p5/1p6/K7 w - - 0 1`: both kings are there, four
squares are occupied, the king takes on b2 and the pawn takes back, a run of
two recursive calls. -/
theorem C38_quiescence_terminates_witness :
    kings_present (from_fen "k7/8/8/8/8/2p5/1p6/K7 w - - 0 1") ∧
    occupied_squares (from_fen "k7/8/8/8/8/2p5/1p6/K7 w - - 0 1") = 4 ∧
    capture_run test_keys (from_fen "k7/8/8/8/8/2p5/1p6/K7 w - - 0 1")
      [(⟨0, 9, NONE_PIECE⟩,
          make_move test_keys (from_fen "k7/8/8/8/8/2p5/1p6/K7 w - - 0 1") ⟨0, 9, NONE_PIECE⟩),
       (⟨18, 9, NONE_PIECE⟩,
          make_move test_keys
            (make_move test_keys (from_fen "k7/8/8/8/8/2p5/1p6/K7 w - - 0 1")
              ⟨0, 9, NONE_PIECE⟩) ⟨18, 9, NONE_PIECE⟩)] ∧
    (evaluate_checked (Searcher_ctor {} none).m_evaluator
        (from_fen "k7/8/8/8/8/2p5/1p6/K7 w - - 0 1") =
      some (evaluate (Searcher_ctor {} none).m_evaluator
        (from_fen "k7/8/8/8/8/2p5/1p6/K7 w - - 0 1")) ∧
    (∀ m ∈ capture_moves test_keys (from_fen "k7/8/8/8/8/2p5/1p6/K7 w - - 0 1"),
      (piece_at (from_fen "k7/8/8/8/8/2p5/1p6/K7 w - - 0 1") m.to_).type ≠ NONE_PIECE ∧
      kings_present (make_move test_keys (from_fen "k7/8/8/8/8/2p5/1p6/K7 w - - 0 1") m) ∧
      ∀ next, squares_agree next
          (make_move test_keys (from_fen "k7/8/8/8/8/2p5/1p6/K7 w - - 0 1") m) →
        occupied_squares next < occupied_squares (from_fen "k7/8/8/8/8/2p5/1p6/K7 w - - 0 1")) ∧
    (∀ run, capture_run test_keys (from_fen "k7/8/8/8/8/2p5/1p6/K7 w - - 0 1") run →
      run.length ≤ occupied_squares (from_fen "k7/8/8/8/8/2p5/1p6/K7 w - - 0 1")) ∧
    quiescence test_keys (Searcher_ctor {} none) QFUEL
        (from_fen "k7/8/8/8/8/2p5/1p6/K7 w - - 0 1") (-INF) INF =
      quiescence test_keys (Searcher_ctor {} none)
        (occupied_squares (from_fen "k7/8/8/8/8/2p5/1p6/K7 w - - 0 1"))
        (from_fen "k7/8/8/8/8/2p5/1p6/K7 w - - 0 1") (-INF) INF) :=
  ⟨by decide, by decide,
   ⟨by decide, fun _ _ => rfl, by decide, fun _ _ => rfl, trivial⟩,
   C38_quiescence_terminates test_keys (Searcher_ctor {} none)
     (from_fen "k7/8/8/8/8/2p5/1p6/K7 w - - 0 1") (-INF) INF QFUEL (by decide) (by decide)⟩

/-! ## Fail-hard searches return the clamped value -/

theorem clamp_neg (v a b : Int) (h : a ≤ b) : -clamp v (-b) (-a) = clamp (-v) a b := by
  unfold clamp
  omega

theorem clamp_clamp (v a b lo hi : Int) (h1 : lo ≤ a) (h2 : a ≤ b) (h3 : b ≤ hi) :
    clamp (clamp v lo hi) a b = clamp v a b := by
  unfold clamp
  omega

theorem fold_max_ge (w : Move → Int) : ∀ (l : List Move) (a : Int),
    a ≤ l.foldl (fun acc m => max acc (w m)) a := by
  intro l
  induction l with
  | nil => intro a; exact le_refl _
  | cons m rest ih =>
    intro a
    rw [List.foldl_cons]
    exact le_trans (le_max_left _ _) (ih _)

theorem fold_max_init (w : Move → Int) : ∀ (l : List Move) (a c : Int),
    l.foldl (fun acc m => max acc (w m)) (max a c) =
      max a (l.foldl (fun acc m => max acc (w m)) c) := by
  intro l
  induction l with
  | nil => intro a c; rfl
  | cons m rest ih =>
    intro a c
    rw [List.foldl_cons, List.foldl_cons, max_assoc, ih]

theorem fold_max_congr (w1 w2 : Move → Int) : ∀ (l : List Move) (a : Int),
    (∀ m ∈ l, w1 m = w2 m) →
    l.foldl (fun acc m => max acc (w1 m)) a = l.foldl (fun acc m => max acc (w2 m)) a := by
  intro l
  induction l with
  | nil => intro a _; rfl
  | cons m rest ih =>
    intro a h
    rw [List.foldl_cons, List.foldl_cons, h m (List.mem_cons_self _ _)]
    exact ih _ (fun x hx => h x (List.mem_cons_of_mem _ hx))

theorem fold_max_perm (w : Move → Int) (l1 l2 : List Move) (h : l1.Perm l2) (a : Int) :
    l1.foldl (fun acc m => max acc (w m)) a = l2.foldl (fun acc m => max acc (w m)) a := by
  induction h generalizing a with
  | nil => rfl
  | cons x _ ih => rw [List.foldl_cons, List.foldl_cons]; exact ih _
  | swap x y l =>
    simp only [List.foldl_cons]
    congr 1
    rw [max_assoc, max_assoc, max_comm (w y) (w x)]
  | trans _ _ ih1 ih2 => rw [ih1, ih2]

/-- The loop of `alpha_beta` and `quiescence`, when every child returns its
value clamped to the window it is given: the best value, cut at `beta`. -/
theorem cutoff_loop_clamped (child : Move → Int → Int) (w : Move → Int) (lo beta : Int) :
    ∀ (l : List Move),
      (∀ m ∈ l, ∀ a, lo ≤ a → a < beta → child m a = clamp (w m) a beta) →
      ∀ a0, lo ≤ a0 → a0 < beta →
        cutoff_loop child beta l a0 = min (l.foldl (fun acc m => max acc (w m)) a0) beta := by
  intro l
  induction l with
  | nil =>
    intro _ a0 _ h0
    simp only [cutoff_loop, List.foldl_nil]
    omega
  | cons m rest ih =>
    intro h a0 hlo h0
    have hm := h m (List.mem_cons_self _ _) a0 hlo h0
    have hrest := ih (fun x hx => h x (List.mem_cons_of_mem _ hx))
    simp only [cutoff_loop, List.foldl_cons, hm]
    by_cases hc : clamp (w m) a0 beta ≥ beta
    · rw [if_pos hc]
      have hw : beta ≤ w m := by unfold clamp at hc; omega
      have := fold_max_ge w rest (max a0 (w m))
      omega
    · rw [if_neg hc]
      have hw : w m < beta := by unfold clamp at hc; omega
      have hnew : (if clamp (w m) a0 beta > a0 then clamp (w m) a0 beta else a0) =
          max a0 (w m) := by
        unfold clamp
        split_ifs <;> omega
      rw [hnew]
      exact hrest _ (by omega) (by omega)

/-- The loop of `pvs`, when every child returns its value clamped to the
window it is given: the null-window probe and the re-search together give
what the full window gives. -/
theorem pvs_loop_clamped (child : Move → Int → Int → Int) (v : Move → Int) (beta : Int)
    (hb : beta ≤ INF) :
    ∀ (l : List Move),
      (∀ m ∈ l, ∀ a b, -INF ≤ a → a < b → b ≤ INF → child m a b = clamp (v m) a b) →
      ∀ (a0 : Int) (first : Bool), -INF ≤ a0 → a0 < beta →
        pvs_loop child beta l a0 first =
          min (l.foldl (fun acc m => max acc (-v m)) a0) beta := by
  intro l
  induction l with
  | nil =>
    intro _ a0 first _ h0
    simp only [pvs_loop, List.foldl_nil]
    omega
  | cons m rest ih =>
    intro h a0 first ha h0
    have hfull : -child m (-beta) (-a0) = clamp (-v m) a0 beta := by
      rw [h m (List.mem_cons_self _ _) (-beta) (-a0) (by omega) (by omega) (by omega),
        clamp_neg _ _ _ (by omega)]
    have hnull : -child m (-a0 - 1) (-a0) = clamp (-v m) a0 (a0 + 1) := by
      rw [h m (List.mem_cons_self _ _) (-a0 - 1) (-a0) (by omega) (by omega) (by omega)]
      have : -a0 - 1 = -(a0 + 1) := by ring
      rw [this, clamp_neg _ _ _ (by omega)]
    have hscore : (if first = true then -child m (-beta) (-a0)
        else if -child m (-a0 - 1) (-a0) > a0 then -child m (-beta) (-a0)
          else -child m (-a0 - 1) (-a0)) = clamp (-v m) a0 beta := by
      rw [hfull, hnull]
      unfold clamp
      split_ifs <;> omega
    have hrest := ih (fun x hx => h x (List.mem_cons_of_mem _ hx))
    simp only [pvs_loop, List.foldl_cons, hscore]
    by_cases hc : clamp (-v m) a0 beta ≥ beta
    · rw [if_pos hc]
      have hw : beta ≤ -v m := by unfold clamp at hc; omega
      have := fold_max_ge (fun m => -v m) rest (max a0 (-v m))
      simp only [] at this
      omega
    · rw [if_neg hc]
      have hw : -v m < beta := by unfold clamp at hc; omega
      have hnew : (if clamp (-v m) a0 beta > a0 then clamp (-v m) a0 beta else a0) =
          max a0 (-v m) := by
        unfold clamp
        split_ifs <;> omega
      rw [hnew]
      exact hrest _ false (by omega) (by omega)

/-- The quiescence search returns its window-free value clamped to the window. -/
theorem quiescence_clamped (Z : Zobrist) (S : Searcher) : ∀ (fuel : Nat) (b : Board)
    (alpha beta : Int), alpha < beta →
    quiescence Z S fuel b alpha beta = clamp (quiescence_value Z S fuel b) alpha beta := by
  intro fuel
  induction fuel with
  | zero =>
    intro b alpha beta h
    simp only [quiescence, quiescence_value]
    unfold clamp
    split_ifs <;> omega
  | succ n ih =>
    intro b alpha beta h
    have hge := fold_max_ge (fun m => -quiescence_value Z S n (make_move Z b m))
      (capture_moves Z b) (evaluate S.m_evaluator b)
    simp only [] at hge
    by_cases hs : evaluate S.m_evaluator b ≥ beta
    · simp only [quiescence, quiescence_value, if_pos hs]
      unfold clamp
      omega
    · have hchild : ∀ m ∈ capture_moves Z b, ∀ a, a < beta →
          -quiescence Z S n (make_move Z b m) (-beta) (-a) =
            clamp (-quiescence_value Z S n (make_move Z b m)) a beta := by
        intro m _ a ha
        rw [ih _ _ _ (by omega), clamp_neg _ _ _ (by omega)]
      have hloop := cutoff_loop_clamped
        (fun move a => -quiescence Z S n (make_move Z b move) (-beta) (-a))
        (fun m => -quiescence_value Z S n (make_move Z b m))
        (max alpha (evaluate S.m_evaluator b)) beta (capture_moves Z b)
        (fun m hm a _ ha => hchild m hm a ha)
        (max alpha (evaluate S.m_evaluator b)) (le_refl _) (by omega)
      have hinit : (if evaluate S.m_evaluator b > alpha then evaluate S.m_evaluator b
          else alpha) = max alpha (evaluate S.m_evaluator b) := by
        split_ifs <;> omega
      unfold capture_moves at hloop
      simp only [quiescence, quiescence_value, if_neg hs, hinit, hloop]
      rw [fold_max_init]
      unfold clamp capture_moves
      omega

/-- The quiescence search on a window inside `[-INF, INF]` returns its
full-window value clamped to the window. -/
theorem quiescence_full_window (Z : Zobrist) (S : Searcher) (fuel : Nat) (b : Board)
    (alpha beta : Int) (h1 : -INF ≤ alpha) (h2 : alpha < beta) (h3 : beta ≤ INF) :
    quiescence Z S fuel b alpha beta =
      clamp (quiescence Z S fuel b (-INF) INF) alpha beta := by
  rw [quiescence_clamped Z S fuel b alpha beta h2,
    quiescence_clamped Z S fuel b (-INF) INF (by decide),
    clamp_clamp _ _ _ _ _ h1 (le_of_lt h2) h3]

theorem negamax_succ (Z : Zobrist) (S : Searcher) (qfuel d : Nat) (b : Board) :
    negamax Z S qfuel (d + 1) b =
      (generate_legal_moves Z b).foldl
        (fun best move => max best (-negamax Z S qfuel d (make_move Z b move))) (-INF) := rfl

theorem cast_succ_sub_one (d : Nat) : ((d + 1 : Nat) : Int) - 1 = (d : Int) := by
  push_cast
  ring

/-- The principal variation search returns the negamax value clamped to the
window. -/
theorem pvs_clamped (Z : Zobrist) (S : Searcher) (qfuel : Nat) : ∀ (d fuel : Nat), d ≤ fuel →
    ∀ (ply : Nat) (b : Board) (alpha beta : Int) (nm : Bool),
      -INF ≤ alpha → alpha < beta → beta ≤ INF →
      pvs Z S qfuel fuel (d : Int) ply b alpha beta nm =
        clamp (negamax Z S qfuel d b) alpha beta := by
  intro d
  induction d with
  | zero =>
    intro fuel _ ply b alpha beta nm h1 h2 h3
    cases fuel with
    | zero =>
      simp only [pvs, negamax]
      exact quiescence_full_window Z S qfuel b alpha beta h1 h2 h3
    | succ n =>
      simp only [pvs, negamax]
      rw [if_pos (by simp)]
      exact quiescence_full_window Z S qfuel b alpha beta h1 h2 h3
  | succ d ih =>
    intro fuel hf ply b alpha beta nm h1 h2 h3
    obtain ⟨n, rfl⟩ : ∃ n, fuel = n + 1 := ⟨fuel - 1, by omega⟩
    have hpos : ¬ (((d + 1 : Nat) : Int) ≤ 0) := by push_cast; omega
    have hchild : ∀ m ∈ order_moves S b ply (generate_legal_moves Z b) ⟨A1, A1, NONE_PIECE⟩,
        ∀ a c, -INF ≤ a → a < c → c ≤ INF →
          pvs Z S qfuel n (((d + 1 : Nat) : Int) - 1) ply (make_move Z b m) a c true =
            clamp (negamax Z S qfuel d (make_move Z b m)) a c := by
      intro m _ a c ha hac hc
      rw [cast_succ_sub_one]
      exact ih n (by omega) ply _ a c true ha hac hc
    have hloop := pvs_loop_clamped
      (fun move a c => pvs Z S qfuel n (((d + 1 : Nat) : Int) - 1) ply (make_move Z b move) a c
        true)
      (fun m => negamax Z S qfuel d (make_move Z b m)) beta h3 _ hchild alpha true h1 h2
    simp only [pvs, if_neg hpos]
    rw [hloop, negamax_succ]
    have hperm := fold_max_perm (fun m => -negamax Z S qfuel d (make_move Z b m)) _ _
      (std_sort_perm (move_before S b ply ⟨A1, A1, NONE_PIECE⟩) (generate_legal_moves Z b)) alpha
    unfold order_moves
    rw [hperm]
    have hinit := fold_max_init (fun m => -negamax Z S qfuel d (make_move Z b m))
      (generate_legal_moves Z b) alpha (-INF)
    rw [max_eq_left h1] at hinit
    rw [hinit]
    unfold clamp
    omega

/-- Where the null-move test cannot be made (depth at most 2), `alpha_beta`
returns the negamax value clamped to the window. -/
theorem alpha_beta_clamped (Z : Zobrist) (S : Searcher) (qfuel : Nat) : ∀ (d fuel : Nat),
    d ≤ 2 → d ≤ fuel →
    ∀ (ply : Nat) (b : Board) (alpha beta : Int) (nm : Bool),
      -INF ≤ alpha → alpha < beta → beta ≤ INF →
      alpha_beta Z S qfuel fuel (d : Int) ply b alpha beta nm =
        clamp (negamax Z S qfuel d b) alpha beta := by
  intro d
  induction d with
  | zero =>
    intro fuel _ _ ply b alpha beta nm h1 h2 h3
    cases fuel with
    | zero =>
      simp only [alpha_beta, negamax]
      exact quiescence_full_window Z S qfuel b alpha beta h1 h2 h3
    | succ n =>
      simp only [alpha_beta, negamax]
      rw [if_pos (by simp)]
      exact quiescence_full_window Z S qfuel b alpha beta h1 h2 h3
  | succ d ih =>
    intro fuel hd hf ply b alpha beta nm h1 h2 h3
    obtain ⟨n, rfl⟩ : ∃ n, fuel = n + 1 := ⟨fuel - 1, by omega⟩
    have hpos : ¬ (((d + 1 : Nat) : Int) ≤ 0) := by push_cast; omega
    have hnull : (nm && decide (((d + 1 : Nat) : Int) ≥ 3)) = false := by
      have : decide (((d + 1 : Nat) : Int) ≥ 3) = false := by
        rw [decide_eq_false_iff_not]
        push_cast
        omega
      rw [this, Bool.and_false]
    have hchild : ∀ m ∈ order_moves S b ply (generate_legal_moves Z b) ⟨A1, A1, NONE_PIECE⟩,
        ∀ a, alpha ≤ a → a < beta →
          -alpha_beta Z S qfuel n (((d + 1 : Nat) : Int) - 1) (ply + 1) (make_move Z b m)
              (-beta) (-a) true =
            clamp (-negamax Z S qfuel d (make_move Z b m)) a beta := by
      intro m _ a ha hab
      rw [cast_succ_sub_one, ih n (by omega) (by omega) (ply + 1) _ (-beta) (-a) true
        (by omega) (by omega) (by omega), clamp_neg _ _ _ (by omega)]
    have hloop := cutoff_loop_clamped
      (fun move a => -alpha_beta Z S qfuel n (((d + 1 : Nat) : Int) - 1) (ply + 1)
        (make_move Z b move) (-beta) (-a) true)
      (fun m => -negamax Z S qfuel d (make_move Z b m)) alpha beta _ hchild alpha (le_refl _) h2
    simp only [alpha_beta, if_neg hpos, hnull, Bool.false_and, Bool.false_eq_true, if_false]
    rw [hloop, negamax_succ]
    have hperm := fold_max_perm (fun m => -negamax Z S qfuel d (make_move Z b m)) _ _
      (std_sort_perm (move_before S b ply ⟨A1, A1, NONE_PIECE⟩) (generate_legal_moves Z b)) alpha
    unfold order_moves
    rw [hperm]
    have hinit := fold_max_init (fun m => -negamax Z S qfuel d (make_move Z b m))
      (generate_legal_moves Z b) alpha (-INF)
    rw [max_eq_left h1] at hinit
    rw [hinit]
    unfold clamp
    omega

/-- C39: PVS agrees with plain fail-hard negamax. For every board, depth
`d >= 0` and window with `-INF <= alpha < beta <= INF`, `pvs` returns the
full-width negamax value of depth `d` (the quiescence value at the leaves,
`-INF` at a node with no legal moves) clamped to `[alpha, beta]`; and for
`d <= 2`, where the null-move test cannot be made, `alpha_beta` returns the
same value as `pvs`. -/
theorem C39_pvs_is_clamped_negamax (Z : Zobrist) (S : Searcher) (qfuel d fuel ply : Nat)
    (board : Board) (alpha beta : Int) (null_move : Bool) (hfuel : d ≤ fuel)
    (h1 : -INF ≤ alpha) (h2 : alpha < beta) (h3 : beta ≤ INF) :
    pvs Z S qfuel fuel (d : Int) ply board alpha beta null_move =
      clamp (negamax Z S qfuel d board) alpha beta ∧
    (d ≤ 2 → alpha_beta Z S qfuel fuel (d : Int) ply board alpha beta true =
      pvs Z S qfuel fuel (d : Int) ply board alpha beta null_move) := by
  have hp := pvs_clamped Z S qfuel d fuel hfuel ply board alpha beta null_move h1 h2 h3
  refine ⟨hp, fun hd => ?_⟩
  rw [hp]
  exact alpha_beta_clamped Z S qfuel d fuel hd hfuel ply board alpha beta true h1 h2 h3

set_option maxRecDepth 100000 in
/-- C39 on `8/8/8/8/8/8/8/k6K w - - 0 1` at depth 1 with the full window. -/
theorem C39_pvs_is_clamped_negamax_witness :
    (1 : Nat) ≤ 1 ∧ -INF ≤ -INF ∧ -INF < INF ∧ INF ≤ INF ∧
    pvs test_keys (Searcher_ctor {} none) QFUEL 1 ((1 : Nat) : Int) 0
        (from_fen "8/8/8/8/8/8/8/k6K w - - 0 1") (-INF) INF true =
      clamp (negamax test_keys (Searcher_ctor {} none) QFUEL 1
        (from_fen "8/8/8/8/8/8/8/k6K w - - 0 1")) (-INF) INF ∧
    ((1 : Nat) ≤ 2 → alpha_beta test_keys (Searcher_ctor {} none) QFUEL 1 ((1 : Nat) : Int) 0
        (from_fen "8/8/8/8/8/8/8/k6K w - - 0 1") (-INF) INF true =
      pvs test_keys (Searcher_ctor {} none) QFUEL 1 ((1 : Nat) : Int) 0
        (from_fen "8/8/8/8/8/8/8/k6K w - - 0 1") (-INF) INF true) :=
  ⟨by decide, by decide, by decide, by decide,
   C39_pvs_is_clamped_negamax test_keys (Searcher_ctor {} none) QFUEL 1 1 0
     (from_fen "8/8/8/8/8/8/8/k6K w - - 0 1") (-INF) INF true (by decide) (by decide)
     (by decide) (by decide)⟩

/-! ## Claim C40 -/

end ViperChess
